import Mathlib

/-!
Verification of the eazyclass schedule-synchronization core.

The definitions below are a shallow embedding of
`src/scheduler/tasks/lessons_parser.py` and
`src/eazyclass/scheduler/managers.py`:
pure Python functions become Lean functions, the Django cache and the
database become explicit state that is threaded through the functions,
and `requests` failures become `Except` values.  Python `datetime.date`
values are modelled by a `Date` structure ordered lexicographically, and
`datetime.strptime(s, "%d.%m.%Y")` by an executable parser that performs
the same calendar validation.  Cache keys (md5 digests of
`model_name + json.dumps(params, sort_keys=True)` in the source) are
modelled as the pre-digest pair of model name and sorted parameter list,
which is faithful up to md5 collisions.
-/

namespace Eazy

/-- A calendar date, as produced by `datetime.strptime(...).date()`. -/
structure Date where
  year : Nat
  month : Nat
  day : Nat
deriving DecidableEq, Repr

/-- Lexicographic `≤` on dates, matching `datetime.date` ordering. -/
def Date.le (a b : Date) : Bool :=
  decide (a.year < b.year) ||
    (decide (a.year = b.year) &&
      (decide (a.month < b.month) ||
        (decide (a.month = b.month) && decide (a.day ≤ b.day))))

/-- Gregorian leap-year test, as used by `datetime`'s calendar validation. -/
def isLeap (y : Nat) : Bool :=
  y % 4 = 0 && (y % 100 ≠ 0 || y % 400 = 0)

/-- Number of days in a month, as validated by `datetime.strptime`. -/
def daysInMonth (y m : Nat) : Nat :=
  if m = 2 then (if isLeap y then 29 else 28)
  else if m = 4 ∨ m = 6 ∨ m = 9 ∨ m = 11 then 30
  else 31

/-- Python `str.strip()` on a character list: drop whitespace at both ends.
(Defined over `List Char` so that the kernel can evaluate it; Lean's
built-in `String.trim` does not reduce definitionally.) -/
def trimCh (xs : List Char) : List Char :=
  ((xs.dropWhile Char.isWhitespace).reverse.dropWhile Char.isWhitespace).reverse

/-- Python `str.strip()`. -/
def pyStrip (s : String) : String :=
  String.mk (trimCh s.data)

/-- The two parts around the first occurrence of `sep` in `xs`, if any. -/
def findSplit (sep : List Char) : List Char → Option (List Char × List Char)
  | [] => if sep = [] then some ([], []) else none
  | c :: rest =>
    if (c :: rest).take sep.length = sep then some ([], (c :: rest).drop sep.length)
    else (findSplit sep rest).map (fun p => (c :: p.1, p.2))

/-- The prefix of `xs` before the first occurrence of `sep` (all of `xs`
when `sep` does not occur): Python `xs.split(sep)[0]` for nonempty `sep`. -/
def beforeSep (sep xs : List Char) : List Char :=
  match findSplit sep xs with
  | none => xs
  | some p => p.1

/-- Python `str.split('.')` on a character list. -/
def splitOnDot : List Char → List (List Char)
  | [] => [[]]
  | c :: rest =>
    match splitOnDot rest with
    | [] => [[]]
    | h :: t => if c = '.' then [] :: h :: t else (c :: h) :: t

/-- Digits-only test for a nonempty character list. -/
def allDigits (xs : List Char) : Bool :=
  !xs.isEmpty && xs.all Char.isDigit

/-- Decimal value of a digit character list. -/
def digitsToNat (xs : List Char) : Nat :=
  xs.foldl (fun n c => n * 10 + (c.toNat - 48)) 0

/-- `datetime.strptime(s, "%d.%m.%Y").date()`: day and month are one or two
digit fields, the year exactly four digits, and the day must exist in the
given month (otherwise `ValueError`). Returns `none` where Python raises. -/
def strptimeDMY (s : String) : Option Date :=
  match splitOnDot s.data with
  | [ds, ms, ys] =>
    if allDigits ds && allDigits ms && allDigits ys &&
        decide (ds.length ≤ 2) && decide (ms.length ≤ 2) && decide (ys.length = 4) then
      let d := digitsToNat ds
      let m := digitsToNat ms
      let y := digitsToNat ys
      if decide (1 ≤ m) && decide (m ≤ 12) && decide (1 ≤ d) && decide (d ≤ daysInMonth y m) then
        some ⟨y, m, d⟩
      else none
    else none
  | _ => none

/-- One `<tr class="shadow">` row of the schedule table: either a row that
contains a cell with a `colspan` attribute (a section row, with its joined
text), or an ordinary row with the texts of its `<td>` cells. -/
inductive Row
  | sec (text : String)
  | data (cells : List String)
deriving DecidableEq, Repr

/-- The dictionary built per retained row by `parse_group_schedule_soup`.
The "empty schedule" sentinel appended by `parse_group_lessons_data`
carries only `group_id`; its other keys are absent in Python, modelled
here by the defaults (`none` / `""`), which are never read before the
`'date' not in data` check skips the entry. -/
structure Entry where
  group_id : Nat
  date : Option Date := none
  lesson_number : String := ""
  subject_title : String := ""
  classroom_title : String := ""
  teacher_name : String := ""
  subgroup : String := ""
deriving DecidableEq, Repr

/-- Python `a or b` for strings: the default is used when the text is empty. -/
def orDefault (s d : String) : String :=
  if s = "" then d else s

/-- `row.text.strip().split(' - ')[0]` of a section row. -/
def dateStrOf (text : String) : String :=
  String.mk (beforeSep " - ".data (trimCh text.data))

/-- The lesson dictionary built from a five-cell row (source lines 190-198).
Note that `lesson_number` (`cells[0].text.strip()`) has no default. -/
def mkEntry (gid : Nat) (d : Date) (cells : List String) : Entry :=
  { group_id := gid
    date := some d
    lesson_number := pyStrip (cells.getD 0 "")
    subject_title := orDefault (pyStrip (cells.getD 1 "")) "не указано"
    classroom_title := orDefault (pyStrip (cells.getD 2 "")) "(дист)"
    teacher_name := orDefault (pyStrip (cells.getD 3 "")) "не указано"
    subgroup := orDefault (pyStrip (cells.getD 4 "")) "0" }

/-- The row loop of `parse_group_schedule_soup`, with the running
`current_date` made explicit.  A section row first resets `current_date`
to `None`, then installs the parsed date on success (`continue` on
failure); an ordinary row is interpreted only when `current_date` is set
and has exactly five cells. -/
def parseRows (gid : Nat) : Option Date → List Row → List Entry
  | _, [] => []
  | _, Row.sec t :: rest =>
    match strptimeDMY (dateStrOf t) with
    | some d => parseRows gid (some d) rest
    | none => parseRows gid none rest
  | none, Row.data _ :: rest => parseRows gid none rest
  | some d, Row.data cells :: rest =>
    if cells.length = 5 then mkEntry gid d cells :: parseRows gid (some d) rest
    else parseRows gid (some d) rest

/-- `parse_group_schedule_soup(group_id, soup)` over the rows found by
`soup.find_all('tr', class_='shadow')`. -/
def parse_group_schedule_soup (gid : Nat) (soup : List Row) : List Entry :=
  parseRows gid none soup

/-- Spec-side parser (for the refinement claim about §4.2/§8): entries are
attributed to the nearest preceding section row.  The state is that
section row's text (`none` before any section row); a data row yields an
entry exactly when it has five cells and the governing section row's date
parses, and the entry is dated with that parsed date. -/
def specEntriesFrom (gid : Nat) : Option String → List Row → List Entry
  | _, [] => []
  | _, Row.sec t :: rest => specEntriesFrom gid (some t) rest
  | none, Row.data _ :: rest => specEntriesFrom gid none rest
  | some t, Row.data cells :: rest =>
    match strptimeDMY (dateStrOf t) with
    | some d =>
      if cells.length = 5 then mkEntry gid d cells :: specEntriesFrom gid (some t) rest
      else specEntriesFrom gid (some t) rest
    | none => specEntriesFrom gid (some t) rest

/-- Spec-side parser, started with no governing section. -/
def specEntries (gid : Nat) (rows : List Row) : List Entry :=
  specEntriesFrom gid none rows

/-- Rows exhibiting that `lesson_number` is taken verbatim: the first cell
is empty after stripping, yet the row is retained. -/
def c9Rows : List Row :=
  [Row.sec "01.09.2024 - Понедельник", Row.data ["", "Математика", "101", "Иванов И.И.", "1"]]

/-! ## The cache, the database rows and the module state -/

/-- A JSON scalar as serialized by `json.dumps` inside `generate_cache_key`
(strings stay strings, integer ids stay numbers). -/
inductive JVal
  | s (v : String)
  | n (v : Nat)
deriving DecidableEq, Repr

/-- `generate_cache_key` hashes `model_class.__name__ + json.dumps(params,
sort_keys=True)` with md5.  We model the key as the pre-digest data: the
model name together with the parameter list sorted by key, which is
injective exactly when md5 is collision-free. -/
abbrev CKey := String × List (String × JVal)

/-- `Teacher` row: surrogate id and the natural key `full_name`. -/
structure Teacher where
  id : Nat
  full_name : String
deriving DecidableEq, Repr

/-- `Classroom` row: surrogate id and the natural key `title`. -/
structure Classroom where
  id : Nat
  title : String
deriving DecidableEq, Repr

/-- `Subject` row: surrogate id and the natural key `title`. -/
structure Subject where
  id : Nat
  title : String
deriving DecidableEq, Repr

/-- `LessonTime` row: surrogate id and the natural key (date, lesson_number). -/
structure LessonTime where
  id : Nat
  date : Date
  lesson_number : String
deriving DecidableEq, Repr

/-- `Group` row: id, relative link of its schedule page, active flag. -/
structure Group where
  id : Nat
  link : String
  is_active : Bool
deriving DecidableEq, Repr

/-- `Lesson` row; the foreign keys are stored as ids.  `is_active`
defaults to `True` in the model (`models.py` line 160). -/
structure Lesson where
  id : Nat
  group_id : Nat
  subgroup : String
  lesson_time_id : Nat
  teacher_id : Nat
  classroom_id : Nat
  subject_id : Nat
  is_active : Bool
deriving DecidableEq, Repr

/-- A value stored in the Django cache: a cached model instance, or the
timestamp stored for a lesson fingerprint by `cache_lesson_key`. -/
inductive CVal
  | teacherV (t : Teacher)
  | classroomV (c : Classroom)
  | subjectV (s : Subject)
  | lessonTimeV (lt : LessonTime)
  | groupV (g : Group)
  | tsV (t : Nat)
deriving DecidableEq, Repr

/-- Python truthiness of a cached value: model instances are truthy, a
numeric timestamp is falsy exactly when it is zero. -/
def CVal.truthy : CVal → Bool
  | tsV t => decide (t ≠ 0)
  | _ => true

/-- The Django cache, as an association list; TTLs are not modelled (no
expiry happens within the runs the claims quantify over). -/
abbrev Cache := List (CKey × CVal)

/-- `cache.get(key)`: `None` when the key is absent. -/
def cacheGet (c : Cache) (k : CKey) : Option CVal :=
  (c.find? (fun p => decide (p.1 = k))).map (·.2)

/-- `cache.set(key, value, timeout)`: overwrite any previous binding. -/
def cacheSet (c : Cache) (k : CKey) (v : CVal) : Cache :=
  (k, v) :: c.filter (fun p => decide (p.1 ≠ k))

/-- `cache.delete(key)`. -/
def cacheDelete (c : Cache) (k : CKey) : Cache :=
  c.filter (fun p => decide (p.1 ≠ k))

/-- Key used by `get_or_create_cached(Teacher, {'full_name': ...})`. -/
def teacherKey (full_name : String) : CKey :=
  ("Teacher", [("full_name", JVal.s full_name)])

/-- Key used by `get_or_create_cached(Classroom, {'title': ...})`. -/
def classroomKey (title : String) : CKey :=
  ("Classroom", [("title", JVal.s title)])

/-- Key used by `get_or_create_cached(Subject, {'title': ...})`. -/
def subjectKey (title : String) : CKey :=
  ("Subject", [("title", JVal.s title)])

/-- `date.isoformat()`: `YYYY-MM-DD` with two-digit month and day. -/
def pad2 (n : Nat) : String :=
  if n < 10 then "0" ++ toString n else toString n

/-- ISO serialization of a date, as substituted into the key parameters by
`generate_cache_key` (`params['date'] = params['date'].isoformat()`). -/
def Date.iso (d : Date) : String :=
  toString d.year ++ "-" ++ pad2 d.month ++ "-" ++ pad2 d.day

/-- Key used by `get_or_create_cached(LessonTime, {'date': ..,
'lesson_number': ..})`; `json.dumps(..., sort_keys=True)` orders the
parameters alphabetically. -/
def lessonTimeKey (d : Date) (lesson_number : String) : CKey :=
  ("LessonTime", [("date", JVal.s d.iso), ("lesson_number", JVal.s lesson_number)])

/-- Key used by `get_cached_by_id(Group, obj_id)`: the parameter dict is
`{model.__name__: obj_id}`. -/
def groupByIdKey (gid : Nat) : CKey :=
  ("Group", [("Group", JVal.n gid)])

/-- `make_lesson_cache_key(lesson)`: the fingerprint key of a lesson, with
the six parameters in `sort_keys=True` order. -/
def make_lesson_cache_key (l : Lesson) : CKey :=
  ("Lesson",
    [("classroom_id", JVal.n l.classroom_id),
     ("group_id", JVal.n l.group_id),
     ("lesson_time_id", JVal.n l.lesson_time_id),
     ("subgroup", JVal.s l.subgroup),
     ("subject_id", JVal.n l.subject_id),
     ("teacher_id", JVal.n l.teacher_id)])

/-- The module state threaded through the tasks: the shared cache, the
database tables, the id sequence used for newly created rows, and the
process-wide `current_timestamp` global. -/
structure St where
  cache : Cache
  teachers : List Teacher
  classrooms : List Classroom
  subjects : List Subject
  lesson_times : List LessonTime
  groups : List Group
  lessons : List Lesson
  next_id : Nat
  current_timestamp : Nat
deriving DecidableEq, Repr

/-! ## Cache-aside resolvers

`get_or_create_cached(model_class, defaults)` is generic in the source; it
is instantiated here once per call site.  In each one, `if not obj:`
takes the cached branch only for a truthy cached value; under the key
discipline of this module a key tagged with a model name only ever holds
a value of that model (see the well-formedness predicate `WFCache`
below), so a cached value of any other shape is folded into the miss
branch, which is unreachable in well-formed states. -/

/-- `get_or_create_cached(Teacher, {'full_name': full_name})`. -/
def get_or_create_teacher (st : St) (full_name : String) : Teacher × St :=
  let key := teacherKey full_name
  match cacheGet st.cache key with
  | some (CVal.teacherV t) => (t, st)
  | _ =>
    match st.teachers.find? (fun t => decide (t.full_name = full_name)) with
    | some t => (t, { st with cache := cacheSet st.cache key (CVal.teacherV t) })
    | none =>
      let t : Teacher := { id := st.next_id, full_name := full_name }
      (t, { st with teachers := st.teachers ++ [t], next_id := st.next_id + 1,
                    cache := cacheSet st.cache key (CVal.teacherV t) })

/-- `get_or_create_cached(Classroom, {'title': title})`. -/
def get_or_create_classroom (st : St) (title : String) : Classroom × St :=
  let key := classroomKey title
  match cacheGet st.cache key with
  | some (CVal.classroomV c) => (c, st)
  | _ =>
    match st.classrooms.find? (fun c => decide (c.title = title)) with
    | some c => (c, { st with cache := cacheSet st.cache key (CVal.classroomV c) })
    | none =>
      let c : Classroom := { id := st.next_id, title := title }
      (c, { st with classrooms := st.classrooms ++ [c], next_id := st.next_id + 1,
                    cache := cacheSet st.cache key (CVal.classroomV c) })

/-- `get_or_create_cached(Subject, {'title': title})`. -/
def get_or_create_subject (st : St) (title : String) : Subject × St :=
  let key := subjectKey title
  match cacheGet st.cache key with
  | some (CVal.subjectV s) => (s, st)
  | _ =>
    match st.subjects.find? (fun s => decide (s.title = title)) with
    | some s => (s, { st with cache := cacheSet st.cache key (CVal.subjectV s) })
    | none =>
      let s : Subject := { id := st.next_id, title := title }
      (s, { st with subjects := st.subjects ++ [s], next_id := st.next_id + 1,
                    cache := cacheSet st.cache key (CVal.subjectV s) })

/-- `get_or_create_cached(LessonTime, {'date': d, 'lesson_number': n})`. -/
def get_or_create_lesson_time (st : St) (d : Date) (n : String) : LessonTime × St :=
  let key := lessonTimeKey d n
  match cacheGet st.cache key with
  | some (CVal.lessonTimeV lt) => (lt, st)
  | _ =>
    match st.lesson_times.find? (fun lt => decide (lt.date = d ∧ lt.lesson_number = n)) with
    | some lt => (lt, { st with cache := cacheSet st.cache key (CVal.lessonTimeV lt) })
    | none =>
      let lt : LessonTime := { id := st.next_id, date := d, lesson_number := n }
      (lt, { st with lesson_times := st.lesson_times ++ [lt], next_id := st.next_id + 1,
                     cache := cacheSet st.cache key (CVal.lessonTimeV lt) })

/-- `get_cached_by_id(Group, obj_id)`.  On a cache hit the cached row is
returned.  On a miss the row is looked up in the database and cached, but
the function then falls off the end of its `try` block without a `return`
statement (source lines 153-159), so it returns `None` even when the row
exists. -/
def get_cached_by_id_group (st : St) (gid : Nat) : Option Group × St :=
  let key := groupByIdKey gid
  match cacheGet st.cache key with
  | some (CVal.groupV g) => (some g, st)
  | _ =>
    match st.groups.find? (fun g => decide (g.id = gid)) with
    | some g => (none, { st with cache := cacheSet st.cache key (CVal.groupV g) })
    | none => (none, st)

/-! ## The reconciler: create phase and sweep phase -/

/-- The accumulator of the entry loop in `save_lessons`. -/
structure SaveAcc where
  st : St
  to_create : List Lesson
  affected : Finset Date

/-- One iteration of the `save_lessons` entry loop (source lines 247-276):
skip entries lacking a date, resolve the dimension rows, skip the entry
when the group lookup returns `None`, build the candidate lesson, queue
it when its fingerprint key has no truthy cached value, and
unconditionally (re)write the fingerprint mark with `current_timestamp`. -/
def save_step (acc : SaveAcc) (e : Entry) : SaveAcc :=
  match e.date with
  | none => acc
  | some d =>
    let tr := get_or_create_teacher acc.st e.teacher_name
    let cr := get_or_create_classroom tr.2 e.classroom_title
    let sr := get_or_create_subject cr.2 e.subject_title
    let gr := get_cached_by_id_group sr.2 e.group_id
    match gr.1 with
    | none => { acc with st := gr.2 }
    | some g =>
      let ltr := get_or_create_lesson_time gr.2 d e.lesson_number
      let lesson : Lesson :=
        { id := 0, group_id := g.id, subgroup := e.subgroup,
          lesson_time_id := ltr.1.id, teacher_id := tr.1.id,
          classroom_id := cr.1.id, subject_id := sr.1.id, is_active := true }
      let key := make_lesson_cache_key lesson
      let queued :=
        match cacheGet ltr.2.cache key with
        | some v => !v.truthy
        | none => true
      let acc1 : SaveAcc :=
        if queued then
          { st := ltr.2, to_create := acc.to_create ++ [lesson],
            affected := insert ltr.1.date acc.affected }
        else { acc with st := ltr.2 }
      { acc1 with
        st := { acc1.st with
                  cache := cacheSet acc1.st.cache key (CVal.tsV acc1.st.current_timestamp) } }

/-- `Lesson.objects.bulk_create(...)`: append the queued rows, assigning
fresh sequential ids from the id sequence. -/
def bulk_create_lessons (st : St) (ls : List Lesson) : St :=
  ls.foldl
    (fun s l =>
      { s with lessons := s.lessons ++ [{ l with id := s.next_id }],
               next_id := s.next_id + 1 })
    st

/-- `save_lessons(lessons_data)` (source lines 234-282): run the entry
loop, then bulk-persist the queued lessons; returns the affected dates
and the new state. -/
def save_lessons (st : St) (lessons_data : List Entry) : Finset Date × St :=
  let acc := lessons_data.foldl save_step { st := st, to_create := [], affected := ∅ }
  (acc.affected,
    if acc.to_create = [] then acc.st else bulk_create_lessons acc.st acc.to_create)

/-- The date of a lesson's timeslot, via the `lesson_time` foreign key. -/
def lessonDate (st : St) (l : Lesson) : Option Date :=
  (st.lesson_times.find? (fun lt => decide (lt.id = l.lesson_time_id))).map (·.date)

/-- `Lesson.objects.filter(group__id=group_id, lesson_time__date__gte=today,
is_active=True)`. -/
def sweepSelect (st : St) (gid : Nat) (today : Date) : List Lesson :=
  st.lessons.filter
    (fun l =>
      decide (l.group_id = gid) && l.is_active &&
        (match lessonDate st l with
         | some d => Date.le today d
         | none => false))

/-- `if not cached_timestamp or cached_timestamp != current_timestamp`:
the mark is missing, falsy, or differs from the current timestamp. -/
def staleMark (c : Cache) (cur : Nat) (k : CKey) : Bool :=
  match cacheGet c k with
  | some v => !v.truthy || decide (v ≠ CVal.tsV cur)
  | none => true

/-- The accumulator of the queryset loop in `deactivate_canceled_lessons`. -/
structure SweepAcc where
  cache : Cache
  ids : Finset Nat
  affected : Finset Date

/-- One iteration of the sweep loop (source lines 303-310): a lesson whose
mark is stale is recorded for deactivation, its date is added to the
affected set, and its mark is deleted. -/
def sweep_step (cur : Nat) (st : St) (acc : SweepAcc) (l : Lesson) : SweepAcc :=
  let key := make_lesson_cache_key l
  if staleMark acc.cache cur key then
    { cache := cacheDelete acc.cache key,
      ids := insert l.id acc.ids,
      affected :=
        match lessonDate st l with
        | some d => insert d acc.affected
        | none => acc.affected }
  else acc

/-- `deactivate_canceled_lessons(group_id)` (source lines 285-316): walk
the active future lessons of the group, collect the stale ones, then
apply the deactivations as one bulk update. -/
def deactivate_canceled_lessons (st : St) (gid : Nat) (today : Date) : Finset Date × St :=
  let sel := sweepSelect st gid today
  let acc := sel.foldl (sweep_step st.current_timestamp st)
    { cache := st.cache, ids := ∅, affected := ∅ }
  let lessons1 :=
    if acc.ids = ∅ then st.lessons
    else st.lessons.map (fun l => if l.id ∈ acc.ids then { l with is_active := false } else l)
  (acc.affected, { st with cache := acc.cache, lessons := lessons1 })

/-- `process_group_lessons_data(lessons_data)` (source lines 319-334):
create phase then sweep phase, sweeping the group named by the first
entry; the union of affected dates is computed but only handed to the
commented-out notification call, so the state is the observable result. -/
def process_group_lessons_data (st : St) (lessons_data : List Entry) (today : Date) : St :=
  match lessons_data with
  | [] => st
  | e :: _ =>
    let r1 := save_lessons st lessons_data
    let r2 := deactivate_canceled_lessons r1.2 e.group_id today
    r2.2

/-! ## Fetching and the per-group parse task -/

/-- A parsed document: the rows `find_all('tr', class_='shadow')` yields. -/
abbrev Soup := List Row

/-- The outcome of `get_response_from_url(url)`: the fetched document, or a
`requests.RequestException` (network failure, timeout, or the
non-success status raised by `raise_for_status`). -/
abbrev FetchResult := Except Unit Soup

/-- `get_soup_from_url(url)`: on any exception the error is logged and an
empty `BeautifulSoup()` is returned (source lines 55-60). -/
def get_soup_from_url (fetched : FetchResult) : Soup :=
  match fetched with
  | Except.ok soup => soup
  | Except.error _ => []

/-- Python truthiness of a `BeautifulSoup` object: bs4's `Tag.__bool__`
returns `True` unconditionally ("a tag is non-None even if it has no
contents"), so even the empty soup produced on fetch failure is truthy
and the `if not schedule_soup` branch of `parse_group_lessons_data` is
unreachable. -/
def soup_truthy (_ : Soup) : Bool := true

/-- `MAIN_URL` (source line 15). -/
def MAIN_URL : String := "https://bincol.ru/rasp/"

/-- `parse_group_lessons_data(group_id)` (source lines 204-231), with the
network modelled as a function from URL to fetch outcome.  Returns the
parsed entries (or the one-key sentinel when the parser retained zero
rows) together with the state, whose cache `get_cached_by_id` may have
touched. -/
def parse_group_lessons_data (st : St) (gid : Nat) (fetch : String → FetchResult) :
    List Entry × St :=
  let gr := get_cached_by_id_group st gid
  match gr.1 with
  | none => ([], gr.2)
  | some g =>
    let soup := get_soup_from_url (fetch (MAIN_URL ++ g.link))
    if !soup_truthy soup then ([], gr.2)
    else
      let lessons_data := parse_group_schedule_soup gid soup
      (if lessons_data = [] then [{ group_id := gid }] else lessons_data, gr.2)

/-- `update_schedule()` (source lines 337-358), with the liveness probe
outcome passed in.  The global `current_timestamp` is set first; a probe
failure is caught, logged and swallowed (`return`), so the task returns
normally in both branches — the result is `Except.ok` of the state and
the dispatch action: `none` when the cycle aborted before enumerating
groups, `some ids` when per-group jobs were dispatched for the active
groups. -/
def update_schedule (st : St) (now_ts : Nat) (probe : Except Unit Unit) :
    Except Unit (St × Option (List Nat)) :=
  let st1 := { st with current_timestamp := now_ts }
  match probe with
  | Except.error _ => Except.ok (st1, none)
  | Except.ok _ =>
    let group_ids := (st1.groups.filter (·.is_active)).map (·.id)
    Except.ok (st1, some group_ids)

/-- Modelled from the spec: the behaviour C8 claims for `update_schedule`,
in which a probe `FetchError` is surfaced to the caller (the exception
propagates) instead of being caught and logged. -/
def update_schedule_claimed (st : St) (now_ts : Nat) (probe : Except Unit Unit) :
    Except Unit (St × Option (List Nat)) :=
  let st1 := { st with current_timestamp := now_ts }
  match probe with
  | Except.error e => Except.error e
  | Except.ok _ =>
    let group_ids := (st1.groups.filter (·.is_active)).map (·.id)
    Except.ok (st1, some group_ids)

/-- Key discipline of the cache: a key tagged with a model name holds only
a value of that model (fingerprint keys, tagged `"Lesson"`, hold only
timestamps).  Every write in the source preserves this. -/
def wfVal (k : CKey) (v : CVal) : Prop :=
  (k.1 = "Teacher" → ∃ t, v = CVal.teacherV t) ∧
  (k.1 = "Classroom" → ∃ c, v = CVal.classroomV c) ∧
  (k.1 = "Subject" → ∃ s, v = CVal.subjectV s) ∧
  (k.1 = "LessonTime" → ∃ lt, v = CVal.lessonTimeV lt) ∧
  (k.1 = "Group" → ∃ g, v = CVal.groupV g) ∧
  (k.1 = "Lesson" → ∃ t, v = CVal.tsV t)

/-- A cache every binding of which respects the key discipline. -/
def WFCache (c : Cache) : Prop :=
  ∀ k v, cacheGet c k = some v → wfVal k v

/-- The teacher row cached under the teacher natural key, if any. -/
def cachedTeacher (st : St) (n : String) : Option Teacher :=
  match cacheGet st.cache (teacherKey n) with
  | some (CVal.teacherV t) => some t
  | _ => none

/-- The classroom row cached under the classroom natural key, if any. -/
def cachedClassroom (st : St) (n : String) : Option Classroom :=
  match cacheGet st.cache (classroomKey n) with
  | some (CVal.classroomV c) => some c
  | _ => none

/-- The subject row cached under the subject natural key, if any. -/
def cachedSubject (st : St) (n : String) : Option Subject :=
  match cacheGet st.cache (subjectKey n) with
  | some (CVal.subjectV s) => some s
  | _ => none

/-- The group row cached under the by-id key, if any. -/
def cachedGroupRow (st : St) (gid : Nat) : Option Group :=
  match cacheGet st.cache (groupByIdKey gid) with
  | some (CVal.groupV g) => some g
  | _ => none

/-- The timeslot row cached under the timeslot natural key, if any. -/
def cachedLessonTime (st : St) (d : Date) (n : String) : Option LessonTime :=
  match cacheGet st.cache (lessonTimeKey d n) with
  | some (CVal.lessonTimeV lt) => some lt
  | _ => none

/-- The lookup key of an entry's candidate lesson, computed by pure cache
lookups: defined when all five dimension keys are cached, in which case
it equals the fingerprint key `save_lessons` computes for the entry. -/
def entryKeyAt (st : St) (e : Entry) : Option CKey :=
  match e.date with
  | none => none
  | some d =>
    match cachedTeacher st e.teacher_name, cachedClassroom st e.classroom_title,
        cachedSubject st e.subject_title, cachedGroupRow st e.group_id,
        cachedLessonTime st d e.lesson_number with
    | some t, some c, some sj, some g, some lt =>
      some (make_lesson_cache_key
        { id := 0, group_id := g.id, subgroup := e.subgroup, lesson_time_id := lt.id,
          teacher_id := t.id, classroom_id := c.id, subject_id := sj.id, is_active := true })
    | _, _, _, _, _ => none

/-- Monotonicity relation between caches along the create phase: cached
model instances persist, and fingerprint marks carrying the current
epoch persist. -/
def CacheMono (ts : Nat) (c c' : Cache) : Prop :=
  (∀ k v, cacheGet c k = some v → (∀ t, v ≠ CVal.tsV t) → cacheGet c' k = some v) ∧
  (∀ k, cacheGet c k = some (CVal.tsV ts) → cacheGet c' k = some (CVal.tsV ts))

/-- The invariant maintained by the `save_lessons` entry loop, relative to
the pre-state `st0` (whose cache initially holds no fingerprint marks). -/
structure SaveInv (st0 : St) (acc : SaveAcc) : Prop where
  ts_eq : acc.st.current_timestamp = st0.current_timestamp
  lessons_eq : acc.st.lessons = st0.lessons
  wf : WFCache acc.st.cache
  marks_fresh : ∀ k t, cacheGet acc.st.cache k = some (CVal.tsV t) →
    t = st0.current_timestamp ∧ ∃ l ∈ acc.to_create, make_lesson_cache_key l = k
  queued_marked : ∀ l ∈ acc.to_create,
    cacheGet acc.st.cache (make_lesson_cache_key l) =
      some (CVal.tsV st0.current_timestamp)
  keys_nodup : (acc.to_create.map make_lesson_cache_key).Nodup
  queued_active : ∀ l ∈ acc.to_create, l.is_active = true

/-- The id assignment `bulk_create` performs: sequential ids from `n`. -/
def assignIds (n : Nat) : List Lesson → List Lesson
  | [] => []
  | l :: rest => { l with id := n } :: assignIds (n + 1) rest

/-! ## Bulk get-or-create resolvers (`managers.py`) -/

/-- A Python dict with keys `α` and values `Nat`, as an insertion-ordered
association list with overwrite-on-repeat (`dict(...)` / `dict.update`). -/
def dictInsert {α : Type} [DecidableEq α] (m : List (α × Nat)) (kv : α × Nat) :
    List (α × Nat) :=
  if m.any (fun p => decide (p.1 = kv.1)) then
    m.map (fun p => if p.1 = kv.1 then kv else p)
  else m ++ [kv]

/-- `dict(pairs)`. -/
def dictOf {α : Type} [DecidableEq α] (pairs : List (α × Nat)) : List (α × Nat) :=
  pairs.foldl dictInsert []

/-- `m.update(m2)`. -/
def dictUpdate {α : Type} [DecidableEq α] (m m2 : List (α × Nat)) : List (α × Nat) :=
  m2.foldl dictInsert m

/-- `m.get(k)` / `m[k]`. -/
def dictGet {α : Type} [DecidableEq α] (m : List (α × Nat)) (k : α) : Option Nat :=
  (m.find? (fun p => decide (p.1 = k))).map (·.2)

/-- A database table of rows with surrogate id and natural key `α`:
`Teacher`/`Classroom`/`Subject` rows keyed by their unique field for
`SingleFieldManagerMixin`, and `LessonTime` rows keyed by the
`(date, lesson_number)` pair for `LessonTimeManager`. -/
abbrev KTable (α : Type) := List (Nat × α)

/-- `SingleFieldManagerMixin.get_objects_map(values_set, field_name)`
(`managers.py` lines 20-25): one `field__in` query for the rows whose
unique field is in the set, returned as a dict key → id.  A `field__in`
filter with an empty set matches no rows. -/
def get_objects_map {α : Type} [DecidableEq α] (db : KTable α) (values : List α) :
    List (α × Nat) :=
  dictOf ((db.filter (fun r => decide (r.2 ∈ values))).map (fun r => (r.2, r.1)))

/-- `LessonTimeManager.get_lesson_times_map(lesson_times_set)`
(`managers.py` lines 105-118): the filter is a `models.Q()` to which one
`Q(date=.., lesson_number=..)` disjunct per input pair is OR-accumulated.
A non-empty set therefore matches exactly the rows whose
`(date, lesson_number)` pair is in the set, but the EMPTY set leaves the
empty `Q()`, and `filter(Q())` matches every row of the table. -/
def get_lesson_times_map (db : KTable (Date × String))
    (values : List (Date × String)) : List ((Date × String) × Nat) :=
  dictOf ((db.filter
    (fun r => values.isEmpty || decide (r.2 ∈ values))).map (fun r => (r.2, r.1)))

/-- `SingleFieldManagerMixin.get_or_create_objects_map(unique_values_set,
field_name)` (`managers.py` lines 27-42), generic in the key type: map the
existing natural keys to their ids, bulk-create the missing ones, and
merge their assigned ids into the returned mapping.  The Python set of
input keys is modelled as a duplicate-free list; bulk-created rows
receive fresh sequential ids. -/
def get_or_create_objects_map_g {α : Type} [DecidableEq α]
    (db : KTable α) (next_id : Nat) (values : List α) :
    List (α × Nat) × KTable α × Nat :=
  let m := get_objects_map db values
  let missing := values.filter (fun v => decide (dictGet m v = none))
  if missing.isEmpty then (m, db, next_id)
  else
    let db1 := db ++ (missing.enum.map (fun p => (next_id + p.1, p.2)))
    (dictUpdate m (get_objects_map db1 missing), db1, next_id + missing.length)

/-- `SingleFieldManagerMixin.get_or_create_objects_map` instantiated at a
single string-valued unique field (`managers.py` lines 27-42). -/
def get_or_create_objects_map (db : KTable String) (next_id : Nat) (values : List String) :
    List (String × Nat) × KTable String × Nat :=
  get_or_create_objects_map_g db next_id values

/-- `LessonTimeManager.get_or_create_lesson_times_map` over the natural
key `(date, lesson_number)` (`managers.py` lines 120-140): existing rows
are resolved with `get_lesson_times_map` (whose empty-set filter matches
the whole table), the missing pairs are bulk-created, and the re-query
over the (necessarily non-empty) missing set merges their ids in. -/
def get_or_create_lesson_times_map (db : KTable (Date × String)) (next_id : Nat)
    (values : List (Date × String)) :
    List ((Date × String) × Nat) × KTable (Date × String) × Nat :=
  let m := get_lesson_times_map db values
  let missing := values.filter (fun v => decide (dictGet m v = none))
  if missing.isEmpty then (m, db, next_id)
  else
    let db1 := db ++ (missing.enum.map (fun p => (next_id + p.1, p.2)))
    (dictUpdate m (get_lesson_times_map db1 missing), db1, next_id + missing.length)

/-! ## C6, C7, C8 -/

/-- A group row used by the concrete example states. -/
def exGroup : Group := { id := 1, link := "g1.html", is_active := true }

/-- Example state: group 1 exists in the database, the cache is empty. -/
def exSt : St :=
  { cache := [], teachers := [], classrooms := [], subjects := [],
    lesson_times := [], groups := [exGroup], lessons := [],
    next_id := 10, current_timestamp := 5 }

/-- Example state: group 1 exists in the database and is cached. -/
def exStCached : St :=
  { exSt with cache := [(groupByIdKey 1, CVal.groupV exGroup)] }

/-! ## Sweep-phase lemmas -/

/-- The claim's reading of a stale mark: the `FingerprintMark` is absent or
carries an epoch different from the current cycle's epoch. -/
def markMissingOrDifferent (c : Cache) (cur : Nat) (k : CKey) : Bool :=
  match cacheGet c k with
  | some (CVal.tsV t) => decide (t ≠ cur)
  | some _ => true
  | none => true

/-- The lessons the sweep deactivates, per the claim: active, timeslot date
today or later, and fingerprint mark absent or stamped with a different
epoch. -/
def shouldDeactivate (st : St) (gid : Nat) (today : Date) (l : Lesson) : Bool :=
  decide (l.group_id = gid) && l.is_active &&
    (match lessonDate st l with
     | some d => Date.le today d
     | none => false) &&
    markMissingOrDifferent st.cache st.current_timestamp (make_lesson_cache_key l)

/-- A timeslot and a lesson used by the concrete sweep witness. -/
def c2LT : LessonTime := { id := 2, date := ⟨2024, 9, 2⟩, lesson_number := "1" }

/-- An active future lesson with no cached mark, due for deactivation. -/
def c2Lesson : Lesson :=
  { id := 3, group_id := 1, subgroup := "0", lesson_time_id := 2,
    teacher_id := 4, classroom_id := 5, subject_id := 6, is_active := true }

/-- State for the concrete sweep witness. -/
def c2St : St :=
  { cache := [], teachers := [], classrooms := [], subjects := [],
    lesson_times := [c2LT], groups := [exGroup], lessons := [c2Lesson],
    next_id := 10, current_timestamp := 5 }

/-- The entry list used by the create-phase witness. -/
def c1Ld : List Entry :=
  [{ group_id := 1, date := some ⟨2024, 9, 2⟩, lesson_number := "1",
     subject_title := "Математика", classroom_title := "101",
     teacher_name := "Иванов И.И.", subgroup := "0" }]

/-- State for the C5 witness: group cached, one active future lesson whose
mark is absent. -/
def c5St : St :=
  { cache := [(groupByIdKey 1, CVal.groupV exGroup)], teachers := [], classrooms := [],
    subjects := [], lesson_times := [c2LT], groups := [exGroup], lessons := [c2Lesson],
    next_id := 10, current_timestamp := 5 }

/-- The parser state used by the source (the parsed date, `None` after a
parse failure) refines the spec state (the governing section row text). -/
theorem parseRows_eq_specEntriesFrom (gid : Nat) (rows : List Row) :
    ∀ gov : Option String,
      parseRows gid (gov.bind (fun t => strptimeDMY (dateStrOf t))) rows =
        specEntriesFrom gid gov rows := by
  induction rows with
  | nil => intro gov; cases gov <;> simp [parseRows, specEntriesFrom]
  | cons r rest ih =>
    intro gov
    cases r with
    | sec t =>
      have h1 : specEntriesFrom gid gov (Row.sec t :: rest) =
          specEntriesFrom gid (some t) rest := by
        cases gov <;> rfl
      rw [h1, ← ih (some t)]
      cases hgov : gov with
      | none =>
        simp only [Option.bind]
        cases hd : strptimeDMY (dateStrOf t) <;> simp [parseRows, hd]
      | some t0 =>
        cases hd0 : strptimeDMY (dateStrOf t0) <;>
          cases hd : strptimeDMY (dateStrOf t) <;>
            simp [parseRows, Option.bind, hd0, hd]
    | data cells =>
      cases hgov : gov with
      | none =>
        simpa [parseRows, specEntriesFrom, Option.bind] using ih none
      | some t =>
        cases hd : strptimeDMY (dateStrOf t) with
        | none =>
          simpa [parseRows, specEntriesFrom, Option.bind, hd] using ih (some t)
        | some d =>
          by_cases h5 : cells.length = 5 <;>
            simpa [parseRows, specEntriesFrom, Option.bind, hd, h5] using ih (some t)

/-- C4: the parser produces exactly the entries attributed by the
nearest-preceding-successful-section discipline: one entry per five-cell
data row governed by a successfully parsed section row, dated with that
section's date; rows after a failed section row yield nothing until the
next successful section row. -/
theorem parser_attributes_by_nearest_section (gid : Nat) (rows : List Row) :
    parse_group_schedule_soup gid rows = specEntries gid rows := by
  simpa [parse_group_schedule_soup, specEntries, Option.bind] using
    parseRows_eq_specEntriesFrom gid rows none

/-- Every entry the row loop produces comes from `mkEntry`. -/
theorem mem_parseRows (gid : Nat) :
    ∀ (rows : List Row) (cur : Option Date) (e : Entry),
      e ∈ parseRows gid cur rows → ∃ d cells, e = mkEntry gid d cells := by
  intro rows
  induction rows with
  | nil => intro cur e he; simp [parseRows] at he
  | cons r rest ih =>
    intro cur e he
    cases r with
    | sec t =>
      cases hd : strptimeDMY (dateStrOf t) with
      | none => rw [parseRows, hd] at he; exact ih none e he
      | some d => rw [parseRows, hd] at he; exact ih (some d) e he
    | data cells =>
      cases cur with
      | none => rw [parseRows] at he; exact ih none e he
      | some d =>
        rw [parseRows] at he
        by_cases h5 : cells.length = 5
        · rw [if_pos h5] at he
          rcases List.mem_cons.mp he with h | h
          · exact ⟨d, cells, h⟩
          · exact ih (some d) e h
        · rw [if_neg h5] at he; exact ih (some d) e he

/-- A defaulted field is never the empty string when the default is not. -/
theorem orDefault_ne_empty (s d : String) (hd : d ≠ "") : orDefault s d ≠ "" := by
  unfold orDefault
  by_cases h : s = ""
  · simp only [h, if_pos rfl]; exact hd
  · simp only [if_neg h]; exact h

/-- C9 counterexample: the claim says no field of a produced entry is ever
the empty string, but the first cell (`lesson_number`) has no sentinel
default in the source (line 192), so an empty first cell yields an entry
whose `lesson_number` is `""`. -/
theorem lesson_number_empty_counterexample :
    ∃ e ∈ parse_group_schedule_soup 7 c9Rows, e.lesson_number = "" := by
  decide

/-- C9 amended: of the five extracted fields only subject title, classroom
title, teacher name and subgroup are replaced by sentinel defaults when
their cell text strips to empty, so none of those four fields of a
produced entry is ever the empty string; `lesson_number` is taken
verbatim and may be empty. -/
theorem entry_fields_defaulted (gid : Nat) (rows : List Row) (e : Entry)
    (he : e ∈ parse_group_schedule_soup gid rows) :
    e.subject_title ≠ "" ∧ e.classroom_title ≠ "" ∧
      e.teacher_name ≠ "" ∧ e.subgroup ≠ "" := by
  obtain ⟨d, cells, rfl⟩ := mem_parseRows gid rows none e he
  refine ⟨?_, ?_, ?_, ?_⟩ <;>
    apply orDefault_ne_empty <;> decide

/-- Witness for the amended C9 theorem at a concrete document. -/
theorem entry_fields_defaulted_witness :
    ∃ e ∈ parse_group_schedule_soup 7 c9Rows,
      e.subject_title ≠ "" ∧ e.classroom_title ≠ "" ∧
        e.teacher_name ≠ "" ∧ e.subgroup ≠ "" := by
  have hmem : mkEntry 7 ⟨2024, 9, 1⟩ ["", "Математика", "101", "Иванов И.И.", "1"] ∈
      parse_group_schedule_soup 7 c9Rows := by decide
  exact ⟨_, hmem, entry_fields_defaulted 7 c9Rows _ hmem⟩

/-- C6: on a cache miss `get_cached_by_id` returns `None` even when the row
exists in the database — the row is then fetched and written to the
cache but the function falls through without returning it — and
consequently `parse_group_lessons_data` returns `[]` for a group that is
absent from the cache. -/
theorem get_cached_by_id_cache_miss (st : St) (gid : Nat) (g : Group)
    (fetch : String → FetchResult)
    (hmiss : cacheGet st.cache (groupByIdKey gid) = none) :
    (get_cached_by_id_group st gid).1 = none ∧
      (st.groups.find? (fun g' => decide (g'.id = gid)) = some g →
        (get_cached_by_id_group st gid).2.cache =
          cacheSet st.cache (groupByIdKey gid) (CVal.groupV g)) ∧
      (parse_group_lessons_data st gid fetch).1 = [] := by
  have h1 : (get_cached_by_id_group st gid).1 = none := by
    simp only [get_cached_by_id_group, hmiss]
    cases st.groups.find? (fun g' => decide (g'.id = gid)) <;> rfl
  refine ⟨h1, ?_, ?_⟩
  · intro hfind
    simp only [get_cached_by_id_group, hmiss, hfind]
  · simp only [parse_group_lessons_data]
    rw [h1]

/-- Witness for C6: in `exSt` group 1 is in the database but not cached. -/
theorem get_cached_by_id_cache_miss_witness :
    cacheGet exSt.cache (groupByIdKey 1) = none ∧
      ((get_cached_by_id_group exSt 1).1 = none ∧
        (exSt.groups.find? (fun g' => decide (g'.id = 1)) = some exGroup →
          (get_cached_by_id_group exSt 1).2.cache =
            cacheSet exSt.cache (groupByIdKey 1) (CVal.groupV exGroup)) ∧
        (parse_group_lessons_data exSt 1 (fun _ => Except.error ())).1 = []) :=
  ⟨by decide, get_cached_by_id_cache_miss exSt 1 exGroup _ (by decide)⟩

/-- C7 counterexample: for a cached group whose document parses to zero
retained rows, the successful-fetch result and the fetch-failure result
are the *same* sentinel list — they are not distinct, because
`BeautifulSoup()` is truthy and the `if not schedule_soup` branch is
unreachable. -/
theorem empty_schedule_equals_fetch_failure_counterexample :
    parse_group_lessons_data exStCached 1 (fun _ => Except.ok []) =
        parse_group_lessons_data exStCached 1 (fun _ => Except.error ()) ∧
      (parse_group_lessons_data exStCached 1 (fun _ => Except.error ())).1 =
        [{ group_id := 1 }] := by
  decide

/-- C7 amended: for a cached group, a successfully fetched document with
zero retained rows yields exactly the one-field sentinel entry — but this
result is identical to (not distinct from) the one returned on fetch
failure, which produces an empty truthy soup and hence the same sentinel. -/
theorem empty_schedule_yields_sentinel (st : St) (gid : Nat) (g : Group) (soup : Soup)
    (hg : cacheGet st.cache (groupByIdKey gid) = some (CVal.groupV g))
    (hzero : parse_group_schedule_soup gid soup = []) :
    parse_group_lessons_data st gid (fun _ => Except.ok soup) = ([{ group_id := gid }], st) ∧
      parse_group_lessons_data st gid (fun _ => Except.error ()) =
        ([{ group_id := gid }], st) := by
  constructor
  · simp only [parse_group_lessons_data, get_cached_by_id_group, hg]
    simp [get_soup_from_url, soup_truthy, hzero]
  · simp only [parse_group_lessons_data, get_cached_by_id_group, hg]
    simp [get_soup_from_url, soup_truthy, parse_group_schedule_soup, parseRows]

/-- Witness for the amended C7 theorem. -/
theorem empty_schedule_yields_sentinel_witness :
    cacheGet exStCached.cache (groupByIdKey 1) = some (CVal.groupV exGroup) ∧
      parse_group_schedule_soup 1 ([] : Soup) = [] ∧
      (parse_group_lessons_data exStCached 1 (fun _ => Except.ok []) =
          ([{ group_id := 1 }], exStCached) ∧
        parse_group_lessons_data exStCached 1 (fun _ => Except.error ()) =
          ([{ group_id := 1 }], exStCached)) :=
  ⟨by decide, by decide,
    empty_schedule_yields_sentinel exStCached 1 exGroup [] (by decide) (by decide)⟩

/-- C8 counterexample: at a concrete state, a failing liveness probe makes
`update_schedule` return normally (`Except.ok`, no dispatch) — the
`FetchError` is caught and logged, not surfaced to the caller, unlike the
spec-modelled behaviour `update_schedule_claimed` which propagates it. -/
theorem probe_failure_not_surfaced_counterexample :
    update_schedule exSt 5 (Except.error ()) =
        Except.ok ({ exSt with current_timestamp := 5 }, none) ∧
      update_schedule_claimed exSt 5 (Except.error ()) = Except.error () :=
  ⟨rfl, rfl⟩

/-! ## Cache lemmas -/

theorem find?_filter_ne_self (c : Cache) (k : CKey) :
    (c.filter (fun p => decide (p.1 ≠ k))).find? (fun p => decide (p.1 = k)) = none := by
  induction c with
  | nil => rfl
  | cons p rest ih =>
    by_cases h : p.1 = k
    · rw [List.filter_cons_of_neg (by simp [h])]
      exact ih
    · rw [List.filter_cons_of_pos (by simp [h])]
      rw [List.find?_cons_of_neg _ (by simp [h])]
      exact ih

theorem find?_filter_ne_other (c : Cache) (k k' : CKey) (h : k' ≠ k) :
    (c.filter (fun p => decide (p.1 ≠ k))).find? (fun p => decide (p.1 = k')) =
      c.find? (fun p => decide (p.1 = k')) := by
  induction c with
  | nil => rfl
  | cons p rest ih =>
    by_cases hp : p.1 = k
    · have hp' : ¬ p.1 = k' := fun hk' => h (hk' ▸ hp ▸ rfl)
      rw [List.filter_cons_of_neg (by simp [hp])]
      rw [List.find?_cons_of_neg _ (by simp [hp'])]
      exact ih
    · rw [List.filter_cons_of_pos (by simp [hp])]
      by_cases hp' : p.1 = k'
      · rw [List.find?_cons_of_pos _ (by simp [hp']), List.find?_cons_of_pos _ (by simp [hp'])]
      · rw [List.find?_cons_of_neg _ (by simp [hp']), List.find?_cons_of_neg _ (by simp [hp'])]
        exact ih

theorem cacheGet_set_eq (c : Cache) (k : CKey) (v : CVal) :
    cacheGet (cacheSet c k v) k = some v := by
  unfold cacheGet cacheSet
  rw [List.find?_cons_of_pos _ (by simp)]
  rfl

theorem cacheGet_set_ne (c : Cache) (k k' : CKey) (v : CVal) (h : k' ≠ k) :
    cacheGet (cacheSet c k v) k' = cacheGet c k' := by
  unfold cacheGet cacheSet
  rw [List.find?_cons_of_neg _ (by simp only [decide_eq_true_eq]; exact fun hk => h hk.symm)]
  rw [find?_filter_ne_other c k k' h]

theorem cacheGet_delete_eq (c : Cache) (k : CKey) :
    cacheGet (cacheDelete c k) k = none := by
  unfold cacheGet cacheDelete
  rw [find?_filter_ne_self]
  rfl

theorem cacheGet_delete_ne (c : Cache) (k k' : CKey) (h : k' ≠ k) :
    cacheGet (cacheDelete c k) k' = cacheGet c k' := by
  unfold cacheGet cacheDelete
  rw [find?_filter_ne_other c k k' h]

/-- When the current epoch is nonzero (every real `timezone.now().timestamp()`
is positive), the code's staleness test agrees with the claim's. -/
theorem staleMark_eq_markMissingOrDifferent (c : Cache) (cur : Nat) (k : CKey)
    (h : cur ≠ 0) : staleMark c cur k = markMissingOrDifferent c cur k := by
  unfold staleMark markMissingOrDifferent
  cases hv : cacheGet c k with
  | none => rfl
  | some v =>
    cases v with
    | tsV t =>
      by_cases ht : t = 0
      · subst ht
        have h0 : ¬ (0 : Nat) = cur := fun hc => h hc.symm
        simp [CVal.truthy, h0]
      · simp [CVal.truthy, ht]
    | teacherV t => simp [CVal.truthy]
    | classroomV v => simp [CVal.truthy]
    | subjectV v => simp [CVal.truthy]
    | lessonTimeV v => simp [CVal.truthy]
    | groupV v => simp [CVal.truthy]

/-- Deleting a key whose mark is already stale does not change the
staleness of any key. -/
theorem staleMark_delete (c : Cache) (cur : Nat) (k' : CKey)
    (h : staleMark c cur k' = true) (k : CKey) :
    staleMark (cacheDelete c k') cur k = staleMark c cur k := by
  by_cases hk : k = k'
  · subst hk
    unfold staleMark
    rw [cacheGet_delete_eq]
    exact h.symm
  · unfold staleMark
    rw [cacheGet_delete_ne c k' k hk]

/-- Characterization of the sweep loop: staleness of every key is invariant
along the fold, the collected ids and affected dates are those of the
stale selected lessons, and exactly the stale selected lessons' marks are
deleted from the cache. -/
theorem sweep_fold_spec (cur : Nat) (st : St) (c0 : Cache) :
    ∀ (sel : List Lesson) (acc : SweepAcc),
      (∀ k, staleMark acc.cache cur k = staleMark c0 cur k) →
      (∀ k, staleMark (sel.foldl (sweep_step cur st) acc).cache cur k = staleMark c0 cur k) ∧
      (∀ i, i ∈ (sel.foldl (sweep_step cur st) acc).ids ↔
        i ∈ acc.ids ∨ ∃ l ∈ sel, staleMark c0 cur (make_lesson_cache_key l) = true ∧ l.id = i) ∧
      (∀ d, d ∈ (sel.foldl (sweep_step cur st) acc).affected ↔
        d ∈ acc.affected ∨ ∃ l ∈ sel, staleMark c0 cur (make_lesson_cache_key l) = true ∧
          lessonDate st l = some d) ∧
      (∀ k, (∃ l ∈ sel, staleMark c0 cur (make_lesson_cache_key l) = true ∧
          make_lesson_cache_key l = k) →
        cacheGet (sel.foldl (sweep_step cur st) acc).cache k = none) ∧
      (∀ k, (∀ l ∈ sel, staleMark c0 cur (make_lesson_cache_key l) = true →
          make_lesson_cache_key l ≠ k) →
        cacheGet (sel.foldl (sweep_step cur st) acc).cache k = cacheGet acc.cache k) := by
  intro sel
  induction sel with
  | nil =>
    intro acc hinv
    refine ⟨hinv, ?_, ?_, ?_, ?_⟩ <;> simp
  | cons l rest ih =>
    intro acc hinv
    by_cases hsl : staleMark c0 cur (make_lesson_cache_key l) = true
    · have hsl' : staleMark acc.cache cur (make_lesson_cache_key l) = true := by
        rw [hinv]; exact hsl
      have hstep : sweep_step cur st acc l =
          { cache := cacheDelete acc.cache (make_lesson_cache_key l),
            ids := insert l.id acc.ids,
            affected :=
              match lessonDate st l with
              | some d => insert d acc.affected
              | none => acc.affected } := by
        unfold sweep_step; rw [if_pos hsl']
      have hinv1 : ∀ k,
          staleMark (sweep_step cur st acc l).cache cur k = staleMark c0 cur k := by
        intro k
        rw [hstep]
        rw [staleMark_delete acc.cache cur (make_lesson_cache_key l) hsl' k]
        exact hinv k
      obtain ⟨ha, hb, hc, hd, he⟩ := ih (sweep_step cur st acc l) hinv1
      refine ⟨by simpa [List.foldl_cons] using ha, ?_, ?_, ?_, ?_⟩
      · intro i
        rw [List.foldl_cons, hb i, hstep]
        simp only [Finset.mem_insert]
        constructor
        · rintro ((h | h) | ⟨l', hl', hs', hi⟩)
          · exact Or.inr ⟨l, List.mem_cons_self l rest, hsl, h.symm⟩
          · exact Or.inl h
          · exact Or.inr ⟨l', List.mem_cons_of_mem l hl', hs', hi⟩
        · rintro (h | ⟨l', hl', hs', hi⟩)
          · exact Or.inl (Or.inr h)
          · rcases List.mem_cons.mp hl' with rfl | hl'
            · exact Or.inl (Or.inl hi.symm)
            · exact Or.inr ⟨l', hl', hs', hi⟩
      · intro d
        rw [List.foldl_cons, hc d, hstep]
        constructor
        · rintro (h | ⟨l', hl', hs', hd'⟩)
          · cases hld : lessonDate st l with
            | none => rw [hld] at h; exact Or.inl h
            | some d0 =>
              rw [hld] at h
              rcases Finset.mem_insert.mp h with rfl | h
              · exact Or.inr ⟨l, List.mem_cons_self l rest, hsl, hld⟩
              · exact Or.inl h
          · exact Or.inr ⟨l', List.mem_cons_of_mem l hl', hs', hd'⟩
        · rintro (h | ⟨l', hl', hs', hd'⟩)
          · cases hld : lessonDate st l with
            | none => exact Or.inl h
            | some d0 => exact Or.inl (Finset.mem_insert_of_mem h)
          · rcases List.mem_cons.mp hl' with rfl | hl'
            · left; rw [hd']; exact Finset.mem_insert_self d acc.affected
            · exact Or.inr ⟨l', hl', hs', hd'⟩
      · intro k hk
        rcases hk with ⟨l', hl', hs', hkey⟩
        rcases List.mem_cons.mp hl' with rfl | hl'
        · by_cases hrest : ∃ l'' ∈ rest,
              staleMark c0 cur (make_lesson_cache_key l'') = true ∧
                make_lesson_cache_key l'' = k
          · rw [List.foldl_cons]; exact hd k hrest
          · push_neg at hrest
            rw [List.foldl_cons, he k (fun l'' h1 h2 => hrest l'' h1 h2), hstep]
            rw [← hkey]
            exact cacheGet_delete_eq acc.cache (make_lesson_cache_key l')
        · rw [List.foldl_cons]
          exact hd k ⟨l', hl', hs', hkey⟩
      · intro k hk
        have hkl : make_lesson_cache_key l ≠ k := hk l (List.mem_cons_self l rest) hsl
        rw [List.foldl_cons, he k (fun l'' h1 h2 => hk l'' (List.mem_cons_of_mem l h1) h2),
          hstep]
        exact cacheGet_delete_ne acc.cache (make_lesson_cache_key l) k fun h => hkl h.symm
    · have hsl' : ¬ staleMark acc.cache cur (make_lesson_cache_key l) = true := by
        rw [hinv]; exact hsl
      have hstep : sweep_step cur st acc l = acc := by
        unfold sweep_step; rw [if_neg hsl']
      obtain ⟨ha, hb, hc, hd, he⟩ := ih acc hinv
      rw [List.foldl_cons, hstep]
      refine ⟨ha, ?_, ?_, ?_, ?_⟩
      · intro i
        rw [hb i]
        constructor
        · rintro (h | ⟨l', hl', hs', hi⟩)
          · exact Or.inl h
          · exact Or.inr ⟨l', List.mem_cons_of_mem l hl', hs', hi⟩
        · rintro (h | ⟨l', hl', hs', hi⟩)
          · exact Or.inl h
          · rcases List.mem_cons.mp hl' with rfl | hl'
            · exact absurd hs' hsl
            · exact Or.inr ⟨l', hl', hs', hi⟩
      · intro d
        rw [hc d]
        constructor
        · rintro (h | ⟨l', hl', hs', hd'⟩)
          · exact Or.inl h
          · exact Or.inr ⟨l', List.mem_cons_of_mem l hl', hs', hd'⟩
        · rintro (h | ⟨l', hl', hs', hd'⟩)
          · exact Or.inl h
          · rcases List.mem_cons.mp hl' with rfl | hl'
            · exact absurd hs' hsl
            · exact Or.inr ⟨l', hl', hs', hd'⟩
      · intro k hk
        rcases hk with ⟨l', hl', hs', hkey⟩
        rcases List.mem_cons.mp hl' with rfl | hl'
        · exact absurd hs' hsl
        · exact hd k ⟨l', hl', hs', hkey⟩
      · intro k hk
        exact he k (fun l'' h1 h2 => hk l'' (List.mem_cons_of_mem l h1) h2)

/-- For lessons drawn from a table with no duplicate ids, membership of an
id in the collected set decides deactivation of exactly that lesson. -/
theorem lesson_eq_of_id_eq (st : St) (hids : (st.lessons.map (fun l => l.id)).Nodup)
    (l l' : Lesson) (hl : l ∈ st.lessons) (hl' : l' ∈ st.lessons) (h : l'.id = l.id) :
    l' = l :=
  List.inj_on_of_nodup_map hids hl' hl h

/-- Full characterization of `deactivate_canceled_lessons`: the lessons are
rewritten flipping exactly the stale selected ones, their marks are
deleted, their dates form the affected set, past lessons survive, keys
outside the fingerprint keyspace and keys with non-stale marks are
untouched, the other state components are untouched, and cache
well-formedness is preserved. -/
theorem deactivate_spec_lemma (st : St) (gid : Nat) (today : Date)
    (hts : st.current_timestamp ≠ 0)
    (hids : (st.lessons.map (fun l => l.id)).Nodup) :
    ((deactivate_canceled_lessons st gid today).2.lessons =
        st.lessons.map (fun l =>
          if shouldDeactivate st gid today l then { l with is_active := false } else l)) ∧
      (∀ l ∈ st.lessons, shouldDeactivate st gid today l = true →
        cacheGet (deactivate_canceled_lessons st gid today).2.cache
          (make_lesson_cache_key l) = none) ∧
      (∀ d, d ∈ (deactivate_canceled_lessons st gid today).1 ↔
        ∃ l ∈ st.lessons, shouldDeactivate st gid today l = true ∧
          lessonDate st l = some d) ∧
      (∀ l ∈ st.lessons, (∀ d, lessonDate st l = some d → Date.le today d = false) →
        l ∈ (deactivate_canceled_lessons st gid today).2.lessons) ∧
      (∀ k : CKey, k.1 ≠ "Lesson" →
        cacheGet (deactivate_canceled_lessons st gid today).2.cache k =
          cacheGet st.cache k) ∧
      (∀ k : CKey, staleMark st.cache st.current_timestamp k = false →
        cacheGet (deactivate_canceled_lessons st gid today).2.cache k =
          cacheGet st.cache k) ∧
      ((deactivate_canceled_lessons st gid today).2.current_timestamp =
          st.current_timestamp ∧
        (deactivate_canceled_lessons st gid today).2.next_id = st.next_id ∧
        (deactivate_canceled_lessons st gid today).2.lesson_times = st.lesson_times ∧
        (deactivate_canceled_lessons st gid today).2.groups = st.groups) ∧
      (WFCache st.cache → WFCache (deactivate_canceled_lessons st gid today).2.cache) := by
  obtain ⟨hA, hB, hC, hD, hE⟩ :=
    sweep_fold_spec st.current_timestamp st st.cache (sweepSelect st gid today)
      { cache := st.cache, ids := ∅, affected := ∅ } (fun k => rfl)
  have hstale : ∀ k, staleMark st.cache st.current_timestamp k =
      markMissingOrDifferent st.cache st.current_timestamp k :=
    fun k => staleMark_eq_markMissingOrDifferent st.cache st.current_timestamp k hts
  have hshould : ∀ l, l ∈ st.lessons →
      (shouldDeactivate st gid today l = true ↔
        l ∈ sweepSelect st gid today ∧
          staleMark st.cache st.current_timestamp (make_lesson_cache_key l) = true) := by
    intro l hl
    unfold shouldDeactivate sweepSelect
    rw [hstale, List.mem_filter]
    constructor
    · intro h
      rcases Bool.and_eq_true_iff.mp h with ⟨hpre, hm⟩
      exact ⟨⟨hl, hpre⟩, hm⟩
    · rintro ⟨⟨_, hpre⟩, hm⟩
      exact Bool.and_eq_true_iff.mpr ⟨hpre, hm⟩
  set F := (sweepSelect st gid today).foldl (sweep_step st.current_timestamp st)
    { cache := st.cache, ids := ∅, affected := ∅ } with hF
  have hres_lessons : (deactivate_canceled_lessons st gid today).2.lessons =
      if F.ids = ∅ then st.lessons
      else st.lessons.map (fun l => if l.id ∈ F.ids then { l with is_active := false } else l) :=
    rfl
  have hres_cache : (deactivate_canceled_lessons st gid today).2.cache = F.cache := rfl
  have hres_aff : (deactivate_canceled_lessons st gid today).1 = F.affected := rfl
  have hidmem : ∀ l, l ∈ st.lessons →
      ((l.id ∈ F.ids) ↔ shouldDeactivate st gid today l = true) := by
    intro l hl
    rw [hB l.id]
    constructor
    · rintro (h | ⟨l', hl', hst', hid⟩)
      · exact absurd h (Finset.not_mem_empty _)
      · have hl'mem : l' ∈ st.lessons := (List.mem_filter.mp hl').1
        have : l' = l := lesson_eq_of_id_eq st hids l l' hl hl'mem hid
        subst this
        exact (hshould l' hl'mem).mpr ⟨hl', hst'⟩
    · intro h
      rcases (hshould l hl).mp h with ⟨hsel, hst'⟩
      exact Or.inr ⟨l, hsel, hst', rfl⟩
  refine ⟨?_, ?_, ?_, ?_, ?_, ?_, ?_, ?_⟩
  · rw [hres_lessons]
    by_cases hemp : F.ids = ∅
    · rw [if_pos hemp]
      refine ((List.map_congr_left ?_).trans (List.map_id st.lessons)).symm
      intro l hl
      have hno : ¬ shouldDeactivate st gid today l = true := by
        intro h
        have := (hidmem l hl).mpr h
        rw [hemp] at this
        exact Finset.not_mem_empty _ this
      simp only [Bool.not_eq_true] at hno
      simp [hno]
    · rw [if_neg hemp]
      refine List.map_congr_left ?_
      intro l hl
      by_cases h : shouldDeactivate st gid today l = true
      · rw [if_pos ((hidmem l hl).mpr h), if_pos h]
      · rw [if_neg (fun hm => h ((hidmem l hl).mp hm)), if_neg h]
  · intro l hl h
    rcases (hshould l hl).mp h with ⟨hsel, hst'⟩
    rw [hres_cache]
    exact hD (make_lesson_cache_key l) ⟨l, hsel, hst', rfl⟩
  · intro d
    rw [hres_aff, hC d]
    constructor
    · rintro (h | ⟨l, hlsel, hst', hd'⟩)
      · exact absurd h (Finset.not_mem_empty _)
      · have hlmem : l ∈ st.lessons := (List.mem_filter.mp hlsel).1
        exact ⟨l, hlmem, (hshould l hlmem).mpr ⟨hlsel, hst'⟩, hd'⟩
    · rintro ⟨l, hlmem, hsd, hd'⟩
      rcases (hshould l hlmem).mp hsd with ⟨hsel, hst'⟩
      exact Or.inr ⟨l, hsel, hst', hd'⟩
  · intro l hl hdate
    have hcond : (match lessonDate st l with
        | some d => Date.le today d
        | none => false) = false := by
      cases hld : lessonDate st l with
      | none => rfl
      | some d => exact hdate d hld
    have hno : shouldDeactivate st gid today l = false := by
      unfold shouldDeactivate
      rw [hcond]
      simp
    rw [hres_lessons]
    by_cases hemp : F.ids = ∅
    · rw [if_pos hemp]; exact hl
    · rw [if_neg hemp]
      have hnotin : ¬ l.id ∈ F.ids := by
        intro h
        have := (hidmem l hl).mp h
        rw [hno] at this
        exact Bool.false_ne_true this
      have : (fun l => if l.id ∈ F.ids then { l with is_active := false } else l) l = l := by
        simp only [if_neg hnotin]
      rw [← this]
      exact List.mem_map_of_mem _ hl
  · intro k hk
    rw [hres_cache]
    refine hE k ?_
    intro l hl hs hkey
    exact hk (by rw [← hkey]; rfl)
  · intro k hk
    rw [hres_cache]
    refine hE k ?_
    intro l hl hs hkey
    rw [hkey] at hs
    rw [hs] at hk
    exact Bool.noConfusion hk
  · exact ⟨rfl, rfl, rfl, rfl⟩
  · intro hwf k v h
    rw [hres_cache] at h
    by_cases hex : ∃ l ∈ sweepSelect st gid today,
        staleMark st.cache st.current_timestamp (make_lesson_cache_key l) = true ∧
          make_lesson_cache_key l = k
    · rw [hD k hex] at h
      cases h
    · push_neg at hex
      rw [hE k (fun l hl hs => hex l hl hs)] at h
      exact hwf k v h

/-- C2: the sweep deactivates exactly the lessons that are active, dated
today or later, in the given group, and whose fingerprint mark is absent
or carries a different epoch; each such lesson's mark is deleted and its
date lands in the affected set; lessons with a past timeslot date are
left untouched.  The hypotheses are that the cycle epoch is nonzero
(every real timestamp is) and that lesson ids are unique (the database
primary key). -/
theorem sweep_deactivates_exactly_stale (st : St) (gid : Nat) (today : Date)
    (hts : st.current_timestamp ≠ 0)
    (hids : (st.lessons.map (fun l => l.id)).Nodup) :
    ((deactivate_canceled_lessons st gid today).2.lessons =
        st.lessons.map (fun l =>
          if shouldDeactivate st gid today l then { l with is_active := false } else l)) ∧
      (∀ l ∈ st.lessons, shouldDeactivate st gid today l = true →
        cacheGet (deactivate_canceled_lessons st gid today).2.cache
          (make_lesson_cache_key l) = none) ∧
      (∀ d, d ∈ (deactivate_canceled_lessons st gid today).1 ↔
        ∃ l ∈ st.lessons, shouldDeactivate st gid today l = true ∧
          lessonDate st l = some d) ∧
      (∀ l ∈ st.lessons, (∀ d, lessonDate st l = some d → Date.le today d = false) →
        l ∈ (deactivate_canceled_lessons st gid today).2.lessons) := by
  obtain ⟨h1, h2, h3, h4, _⟩ := deactivate_spec_lemma st gid today hts hids
  exact ⟨h1, h2, h3, h4⟩

/-- Witness for C2 at a concrete state with one stale active future lesson. -/
theorem sweep_deactivates_exactly_stale_witness :
    c2St.current_timestamp ≠ 0 ∧ (c2St.lessons.map (fun l => l.id)).Nodup ∧
      (((deactivate_canceled_lessons c2St 1 ⟨2024, 9, 1⟩).2.lessons =
          c2St.lessons.map (fun l =>
            if shouldDeactivate c2St 1 ⟨2024, 9, 1⟩ l then { l with is_active := false }
            else l)) ∧
        (∀ l ∈ c2St.lessons, shouldDeactivate c2St 1 ⟨2024, 9, 1⟩ l = true →
          cacheGet (deactivate_canceled_lessons c2St 1 ⟨2024, 9, 1⟩).2.cache
            (make_lesson_cache_key l) = none) ∧
        (∀ d, d ∈ (deactivate_canceled_lessons c2St 1 ⟨2024, 9, 1⟩).1 ↔
          ∃ l ∈ c2St.lessons, shouldDeactivate c2St 1 ⟨2024, 9, 1⟩ l = true ∧
            lessonDate c2St l = some d) ∧
        (∀ l ∈ c2St.lessons,
          (∀ d, lessonDate c2St l = some d → Date.le ⟨2024, 9, 1⟩ d = false) →
          l ∈ (deactivate_canceled_lessons c2St 1 ⟨2024, 9, 1⟩).2.lessons)) :=
  ⟨by decide, by decide,
    sweep_deactivates_exactly_stale c2St 1 ⟨2024, 9, 1⟩ (by decide) (by decide)⟩

/-- C8 amended: if the liveness probe fails, `update_schedule` aborts
before enumerating or dispatching any group job (dispatch action `none`)
and no part of the state other than the `current_timestamp` global is
touched, so zero Lessons are created or deactivated — but the
`FetchError` is logged and swallowed, not surfaced to the caller: the
task returns normally. -/
theorem update_schedule_aborts_on_probe_failure (st : St) (ts : Nat) (e : Unit) :
    update_schedule st ts (Except.error e) =
      Except.ok ({ st with current_timestamp := ts }, none) := by
  rfl

/-! ## Create-phase lemmas -/

theorem key_ne_of_fst_ne (k k' : CKey) (h : k.1 ≠ k'.1) : k ≠ k' :=
  fun he => h (he ▸ rfl)

theorem WFCache_set (c : Cache) (k : CKey) (v : CVal)
    (hwf : WFCache c) (hv : wfVal k v) : WFCache (cacheSet c k v) := by
  intro k' v' h
  by_cases hk : k' = k
  · subst hk
    rw [cacheGet_set_eq] at h
    exact (Option.some.injEq _ _ ▸ h) ▸ hv
  · rw [cacheGet_set_ne c k k' v hk] at h
    exact hwf k' v' h

theorem wfVal_teacher (n : String) (t : Teacher) :
    wfVal (teacherKey n) (CVal.teacherV t) :=
  ⟨fun _ => ⟨t, rfl⟩, fun h => by simp [teacherKey, classroomKey, subjectKey, lessonTimeKey, groupByIdKey, make_lesson_cache_key] at h, fun h => by simp [teacherKey, classroomKey, subjectKey, lessonTimeKey, groupByIdKey, make_lesson_cache_key] at h,
    fun h => by simp [teacherKey, classroomKey, subjectKey, lessonTimeKey, groupByIdKey, make_lesson_cache_key] at h, fun h => by simp [teacherKey, classroomKey, subjectKey, lessonTimeKey, groupByIdKey, make_lesson_cache_key] at h,
    fun h => by simp [teacherKey, classroomKey, subjectKey, lessonTimeKey, groupByIdKey, make_lesson_cache_key] at h⟩

theorem wfVal_classroom (n : String) (c : Classroom) :
    wfVal (classroomKey n) (CVal.classroomV c) :=
  ⟨fun h => by simp [teacherKey, classroomKey, subjectKey, lessonTimeKey, groupByIdKey, make_lesson_cache_key] at h, fun _ => ⟨c, rfl⟩, fun h => by simp [teacherKey, classroomKey, subjectKey, lessonTimeKey, groupByIdKey, make_lesson_cache_key] at h,
    fun h => by simp [teacherKey, classroomKey, subjectKey, lessonTimeKey, groupByIdKey, make_lesson_cache_key] at h, fun h => by simp [teacherKey, classroomKey, subjectKey, lessonTimeKey, groupByIdKey, make_lesson_cache_key] at h,
    fun h => by simp [teacherKey, classroomKey, subjectKey, lessonTimeKey, groupByIdKey, make_lesson_cache_key] at h⟩

theorem wfVal_subject (n : String) (s : Subject) :
    wfVal (subjectKey n) (CVal.subjectV s) :=
  ⟨fun h => by simp [teacherKey, classroomKey, subjectKey, lessonTimeKey, groupByIdKey, make_lesson_cache_key] at h, fun h => by simp [teacherKey, classroomKey, subjectKey, lessonTimeKey, groupByIdKey, make_lesson_cache_key] at h, fun _ => ⟨s, rfl⟩,
    fun h => by simp [teacherKey, classroomKey, subjectKey, lessonTimeKey, groupByIdKey, make_lesson_cache_key] at h, fun h => by simp [teacherKey, classroomKey, subjectKey, lessonTimeKey, groupByIdKey, make_lesson_cache_key] at h,
    fun h => by simp [teacherKey, classroomKey, subjectKey, lessonTimeKey, groupByIdKey, make_lesson_cache_key] at h⟩

theorem wfVal_lesson_time (d : Date) (n : String) (lt : LessonTime) :
    wfVal (lessonTimeKey d n) (CVal.lessonTimeV lt) :=
  ⟨fun h => by simp [teacherKey, classroomKey, subjectKey, lessonTimeKey, groupByIdKey, make_lesson_cache_key] at h, fun h => by simp [teacherKey, classroomKey, subjectKey, lessonTimeKey, groupByIdKey, make_lesson_cache_key] at h,
    fun h => by simp [teacherKey, classroomKey, subjectKey, lessonTimeKey, groupByIdKey, make_lesson_cache_key] at h, fun _ => ⟨lt, rfl⟩,
    fun h => by simp [teacherKey, classroomKey, subjectKey, lessonTimeKey, groupByIdKey, make_lesson_cache_key] at h, fun h => by simp [teacherKey, classroomKey, subjectKey, lessonTimeKey, groupByIdKey, make_lesson_cache_key] at h⟩

theorem wfVal_group (gid : Nat) (g : Group) :
    wfVal (groupByIdKey gid) (CVal.groupV g) :=
  ⟨fun h => by simp [teacherKey, classroomKey, subjectKey, lessonTimeKey, groupByIdKey, make_lesson_cache_key] at h, fun h => by simp [teacherKey, classroomKey, subjectKey, lessonTimeKey, groupByIdKey, make_lesson_cache_key] at h,
    fun h => by simp [teacherKey, classroomKey, subjectKey, lessonTimeKey, groupByIdKey, make_lesson_cache_key] at h, fun h => by simp [teacherKey, classroomKey, subjectKey, lessonTimeKey, groupByIdKey, make_lesson_cache_key] at h,
    fun _ => ⟨g, rfl⟩, fun h => by simp [teacherKey, classroomKey, subjectKey, lessonTimeKey, groupByIdKey, make_lesson_cache_key] at h⟩

theorem wfVal_mark (l : Lesson) (t : Nat) :
    wfVal (make_lesson_cache_key l) (CVal.tsV t) :=
  ⟨fun h => by simp [teacherKey, classroomKey, subjectKey, lessonTimeKey, groupByIdKey, make_lesson_cache_key] at h, fun h => by simp [teacherKey, classroomKey, subjectKey, lessonTimeKey, groupByIdKey, make_lesson_cache_key] at h,
    fun h => by simp [teacherKey, classroomKey, subjectKey, lessonTimeKey, groupByIdKey, make_lesson_cache_key] at h, fun h => by simp [teacherKey, classroomKey, subjectKey, lessonTimeKey, groupByIdKey, make_lesson_cache_key] at h,
    fun h => by simp [teacherKey, classroomKey, subjectKey, lessonTimeKey, groupByIdKey, make_lesson_cache_key] at h, fun _ => ⟨t, rfl⟩⟩

/-- Behaviour of the teacher resolver in a well-formed state: the natural
key ends up cached with the returned row, no other key changes, every
cached value persists, and the non-cache state components it does not
own are untouched. -/
theorem get_or_create_teacher_spec (st : St) (n : String) (hwf : WFCache st.cache) :
    cacheGet (get_or_create_teacher st n).2.cache (teacherKey n) =
        some (CVal.teacherV (get_or_create_teacher st n).1) ∧
      (∀ k, k ≠ teacherKey n →
        cacheGet (get_or_create_teacher st n).2.cache k = cacheGet st.cache k) ∧
      (∀ k v, cacheGet st.cache k = some v →
        cacheGet (get_or_create_teacher st n).2.cache k = some v) ∧
      (get_or_create_teacher st n).2.lessons = st.lessons ∧
      (get_or_create_teacher st n).2.current_timestamp = st.current_timestamp ∧
      (get_or_create_teacher st n).2.groups = st.groups ∧
      WFCache (get_or_create_teacher st n).2.cache := by
  simp only [get_or_create_teacher]
  cases hv : cacheGet st.cache (teacherKey n) with
  | some v =>
    cases v with
    | teacherV t =>
      exact ⟨hv, fun k _ => rfl, fun k v h => h, rfl, rfl, rfl, hwf⟩
    | classroomV c => exact absurd ((hwf _ _ hv).1 rfl) (by rintro ⟨t, ht⟩; cases ht)
    | subjectV s => exact absurd ((hwf _ _ hv).1 rfl) (by rintro ⟨t, ht⟩; cases ht)
    | lessonTimeV lt => exact absurd ((hwf _ _ hv).1 rfl) (by rintro ⟨t, ht⟩; cases ht)
    | groupV g => exact absurd ((hwf _ _ hv).1 rfl) (by rintro ⟨t, ht⟩; cases ht)
    | tsV t => exact absurd ((hwf _ _ hv).1 rfl) (by rintro ⟨t, ht⟩; cases ht)
  | none =>
    have hother : ∀ (t : Teacher) k, k ≠ teacherKey n →
        cacheGet (cacheSet st.cache (teacherKey n) (CVal.teacherV t)) k =
          cacheGet st.cache k :=
      fun t k hk => cacheGet_set_ne st.cache (teacherKey n) k (CVal.teacherV t) hk
    have hpers : ∀ (t : Teacher) k v, cacheGet st.cache k = some v →
        cacheGet (cacheSet st.cache (teacherKey n) (CVal.teacherV t)) k = some v := by
      intro t k v h
      by_cases hk : k = teacherKey n
      · subst hk; rw [hv] at h; cases h
      · rw [cacheGet_set_ne st.cache (teacherKey n) k (CVal.teacherV t) hk]; exact h
    cases hf : st.teachers.find? (fun t => decide (t.full_name = n)) with
    | some t =>
      exact ⟨cacheGet_set_eq st.cache (teacherKey n) (CVal.teacherV t),
        hother t, hpers t, rfl, rfl, rfl,
        WFCache_set st.cache (teacherKey n) (CVal.teacherV t) hwf (wfVal_teacher n t)⟩
    | none =>
      exact ⟨cacheGet_set_eq st.cache (teacherKey n) (CVal.teacherV _),
        hother _, hpers _, rfl, rfl, rfl,
        WFCache_set st.cache (teacherKey n) (CVal.teacherV _) hwf (wfVal_teacher n _)⟩

/-- Behaviour of the classroom resolver; see `get_or_create_teacher_spec`. -/
theorem get_or_create_classroom_spec (st : St) (n : String) (hwf : WFCache st.cache) :
    cacheGet (get_or_create_classroom st n).2.cache (classroomKey n) =
        some (CVal.classroomV (get_or_create_classroom st n).1) ∧
      (∀ k, k ≠ classroomKey n →
        cacheGet (get_or_create_classroom st n).2.cache k = cacheGet st.cache k) ∧
      (∀ k v, cacheGet st.cache k = some v →
        cacheGet (get_or_create_classroom st n).2.cache k = some v) ∧
      (get_or_create_classroom st n).2.lessons = st.lessons ∧
      (get_or_create_classroom st n).2.current_timestamp = st.current_timestamp ∧
      (get_or_create_classroom st n).2.groups = st.groups ∧
      WFCache (get_or_create_classroom st n).2.cache := by
  simp only [get_or_create_classroom]
  cases hv : cacheGet st.cache (classroomKey n) with
  | some v =>
    cases v with
    | classroomV c =>
      exact ⟨hv, fun k _ => rfl, fun k v h => h, rfl, rfl, rfl, hwf⟩
    | teacherV t => exact absurd ((hwf _ _ hv).2.1 rfl) (by rintro ⟨c, hc⟩; cases hc)
    | subjectV s => exact absurd ((hwf _ _ hv).2.1 rfl) (by rintro ⟨c, hc⟩; cases hc)
    | lessonTimeV lt => exact absurd ((hwf _ _ hv).2.1 rfl) (by rintro ⟨c, hc⟩; cases hc)
    | groupV g => exact absurd ((hwf _ _ hv).2.1 rfl) (by rintro ⟨c, hc⟩; cases hc)
    | tsV t => exact absurd ((hwf _ _ hv).2.1 rfl) (by rintro ⟨c, hc⟩; cases hc)
  | none =>
    have hother : ∀ (c : Classroom) k, k ≠ classroomKey n →
        cacheGet (cacheSet st.cache (classroomKey n) (CVal.classroomV c)) k =
          cacheGet st.cache k :=
      fun c k hk => cacheGet_set_ne st.cache (classroomKey n) k (CVal.classroomV c) hk
    have hpers : ∀ (c : Classroom) k v, cacheGet st.cache k = some v →
        cacheGet (cacheSet st.cache (classroomKey n) (CVal.classroomV c)) k = some v := by
      intro c k v h
      by_cases hk : k = classroomKey n
      · subst hk; rw [hv] at h; cases h
      · rw [cacheGet_set_ne st.cache (classroomKey n) k (CVal.classroomV c) hk]; exact h
    cases hf : st.classrooms.find? (fun c => decide (c.title = n)) with
    | some c =>
      exact ⟨cacheGet_set_eq st.cache (classroomKey n) (CVal.classroomV c),
        hother c, hpers c, rfl, rfl, rfl,
        WFCache_set st.cache (classroomKey n) (CVal.classroomV c) hwf (wfVal_classroom n c)⟩
    | none =>
      exact ⟨cacheGet_set_eq st.cache (classroomKey n) (CVal.classroomV _),
        hother _, hpers _, rfl, rfl, rfl,
        WFCache_set st.cache (classroomKey n) (CVal.classroomV _) hwf (wfVal_classroom n _)⟩

/-- Behaviour of the subject resolver; see `get_or_create_teacher_spec`. -/
theorem get_or_create_subject_spec (st : St) (n : String) (hwf : WFCache st.cache) :
    cacheGet (get_or_create_subject st n).2.cache (subjectKey n) =
        some (CVal.subjectV (get_or_create_subject st n).1) ∧
      (∀ k, k ≠ subjectKey n →
        cacheGet (get_or_create_subject st n).2.cache k = cacheGet st.cache k) ∧
      (∀ k v, cacheGet st.cache k = some v →
        cacheGet (get_or_create_subject st n).2.cache k = some v) ∧
      (get_or_create_subject st n).2.lessons = st.lessons ∧
      (get_or_create_subject st n).2.current_timestamp = st.current_timestamp ∧
      (get_or_create_subject st n).2.groups = st.groups ∧
      WFCache (get_or_create_subject st n).2.cache := by
  simp only [get_or_create_subject]
  cases hv : cacheGet st.cache (subjectKey n) with
  | some v =>
    cases v with
    | subjectV s =>
      exact ⟨hv, fun k _ => rfl, fun k v h => h, rfl, rfl, rfl, hwf⟩
    | teacherV t => exact absurd ((hwf _ _ hv).2.2.1 rfl) (by rintro ⟨s, hs⟩; cases hs)
    | classroomV c => exact absurd ((hwf _ _ hv).2.2.1 rfl) (by rintro ⟨s, hs⟩; cases hs)
    | lessonTimeV lt => exact absurd ((hwf _ _ hv).2.2.1 rfl) (by rintro ⟨s, hs⟩; cases hs)
    | groupV g => exact absurd ((hwf _ _ hv).2.2.1 rfl) (by rintro ⟨s, hs⟩; cases hs)
    | tsV t => exact absurd ((hwf _ _ hv).2.2.1 rfl) (by rintro ⟨s, hs⟩; cases hs)
  | none =>
    have hother : ∀ (s : Subject) k, k ≠ subjectKey n →
        cacheGet (cacheSet st.cache (subjectKey n) (CVal.subjectV s)) k =
          cacheGet st.cache k :=
      fun s k hk => cacheGet_set_ne st.cache (subjectKey n) k (CVal.subjectV s) hk
    have hpers : ∀ (s : Subject) k v, cacheGet st.cache k = some v →
        cacheGet (cacheSet st.cache (subjectKey n) (CVal.subjectV s)) k = some v := by
      intro s k v h
      by_cases hk : k = subjectKey n
      · subst hk; rw [hv] at h; cases h
      · rw [cacheGet_set_ne st.cache (subjectKey n) k (CVal.subjectV s) hk]; exact h
    cases hf : st.subjects.find? (fun s => decide (s.title = n)) with
    | some s =>
      exact ⟨cacheGet_set_eq st.cache (subjectKey n) (CVal.subjectV s),
        hother s, hpers s, rfl, rfl, rfl,
        WFCache_set st.cache (subjectKey n) (CVal.subjectV s) hwf (wfVal_subject n s)⟩
    | none =>
      exact ⟨cacheGet_set_eq st.cache (subjectKey n) (CVal.subjectV _),
        hother _, hpers _, rfl, rfl, rfl,
        WFCache_set st.cache (subjectKey n) (CVal.subjectV _) hwf (wfVal_subject n _)⟩

/-- Behaviour of the timeslot resolver; see `get_or_create_teacher_spec`. -/
theorem get_or_create_lesson_time_spec (st : St) (d : Date) (n : String)
    (hwf : WFCache st.cache) :
    cacheGet (get_or_create_lesson_time st d n).2.cache (lessonTimeKey d n) =
        some (CVal.lessonTimeV (get_or_create_lesson_time st d n).1) ∧
      (∀ k, k ≠ lessonTimeKey d n →
        cacheGet (get_or_create_lesson_time st d n).2.cache k = cacheGet st.cache k) ∧
      (∀ k v, cacheGet st.cache k = some v →
        cacheGet (get_or_create_lesson_time st d n).2.cache k = some v) ∧
      (get_or_create_lesson_time st d n).2.lessons = st.lessons ∧
      (get_or_create_lesson_time st d n).2.current_timestamp = st.current_timestamp ∧
      (get_or_create_lesson_time st d n).2.groups = st.groups ∧
      WFCache (get_or_create_lesson_time st d n).2.cache := by
  simp only [get_or_create_lesson_time]
  cases hv : cacheGet st.cache (lessonTimeKey d n) with
  | some v =>
    cases v with
    | lessonTimeV lt =>
      exact ⟨hv, fun k _ => rfl, fun k v h => h, rfl, rfl, rfl, hwf⟩
    | teacherV t => exact absurd ((hwf _ _ hv).2.2.2.1 rfl) (by rintro ⟨lt, hlt⟩; cases hlt)
    | classroomV c => exact absurd ((hwf _ _ hv).2.2.2.1 rfl) (by rintro ⟨lt, hlt⟩; cases hlt)
    | subjectV s => exact absurd ((hwf _ _ hv).2.2.2.1 rfl) (by rintro ⟨lt, hlt⟩; cases hlt)
    | groupV g => exact absurd ((hwf _ _ hv).2.2.2.1 rfl) (by rintro ⟨lt, hlt⟩; cases hlt)
    | tsV t => exact absurd ((hwf _ _ hv).2.2.2.1 rfl) (by rintro ⟨lt, hlt⟩; cases hlt)
  | none =>
    have hother : ∀ (lt : LessonTime) k, k ≠ lessonTimeKey d n →
        cacheGet (cacheSet st.cache (lessonTimeKey d n) (CVal.lessonTimeV lt)) k =
          cacheGet st.cache k :=
      fun lt k hk => cacheGet_set_ne st.cache (lessonTimeKey d n) k (CVal.lessonTimeV lt) hk
    have hpers : ∀ (lt : LessonTime) k v, cacheGet st.cache k = some v →
        cacheGet (cacheSet st.cache (lessonTimeKey d n) (CVal.lessonTimeV lt)) k = some v := by
      intro lt k v h
      by_cases hk : k = lessonTimeKey d n
      · subst hk; rw [hv] at h; cases h
      · rw [cacheGet_set_ne st.cache (lessonTimeKey d n) k (CVal.lessonTimeV lt) hk]; exact h
    cases hf : st.lesson_times.find?
        (fun lt => decide (lt.date = d ∧ lt.lesson_number = n)) with
    | some lt =>
      exact ⟨cacheGet_set_eq st.cache (lessonTimeKey d n) (CVal.lessonTimeV lt),
        hother lt, hpers lt, rfl, rfl, rfl,
        WFCache_set st.cache (lessonTimeKey d n) (CVal.lessonTimeV lt) hwf
          (wfVal_lesson_time d n lt)⟩
    | none =>
      exact ⟨cacheGet_set_eq st.cache (lessonTimeKey d n) (CVal.lessonTimeV _),
        hother _, hpers _, rfl, rfl, rfl,
        WFCache_set st.cache (lessonTimeKey d n) (CVal.lessonTimeV _) hwf
          (wfVal_lesson_time d n _)⟩

/-- A group already cached under its by-id key is returned unchanged. -/
theorem get_cached_by_id_group_hit (st : St) (gid : Nat) (g : Group)
    (h : cacheGet st.cache (groupByIdKey gid) = some (CVal.groupV g)) :
    get_cached_by_id_group st gid = (some g, st) := by
  simp only [get_cached_by_id_group]
  rw [h]

/-- Keys with distinct model-name tags are distinct (md5 inputs differ). -/
theorem ne_of_fst_eq {k k' : CKey} {a b : String}
    (hk : k.1 = a) (hk' : k'.1 = b) (hab : a ≠ b) : k ≠ k' :=
  fun he => hab (by rw [← hk, ← hk', he])

theorem lessonFst_ne_teacherKey {k : CKey} (hk : k.1 = "Lesson") (n : String) :
    k ≠ teacherKey n :=
  ne_of_fst_eq hk (show (teacherKey n).1 = "Teacher" from rfl) (by decide)

theorem lessonFst_ne_classroomKey {k : CKey} (hk : k.1 = "Lesson") (n : String) :
    k ≠ classroomKey n :=
  ne_of_fst_eq hk (show (classroomKey n).1 = "Classroom" from rfl) (by decide)

theorem lessonFst_ne_subjectKey {k : CKey} (hk : k.1 = "Lesson") (n : String) :
    k ≠ subjectKey n :=
  ne_of_fst_eq hk (show (subjectKey n).1 = "Subject" from rfl) (by decide)

theorem lessonFst_ne_lessonTimeKey {k : CKey} (hk : k.1 = "Lesson") (d : Date) (n : String) :
    k ≠ lessonTimeKey d n :=
  ne_of_fst_eq hk (show (lessonTimeKey d n).1 = "LessonTime" from rfl) (by decide)

theorem lessonFst_ne_groupByIdKey {k : CKey} (hk : k.1 = "Lesson") (gid : Nat) :
    k ≠ groupByIdKey gid :=
  ne_of_fst_eq hk (show (groupByIdKey gid).1 = "Group" from rfl) (by decide)

theorem teacherKey_ne_classroomKey (a b : String) : teacherKey a ≠ classroomKey b :=
  ne_of_fst_eq (show (teacherKey a).1 = "Teacher" from rfl)
    (show (classroomKey b).1 = "Classroom" from rfl) (by decide)

theorem teacherKey_ne_subjectKey (a b : String) : teacherKey a ≠ subjectKey b :=
  ne_of_fst_eq (show (teacherKey a).1 = "Teacher" from rfl)
    (show (subjectKey b).1 = "Subject" from rfl) (by decide)

theorem teacherKey_ne_lessonTimeKey (a : String) (d : Date) (b : String) :
    teacherKey a ≠ lessonTimeKey d b :=
  ne_of_fst_eq (show (teacherKey a).1 = "Teacher" from rfl)
    (show (lessonTimeKey d b).1 = "LessonTime" from rfl) (by decide)

theorem classroomKey_ne_subjectKey (a b : String) : classroomKey a ≠ subjectKey b :=
  ne_of_fst_eq (show (classroomKey a).1 = "Classroom" from rfl)
    (show (subjectKey b).1 = "Subject" from rfl) (by decide)

theorem classroomKey_ne_lessonTimeKey (a : String) (d : Date) (b : String) :
    classroomKey a ≠ lessonTimeKey d b :=
  ne_of_fst_eq (show (classroomKey a).1 = "Classroom" from rfl)
    (show (lessonTimeKey d b).1 = "LessonTime" from rfl) (by decide)

theorem subjectKey_ne_lessonTimeKey (a : String) (d : Date) (b : String) :
    subjectKey a ≠ lessonTimeKey d b :=
  ne_of_fst_eq (show (subjectKey a).1 = "Subject" from rfl)
    (show (lessonTimeKey d b).1 = "LessonTime" from rfl) (by decide)

/-- One step of the `save_lessons` loop preserves the loop invariant, only
appends to the creation queue, grows the cache monotonically, and for a
dated entry whose group is cached leaves the entry's fingerprint key
resolvable, marked with the current epoch, and carrying a queued lesson. -/
theorem save_step_spec (st0 : St) (hts : st0.current_timestamp ≠ 0)
    (acc : SaveAcc) (e : Entry) (hinv : SaveInv st0 acc)
    (hg : ∀ d, e.date = some d → ∃ g,
      cacheGet acc.st.cache (groupByIdKey e.group_id) = some (CVal.groupV g)) :
    SaveInv st0 (save_step acc e) ∧
      (∃ new, (save_step acc e).to_create = acc.to_create ++ new) ∧
      CacheMono st0.current_timestamp acc.st.cache (save_step acc e).st.cache ∧
      (∀ d, e.date = some d → ∃ k,
        entryKeyAt (save_step acc e).st e = some k ∧
          cacheGet (save_step acc e).st.cache k = some (CVal.tsV st0.current_timestamp) ∧
          ∃ l ∈ (save_step acc e).to_create, make_lesson_cache_key l = k) := by
  cases he : e.date with
  | none =>
    have hstep : save_step acc e = acc := by simp only [save_step, he]
    rw [hstep]
    exact ⟨hinv, ⟨[], (List.append_nil _).symm⟩,
      ⟨fun k v h _ => h, fun k h => h⟩,
      fun d hd => Option.noConfusion hd⟩
  | some d =>
    obtain ⟨g, hgc⟩ := hg d he
    obtain ⟨h1k, h1o, h1p, h1l, h1t, h1g, h1w⟩ :=
      get_or_create_teacher_spec acc.st e.teacher_name hinv.wf
    obtain ⟨h2k, h2o, h2p, h2l, h2t, h2g, h2w⟩ :=
      get_or_create_classroom_spec (get_or_create_teacher acc.st e.teacher_name).2
        e.classroom_title h1w
    obtain ⟨h3k, h3o, h3p, h3l, h3t, h3g, h3w⟩ :=
      get_or_create_subject_spec
        (get_or_create_classroom (get_or_create_teacher acc.st e.teacher_name).2
          e.classroom_title).2 e.subject_title h2w
    have hg3 : cacheGet
        (get_or_create_subject
          (get_or_create_classroom (get_or_create_teacher acc.st e.teacher_name).2
            e.classroom_title).2 e.subject_title).2.cache
        (groupByIdKey e.group_id) = some (CVal.groupV g) :=
      h3p _ _ (h2p _ _ (h1p _ _ hgc))
    have hr4 := get_cached_by_id_group_hit _ e.group_id g hg3
    obtain ⟨h5k, h5o, h5p, h5l, h5t, h5g, h5w⟩ :=
      get_or_create_lesson_time_spec
        (get_or_create_subject
          (get_or_create_classroom (get_or_create_teacher acc.st e.teacher_name).2
            e.classroom_title).2 e.subject_title).2 d e.lesson_number h3w
    simp only [save_step, he, hr4]
    set T := get_or_create_teacher acc.st e.teacher_name with hT
    set C := get_or_create_classroom T.2 e.classroom_title with hC
    set S := get_or_create_subject C.2 e.subject_title with hS
    set LT := get_or_create_lesson_time S.2 d e.lesson_number with hLT
    set L : Lesson :=
      { id := 0, group_id := g.id, subgroup := e.subgroup, lesson_time_id := LT.1.id,
        teacher_id := T.1.id, classroom_id := C.1.id, subject_id := S.1.id,
        is_active := true } with hL
    set K := make_lesson_cache_key L with hK
    have hKfst : K.1 = "Lesson" := by rw [hK]; rfl
    have hts5 : LT.2.current_timestamp = st0.current_timestamp := by
      rw [h5t, h3t, h2t, h1t, hinv.ts_eq]
    have hles5 : LT.2.lessons = st0.lessons := by
      rw [h5l, h3l, h2l, h1l, hinv.lessons_eq]
    have hLmark : ∀ k : CKey, k.1 = "Lesson" →
        cacheGet LT.2.cache k = cacheGet acc.st.cache k := by
      intro k hk
      rw [h5o k (lessonFst_ne_lessonTimeKey hk d e.lesson_number),
        h3o k (lessonFst_ne_subjectKey hk e.subject_title),
        h2o k (lessonFst_ne_classroomKey hk e.classroom_title),
        h1o k (lessonFst_ne_teacherKey hk e.teacher_name)]
    have hback : ∀ k t', cacheGet LT.2.cache k = some (CVal.tsV t') →
        cacheGet acc.st.cache k = some (CVal.tsV t') := by
      intro k t' h
      by_cases hk5 : k = lessonTimeKey d e.lesson_number
      · subst hk5; rw [h5k] at h; cases h
      · rw [h5o k hk5] at h
        by_cases hk3 : k = subjectKey e.subject_title
        · subst hk3; rw [h3k] at h; cases h
        · rw [h3o k hk3] at h
          by_cases hk2 : k = classroomKey e.classroom_title
          · subst hk2; rw [h2k] at h; cases h
          · rw [h2o k hk2] at h
            by_cases hk1 : k = teacherKey e.teacher_name
            · subst hk1; rw [h1k] at h; cases h
            · rw [h1o k hk1] at h; exact h
    have hpersAll : ∀ k v, cacheGet acc.st.cache k = some v →
        cacheGet LT.2.cache k = some v :=
      fun k v h => h5p _ _ (h3p _ _ (h2p _ _ (h1p _ _ h)))
    have hq5 : cacheGet LT.2.cache K = cacheGet acc.st.cache K := hLmark K hKfst
    cases hq : cacheGet acc.st.cache K with
    | none =>
      have hq5n : cacheGet LT.2.cache K = none := hq5.trans hq
      simp only [hq5n, eq_self_iff_true, if_true]
      refine ⟨⟨?_, ?_, ?_, ?_, ?_, ?_, ?_⟩, ⟨[L], rfl⟩, ⟨?_, ?_⟩, ?_⟩
      · exact hts5
      · exact hles5
      · exact WFCache_set LT.2.cache K (CVal.tsV LT.2.current_timestamp) h5w
          (by rw [hK]; exact wfVal_mark L LT.2.current_timestamp)
      · intro k t h
        by_cases hkK : k = K
        · subst hkK
          rw [cacheGet_set_eq] at h
          have ht : t = LT.2.current_timestamp := by
            cases h; rfl
          refine ⟨ht.trans hts5, L, List.mem_append_right _ (List.mem_singleton_self L),
            hK.symm⟩
        · rw [cacheGet_set_ne _ _ _ _ hkK] at h
          obtain ⟨ht0, l, hl, hkl⟩ := hinv.marks_fresh k t (hback k t h)
          exact ⟨ht0, l, List.mem_append_left _ hl, hkl⟩
      · intro l hl
        rcases List.mem_append.mp hl with hl | hl
        · have hlf : (make_lesson_cache_key l).1 = "Lesson" := rfl
          by_cases hkK : make_lesson_cache_key l = K
          · rw [hkK, cacheGet_set_eq]
            rw [hts5]
          · rw [cacheGet_set_ne _ _ _ _ hkK, hLmark _ hlf]
            exact hinv.queued_marked l hl
        · rw [List.mem_singleton.mp hl, ← hK, cacheGet_set_eq, hts5]
      · rw [List.map_append]
        rw [List.nodup_append]
        refine ⟨hinv.keys_nodup, List.nodup_singleton _, ?_⟩
        intro x hx hx'
        obtain ⟨l, hl, hkl⟩ := List.mem_map.mp hx
        rw [List.mem_singleton.mp hx'] at hkl
        rw [← hK] at hkl
        have := hinv.queued_marked l hl
        rw [hkl, hq] at this
        cases this
      · intro l hl
        rcases List.mem_append.mp hl with hl | hl
        · exact hinv.queued_active l hl
        · rw [List.mem_singleton.mp hl]
      · intro k v h hnts
        by_cases hkK : k = K
        · subst hkK; rw [hq] at h; cases h
        · rw [cacheGet_set_ne _ _ _ _ hkK]
          exact hpersAll k v h
      · intro k h
        obtain ⟨_, l, hl, hkl⟩ := hinv.marks_fresh k _ h
        have hkf : k.1 = "Lesson" := by rw [← hkl]; rfl
        by_cases hkK : k = K
        · subst hkK; rw [cacheGet_set_eq, hts5]
        · rw [cacheGet_set_ne _ _ _ _ hkK, hLmark k hkf]
          exact h
      · intro d' hd'
        refine ⟨K, ?_, ?_, L, List.mem_append_right _ (List.mem_singleton_self L), hK.symm⟩
        · have e1 : cacheGet (cacheSet LT.2.cache K (CVal.tsV LT.2.current_timestamp))
              (teacherKey e.teacher_name) = some (CVal.teacherV T.1) := by
            rw [cacheGet_set_ne _ _ _ _ (Ne.symm (lessonFst_ne_teacherKey hKfst _)),
              h5o _ (teacherKey_ne_lessonTimeKey _ d _),
              h3o _ (teacherKey_ne_subjectKey _ _),
              h2o _ (teacherKey_ne_classroomKey _ _), h1k]
          have e2 : cacheGet (cacheSet LT.2.cache K (CVal.tsV LT.2.current_timestamp))
              (classroomKey e.classroom_title) = some (CVal.classroomV C.1) := by
            rw [cacheGet_set_ne _ _ _ _ (Ne.symm (lessonFst_ne_classroomKey hKfst _)),
              h5o _ (classroomKey_ne_lessonTimeKey _ d _),
              h3o _ (classroomKey_ne_subjectKey _ _), h2k]
          have e3 : cacheGet (cacheSet LT.2.cache K (CVal.tsV LT.2.current_timestamp))
              (subjectKey e.subject_title) = some (CVal.subjectV S.1) := by
            rw [cacheGet_set_ne _ _ _ _ (Ne.symm (lessonFst_ne_subjectKey hKfst _)),
              h5o _ (subjectKey_ne_lessonTimeKey _ d _), h3k]
          have e4 : cacheGet (cacheSet LT.2.cache K (CVal.tsV LT.2.current_timestamp))
              (groupByIdKey e.group_id) = some (CVal.groupV g) := by
            rw [cacheGet_set_ne _ _ _ _ (Ne.symm (lessonFst_ne_groupByIdKey hKfst _))]
            exact h5p _ _ hg3
          have e5 : cacheGet (cacheSet LT.2.cache K (CVal.tsV LT.2.current_timestamp))
              (lessonTimeKey d e.lesson_number) = some (CVal.lessonTimeV LT.1) := by
            rw [cacheGet_set_ne _ _ _ _ (Ne.symm (lessonFst_ne_lessonTimeKey hKfst d _))]
            exact h5k
          simp only [entryKeyAt, cachedTeacher, cachedClassroom, cachedSubject,
            cachedGroupRow, cachedLessonTime, he, e1, e2, e3, e4, e5]
        · rw [cacheGet_set_eq, hts5]
    | some v =>
      obtain ⟨t, rfl⟩ := (hinv.wf K v hq).2.2.2.2.2 hKfst
      obtain ⟨ht0, lq, hlq, hklq⟩ := hinv.marks_fresh K t hq
      subst ht0
      have hq5n : cacheGet LT.2.cache K = some (CVal.tsV st0.current_timestamp) :=
        hq5.trans hq
      have htr : (!(CVal.truthy (CVal.tsV st0.current_timestamp))) = false := by
        simp [CVal.truthy, hts]
      simp only [hq5n, htr, Bool.false_eq_true, if_false]
      refine ⟨⟨?_, ?_, ?_, ?_, ?_, ?_, ?_⟩, ⟨[], (List.append_nil _).symm⟩, ⟨?_, ?_⟩, ?_⟩
      · exact hts5
      · exact hles5
      · exact WFCache_set LT.2.cache K (CVal.tsV LT.2.current_timestamp) h5w
          (by rw [hK]; exact wfVal_mark L LT.2.current_timestamp)
      · intro k t h
        by_cases hkK : k = K
        · subst hkK
          rw [cacheGet_set_eq] at h
          have ht : t = LT.2.current_timestamp := by cases h; rfl
          exact ⟨ht.trans hts5, lq, hlq, hklq⟩
        · rw [cacheGet_set_ne _ _ _ _ hkK] at h
          exact hinv.marks_fresh k t (hback k t h)
      · intro l hl
        have hlf : (make_lesson_cache_key l).1 = "Lesson" := rfl
        by_cases hkK : make_lesson_cache_key l = K
        · rw [hkK, cacheGet_set_eq, hts5]
        · rw [cacheGet_set_ne _ _ _ _ hkK, hLmark _ hlf]
          exact hinv.queued_marked l hl
      · exact hinv.keys_nodup
      · exact hinv.queued_active
      · intro k v h hnts
        by_cases hkK : k = K
        · subst hkK
          rw [hq] at h
          cases h
          exact absurd rfl (hnts st0.current_timestamp)
        · rw [cacheGet_set_ne _ _ _ _ hkK]
          exact hpersAll k v h
      · intro k h
        obtain ⟨_, l, hl, hkl⟩ := hinv.marks_fresh k _ h
        have hkf : k.1 = "Lesson" := by rw [← hkl]; rfl
        by_cases hkK : k = K
        · subst hkK; rw [cacheGet_set_eq, hts5]
        · rw [cacheGet_set_ne _ _ _ _ hkK, hLmark k hkf]
          exact h
      · intro d' hd'
        refine ⟨K, ?_, ?_, lq, hlq, hklq⟩
        · have e1 : cacheGet (cacheSet LT.2.cache K (CVal.tsV LT.2.current_timestamp))
              (teacherKey e.teacher_name) = some (CVal.teacherV T.1) := by
            rw [cacheGet_set_ne _ _ _ _ (Ne.symm (lessonFst_ne_teacherKey hKfst _)),
              h5o _ (teacherKey_ne_lessonTimeKey _ d _),
              h3o _ (teacherKey_ne_subjectKey _ _),
              h2o _ (teacherKey_ne_classroomKey _ _), h1k]
          have e2 : cacheGet (cacheSet LT.2.cache K (CVal.tsV LT.2.current_timestamp))
              (classroomKey e.classroom_title) = some (CVal.classroomV C.1) := by
            rw [cacheGet_set_ne _ _ _ _ (Ne.symm (lessonFst_ne_classroomKey hKfst _)),
              h5o _ (classroomKey_ne_lessonTimeKey _ d _),
              h3o _ (classroomKey_ne_subjectKey _ _), h2k]
          have e3 : cacheGet (cacheSet LT.2.cache K (CVal.tsV LT.2.current_timestamp))
              (subjectKey e.subject_title) = some (CVal.subjectV S.1) := by
            rw [cacheGet_set_ne _ _ _ _ (Ne.symm (lessonFst_ne_subjectKey hKfst _)),
              h5o _ (subjectKey_ne_lessonTimeKey _ d _), h3k]
          have e4 : cacheGet (cacheSet LT.2.cache K (CVal.tsV LT.2.current_timestamp))
              (groupByIdKey e.group_id) = some (CVal.groupV g) := by
            rw [cacheGet_set_ne _ _ _ _ (Ne.symm (lessonFst_ne_groupByIdKey hKfst _))]
            exact h5p _ _ hg3
          have e5 : cacheGet (cacheSet LT.2.cache K (CVal.tsV LT.2.current_timestamp))
              (lessonTimeKey d e.lesson_number) = some (CVal.lessonTimeV LT.1) := by
            rw [cacheGet_set_ne _ _ _ _ (Ne.symm (lessonFst_ne_lessonTimeKey hKfst d _))]
            exact h5k
          simp only [entryKeyAt, cachedTeacher, cachedClassroom, cachedSubject,
            cachedGroupRow, cachedLessonTime, he, e1, e2, e3, e4, e5]
        · rw [cacheGet_set_eq, hts5]

theorem CacheMono_trans {ts : Nat} {c1 c2 c3 : Cache}
    (h12 : CacheMono ts c1 c2) (h23 : CacheMono ts c2 c3) : CacheMono ts c1 c3 :=
  ⟨fun k v h hn => h23.1 k v (h12.1 k v h hn) hn,
    fun k h => h23.2 k (h12.2 k h)⟩

theorem cachedTeacher_mono {ts : Nat} {st st' : St} (n : String)
    (hm : CacheMono ts st.cache st'.cache) (t : Teacher)
    (h : cachedTeacher st n = some t) : cachedTeacher st' n = some t := by
  unfold cachedTeacher at h ⊢
  cases hv : cacheGet st.cache (teacherKey n) with
  | none => rw [hv] at h; cases h
  | some v =>
    rw [hv] at h
    cases v with
    | teacherV t0 =>
      cases h
      rw [hm.1 (teacherKey n) (CVal.teacherV t) hv (fun x hx => CVal.noConfusion hx)]
    | classroomV x => cases h
    | subjectV x => cases h
    | lessonTimeV x => cases h
    | groupV x => cases h
    | tsV x => cases h

theorem cachedClassroom_mono {ts : Nat} {st st' : St} (n : String)
    (hm : CacheMono ts st.cache st'.cache) (c : Classroom)
    (h : cachedClassroom st n = some c) : cachedClassroom st' n = some c := by
  unfold cachedClassroom at h ⊢
  cases hv : cacheGet st.cache (classroomKey n) with
  | none => rw [hv] at h; cases h
  | some v =>
    rw [hv] at h
    cases v with
    | classroomV c0 =>
      cases h
      rw [hm.1 (classroomKey n) (CVal.classroomV c) hv (fun x hx => CVal.noConfusion hx)]
    | teacherV x => cases h
    | subjectV x => cases h
    | lessonTimeV x => cases h
    | groupV x => cases h
    | tsV x => cases h

theorem cachedSubject_mono {ts : Nat} {st st' : St} (n : String)
    (hm : CacheMono ts st.cache st'.cache) (s : Subject)
    (h : cachedSubject st n = some s) : cachedSubject st' n = some s := by
  unfold cachedSubject at h ⊢
  cases hv : cacheGet st.cache (subjectKey n) with
  | none => rw [hv] at h; cases h
  | some v =>
    rw [hv] at h
    cases v with
    | subjectV s0 =>
      cases h
      rw [hm.1 (subjectKey n) (CVal.subjectV s) hv (fun x hx => CVal.noConfusion hx)]
    | teacherV x => cases h
    | classroomV x => cases h
    | lessonTimeV x => cases h
    | groupV x => cases h
    | tsV x => cases h

theorem cachedGroupRow_mono {ts : Nat} {st st' : St} (gid : Nat)
    (hm : CacheMono ts st.cache st'.cache) (g : Group)
    (h : cachedGroupRow st gid = some g) : cachedGroupRow st' gid = some g := by
  unfold cachedGroupRow at h ⊢
  cases hv : cacheGet st.cache (groupByIdKey gid) with
  | none => rw [hv] at h; cases h
  | some v =>
    rw [hv] at h
    cases v with
    | groupV g0 =>
      cases h
      rw [hm.1 (groupByIdKey gid) (CVal.groupV g) hv (fun x hx => CVal.noConfusion hx)]
    | teacherV x => cases h
    | classroomV x => cases h
    | subjectV x => cases h
    | lessonTimeV x => cases h
    | tsV x => cases h

theorem cachedLessonTime_mono {ts : Nat} {st st' : St} (d : Date) (n : String)
    (hm : CacheMono ts st.cache st'.cache) (lt : LessonTime)
    (h : cachedLessonTime st d n = some lt) : cachedLessonTime st' d n = some lt := by
  unfold cachedLessonTime at h ⊢
  cases hv : cacheGet st.cache (lessonTimeKey d n) with
  | none => rw [hv] at h; cases h
  | some v =>
    rw [hv] at h
    cases v with
    | lessonTimeV lt0 =>
      cases h
      rw [hm.1 (lessonTimeKey d n) (CVal.lessonTimeV lt) hv (fun x hx => CVal.noConfusion hx)]
    | teacherV x => cases h
    | classroomV x => cases h
    | subjectV x => cases h
    | groupV x => cases h
    | tsV x => cases h

/-- The entry key survives any cache growth that preserves cached model
instances. -/
theorem entryKeyAt_mono {ts : Nat} {st st' : St} (e : Entry)
    (hm : CacheMono ts st.cache st'.cache) (k : CKey)
    (hk : entryKeyAt st e = some k) : entryKeyAt st' e = some k := by
  unfold entryKeyAt at hk ⊢
  cases hd : e.date with
  | none => simp only [hd] at hk; exact Option.noConfusion hk
  | some d =>
    simp only [hd] at hk ⊢
    cases h1 : cachedTeacher st e.teacher_name with
    | none => simp only [h1] at hk; exact Option.noConfusion hk
    | some t =>
      simp only [h1] at hk
      cases h2 : cachedClassroom st e.classroom_title with
      | none => simp only [h2] at hk; exact Option.noConfusion hk
      | some c =>
        simp only [h2] at hk
        cases h3 : cachedSubject st e.subject_title with
        | none => simp only [h3] at hk; exact Option.noConfusion hk
        | some sj =>
          simp only [h3] at hk
          cases h4 : cachedGroupRow st e.group_id with
          | none => simp only [h4] at hk; exact Option.noConfusion hk
          | some g =>
            simp only [h4] at hk
            cases h5 : cachedLessonTime st d e.lesson_number with
            | none => simp only [h5] at hk; exact Option.noConfusion hk
            | some lt =>
              simp only [h5] at hk
              simp only [cachedTeacher_mono e.teacher_name hm t h1,
                cachedClassroom_mono e.classroom_title hm c h2,
                cachedSubject_mono e.subject_title hm sj h3,
                cachedGroupRow_mono e.group_id hm g h4,
                cachedLessonTime_mono d e.lesson_number hm lt h5]
              exact hk

/-- The `save_lessons` entry loop: the invariant is preserved, the queue
only grows, the cache grows monotonically, and every dated entry whose
group is cached ends with its key resolvable, marked with the current
epoch, and carrying a queued lesson. -/
theorem save_fold_spec (st0 : St) (hts : st0.current_timestamp ≠ 0) :
    ∀ (es : List Entry) (acc : SaveAcc), SaveInv st0 acc →
      (∀ e ∈ es, ∀ d : Date, e.date = some d → ∃ g,
        cacheGet acc.st.cache (groupByIdKey e.group_id) = some (CVal.groupV g)) →
      SaveInv st0 (es.foldl save_step acc) ∧
        (∃ new, (es.foldl save_step acc).to_create = acc.to_create ++ new) ∧
        CacheMono st0.current_timestamp acc.st.cache (es.foldl save_step acc).st.cache ∧
        (∀ e ∈ es, ∀ d : Date, e.date = some d → ∃ k,
          entryKeyAt (es.foldl save_step acc).st e = some k ∧
            cacheGet (es.foldl save_step acc).st.cache k =
              some (CVal.tsV st0.current_timestamp) ∧
            ∃ l ∈ (es.foldl save_step acc).to_create, make_lesson_cache_key l = k) := by
  intro es
  induction es with
  | nil =>
    intro acc hinv hg
    exact ⟨hinv, ⟨[], (List.append_nil _).symm⟩,
      ⟨fun k v h _ => h, fun k h => h⟩, fun e he => absurd he (List.not_mem_nil e)⟩
  | cons e rest ih =>
    intro acc hinv hg
    obtain ⟨hinv1, ⟨new1, hnew1⟩, hmono1, hproc1⟩ :=
      save_step_spec st0 hts acc e hinv (hg e (List.mem_cons_self e rest))
    have hgrest : ∀ e' ∈ rest, ∀ d : Date, e'.date = some d → ∃ g,
        cacheGet (save_step acc e).st.cache (groupByIdKey e'.group_id) =
          some (CVal.groupV g) := by
      intro e' he' d hd
      obtain ⟨g, hgc⟩ := hg e' (List.mem_cons_of_mem e he') d hd
      exact ⟨g, hmono1.1 _ _ hgc (fun t ht => CVal.noConfusion ht)⟩
    obtain ⟨hinv2, ⟨new2, hnew2⟩, hmono2, hproc2⟩ := ih (save_step acc e) hinv1 hgrest
    rw [List.foldl_cons]
    refine ⟨hinv2, ⟨new1 ++ new2, by rw [hnew2, hnew1, List.append_assoc]⟩,
      CacheMono_trans hmono1 hmono2, ?_⟩
    intro e' he' d hd
    rcases List.mem_cons.mp he' with rfl | he'
    · obtain ⟨k, hek, hmark, l, hl, hkl⟩ := hproc1 d hd
      refine ⟨k, entryKeyAt_mono e' hmono2 k hek, hmono2.2 k hmark,
        l, ?_, hkl⟩
      rw [hnew2]
      exact List.mem_append_left _ hl
    · exact hproc2 e' he' d hd

/-- `bulk_create` only appends id-assigned rows and bumps the sequence. -/
theorem bulk_create_lessons_spec : ∀ (ls : List Lesson) (st : St),
    bulk_create_lessons st ls =
      { st with lessons := st.lessons ++ assignIds st.next_id ls,
                next_id := st.next_id + ls.length } := by
  intro ls
  induction ls with
  | nil => intro st; simp [bulk_create_lessons, assignIds]
  | cons l rest ih =>
    intro st
    show bulk_create_lessons
        { st with lessons := st.lessons ++ [{ l with id := st.next_id }],
                  next_id := st.next_id + 1 } rest = _
    rw [ih]
    simp [assignIds, Nat.add_comm, Nat.add_assoc, Nat.add_left_comm]

/-- Assigning ids does not change fingerprints. -/
theorem assignIds_map_key : ∀ (n : Nat) (ls : List Lesson),
    (assignIds n ls).map make_lesson_cache_key = ls.map make_lesson_cache_key := by
  intro n ls
  induction ls generalizing n with
  | nil => rfl
  | cons l rest ih => simp [assignIds, ih, make_lesson_cache_key]

/-- Assigning ids does not change the active flag. -/
theorem assignIds_map_active : ∀ (n : Nat) (ls : List Lesson),
    (assignIds n ls).map (fun l => l.is_active) = ls.map (fun l => l.is_active) := by
  intro n ls
  induction ls generalizing n with
  | nil => rfl
  | cons l rest ih => simp [assignIds, ih]

/-- A cached teacher accessor hit names a cached `teacherV` binding. -/
theorem cachedTeacher_eq_some {st : St} {n : String} {t : Teacher}
    (h : cachedTeacher st n = some t) :
    cacheGet st.cache (teacherKey n) = some (CVal.teacherV t) := by
  unfold cachedTeacher at h
  cases hv : cacheGet st.cache (teacherKey n) with
  | none => rw [hv] at h; cases h
  | some v =>
    rw [hv] at h
    cases v with
    | teacherV t0 => cases h; rfl
    | classroomV x => cases h
    | subjectV x => cases h
    | lessonTimeV x => cases h
    | groupV x => cases h
    | tsV x => cases h

theorem cachedClassroom_eq_some {st : St} {n : String} {c : Classroom}
    (h : cachedClassroom st n = some c) :
    cacheGet st.cache (classroomKey n) = some (CVal.classroomV c) := by
  unfold cachedClassroom at h
  cases hv : cacheGet st.cache (classroomKey n) with
  | none => rw [hv] at h; cases h
  | some v =>
    rw [hv] at h
    cases v with
    | classroomV c0 => cases h; rfl
    | teacherV x => cases h
    | subjectV x => cases h
    | lessonTimeV x => cases h
    | groupV x => cases h
    | tsV x => cases h

theorem cachedSubject_eq_some {st : St} {n : String} {s : Subject}
    (h : cachedSubject st n = some s) :
    cacheGet st.cache (subjectKey n) = some (CVal.subjectV s) := by
  unfold cachedSubject at h
  cases hv : cacheGet st.cache (subjectKey n) with
  | none => rw [hv] at h; cases h
  | some v =>
    rw [hv] at h
    cases v with
    | subjectV s0 => cases h; rfl
    | teacherV x => cases h
    | classroomV x => cases h
    | lessonTimeV x => cases h
    | groupV x => cases h
    | tsV x => cases h

theorem cachedGroupRow_eq_some {st : St} {gid : Nat} {g : Group}
    (h : cachedGroupRow st gid = some g) :
    cacheGet st.cache (groupByIdKey gid) = some (CVal.groupV g) := by
  unfold cachedGroupRow at h
  cases hv : cacheGet st.cache (groupByIdKey gid) with
  | none => rw [hv] at h; cases h
  | some v =>
    rw [hv] at h
    cases v with
    | groupV g0 => cases h; rfl
    | teacherV x => cases h
    | classroomV x => cases h
    | subjectV x => cases h
    | lessonTimeV x => cases h
    | tsV x => cases h

theorem cachedLessonTime_eq_some {st : St} {d : Date} {n : String} {lt : LessonTime}
    (h : cachedLessonTime st d n = some lt) :
    cacheGet st.cache (lessonTimeKey d n) = some (CVal.lessonTimeV lt) := by
  unfold cachedLessonTime at h
  cases hv : cacheGet st.cache (lessonTimeKey d n) with
  | none => rw [hv] at h; cases h
  | some v =>
    rw [hv] at h
    cases v with
    | lessonTimeV lt0 => cases h; rfl
    | teacherV x => cases h
    | classroomV x => cases h
    | subjectV x => cases h
    | groupV x => cases h
    | tsV x => cases h

/-- Resolver hit lemmas: a cached natural key returns the cached row and
leaves the state untouched. -/
theorem get_or_create_teacher_hit (st : St) (n : String) (t : Teacher)
    (h : cacheGet st.cache (teacherKey n) = some (CVal.teacherV t)) :
    get_or_create_teacher st n = (t, st) := by
  simp only [get_or_create_teacher, h]

theorem get_or_create_classroom_hit (st : St) (n : String) (c : Classroom)
    (h : cacheGet st.cache (classroomKey n) = some (CVal.classroomV c)) :
    get_or_create_classroom st n = (c, st) := by
  simp only [get_or_create_classroom, h]

theorem get_or_create_subject_hit (st : St) (n : String) (s : Subject)
    (h : cacheGet st.cache (subjectKey n) = some (CVal.subjectV s)) :
    get_or_create_subject st n = (s, st) := by
  simp only [get_or_create_subject, h]

theorem get_or_create_lesson_time_hit (st : St) (d : Date) (n : String) (lt : LessonTime)
    (h : cacheGet st.cache (lessonTimeKey d n) = some (CVal.lessonTimeV lt)) :
    get_or_create_lesson_time st d n = (lt, st) := by
  simp only [get_or_create_lesson_time, h]

/-- The entry key only depends on the cache. -/
theorem entryKeyAt_congr (st st' : St) (e : Entry) (h : st.cache = st'.cache) :
    entryKeyAt st e = entryKeyAt st' e := by
  unfold entryKeyAt cachedTeacher cachedClassroom cachedSubject cachedGroupRow
    cachedLessonTime
  rw [h]

/-- In a state whose cache already holds every dimension row and a
current-epoch mark for the entry, one save step queues nothing and
leaves the cache lookup-equal to the base cache. -/
theorem save_step_saturated (ts : Nat) (hts : ts ≠ 0) (stBase : St)
    (acc : SaveAcc) (e : Entry)
    (hts_acc : acc.st.current_timestamp = ts)
    (hcache : ∀ k, cacheGet acc.st.cache k = cacheGet stBase.cache k)
    (hsat : ∀ d : Date, e.date = some d → ∃ k, entryKeyAt stBase e = some k ∧
      cacheGet stBase.cache k = some (CVal.tsV ts)) :
    (save_step acc e).to_create = acc.to_create ∧
      (save_step acc e).st.lessons = acc.st.lessons ∧
      (save_step acc e).st.current_timestamp = ts ∧
      (∀ k, cacheGet (save_step acc e).st.cache k = cacheGet stBase.cache k) := by
  cases he : e.date with
  | none =>
    have hstep : save_step acc e = acc := by simp only [save_step, he]
    rw [hstep]
    exact ⟨rfl, rfl, hts_acc, hcache⟩
  | some d =>
    obtain ⟨k, hek, hmk⟩ := hsat d he
    unfold entryKeyAt at hek
    simp only [he] at hek
    cases h1 : cachedTeacher stBase e.teacher_name with
    | none => simp only [h1] at hek; exact Option.noConfusion hek
    | some t =>
      simp only [h1] at hek
      cases h2 : cachedClassroom stBase e.classroom_title with
      | none => simp only [h2] at hek; exact Option.noConfusion hek
      | some c =>
        simp only [h2] at hek
        cases h3 : cachedSubject stBase e.subject_title with
        | none => simp only [h3] at hek; exact Option.noConfusion hek
        | some sj =>
          simp only [h3] at hek
          cases h4 : cachedGroupRow stBase e.group_id with
          | none => simp only [h4] at hek; exact Option.noConfusion hek
          | some g =>
            simp only [h4] at hek
            cases h5 : cachedLessonTime stBase d e.lesson_number with
            | none => simp only [h5] at hek; exact Option.noConfusion hek
            | some lt =>
              simp only [h5] at hek
              have hk := Option.some.inj hek
              have hT : get_or_create_teacher acc.st e.teacher_name = (t, acc.st) :=
                get_or_create_teacher_hit _ _ _
                  (by rw [hcache]; exact cachedTeacher_eq_some h1)
              have hC : get_or_create_classroom acc.st e.classroom_title = (c, acc.st) :=
                get_or_create_classroom_hit _ _ _
                  (by rw [hcache]; exact cachedClassroom_eq_some h2)
              have hS : get_or_create_subject acc.st e.subject_title = (sj, acc.st) :=
                get_or_create_subject_hit _ _ _
                  (by rw [hcache]; exact cachedSubject_eq_some h3)
              have hG : get_cached_by_id_group acc.st e.group_id = (some g, acc.st) :=
                get_cached_by_id_group_hit _ _ _
                  (by rw [hcache]; exact cachedGroupRow_eq_some h4)
              have hLT : get_or_create_lesson_time acc.st d e.lesson_number = (lt, acc.st) :=
                get_or_create_lesson_time_hit _ _ _ _
                  (by rw [hcache]; exact cachedLessonTime_eq_some h5)
              have hmx : cacheGet acc.st.cache
                  (make_lesson_cache_key
                    { id := 0, group_id := g.id, subgroup := e.subgroup,
                      lesson_time_id := lt.id, teacher_id := t.id, classroom_id := c.id,
                      subject_id := sj.id, is_active := true }) =
                  some (CVal.tsV ts) := by
                rw [hcache, hk]
                exact hmk
              have htr : (!(CVal.truthy (CVal.tsV ts))) = false := by
                simp [CVal.truthy, hts]
              simp only [save_step, he, hT, hC, hS, hG, hLT, hmx, htr,
                Bool.false_eq_true, if_false]
              refine ⟨trivial, trivial, hts_acc, ?_⟩
              intro k'
              by_cases hk' : k' = make_lesson_cache_key
                  { id := 0, group_id := g.id, subgroup := e.subgroup,
                    lesson_time_id := lt.id, teacher_id := t.id, classroom_id := c.id,
                    subject_id := sj.id, is_active := true }
              · subst hk'
                rw [cacheGet_set_eq, hts_acc, hk]
                exact hmk.symm
              · rw [cacheGet_set_ne _ _ _ _ hk']
                exact hcache k'

/-- Folding the save loop over entries all of whose keys are saturated
with current-epoch marks queues nothing and leaves the cache
lookup-equal to the base cache. -/
theorem save_fold_saturated (ts : Nat) (hts : ts ≠ 0) (stBase : St) :
    ∀ (es : List Entry) (acc : SaveAcc),
      acc.st.current_timestamp = ts →
      (∀ k, cacheGet acc.st.cache k = cacheGet stBase.cache k) →
      (∀ e ∈ es, ∀ d : Date, e.date = some d → ∃ k, entryKeyAt stBase e = some k ∧
        cacheGet stBase.cache k = some (CVal.tsV ts)) →
      (es.foldl save_step acc).to_create = acc.to_create ∧
        (es.foldl save_step acc).st.lessons = acc.st.lessons ∧
        (es.foldl save_step acc).st.current_timestamp = ts ∧
        (∀ k, cacheGet (es.foldl save_step acc).st.cache k = cacheGet stBase.cache k) := by
  intro es
  induction es with
  | nil =>
    intro acc h1 h2 _
    exact ⟨rfl, rfl, h1, h2⟩
  | cons e rest ih =>
    intro acc h1 h2 hsat
    obtain ⟨s1, s2, s3, s4⟩ :=
      save_step_saturated ts hts stBase acc e h1 h2 (hsat e (List.mem_cons_self e rest))
    obtain ⟨r1, r2, r3, r4⟩ := ih (save_step acc e) s3 s4
      (fun e' he' => hsat e' (List.mem_cons_of_mem e he'))
    rw [List.foldl_cons]
    exact ⟨r1.trans s1, r2.trans s2, r3, r4⟩

/-- C1: with a fixed nonzero epoch, a well-formed cache holding no
fingerprint marks, and the entries' groups cached, running
`save_lessons` twice on the same entry list persists exactly one Lesson
per fingerprint: the second run persists nothing new, the lessons
created by the first run have pairwise distinct fingerprints, each
created lesson's mark carries the current epoch after either run, and
every dated entry resolves to a fingerprint key that has exactly one
created lesson and whose mark is (re)written with the current epoch on
both runs. -/
theorem create_phase_idempotent (st : St) (ld : List Entry)
    (hts : st.current_timestamp ≠ 0)
    (hwf : WFCache st.cache)
    (hm : ∀ k t, cacheGet st.cache k ≠ some (CVal.tsV t))
    (hg : ∀ e ∈ ld, ∀ d : Date, e.date = some d → ∃ g,
      cacheGet st.cache (groupByIdKey e.group_id) = some (CVal.groupV g)) :
    ∃ created : List Lesson,
      (save_lessons st ld).2.lessons = st.lessons ++ created ∧
      (save_lessons (save_lessons st ld).2 ld).2.lessons = st.lessons ++ created ∧
      (created.map make_lesson_cache_key).Nodup ∧
      (∀ l ∈ created,
        cacheGet (save_lessons st ld).2.cache (make_lesson_cache_key l) =
            some (CVal.tsV st.current_timestamp) ∧
          cacheGet (save_lessons (save_lessons st ld).2 ld).2.cache
              (make_lesson_cache_key l) = some (CVal.tsV st.current_timestamp)) ∧
      (∀ e ∈ ld, ∀ d : Date, e.date = some d → ∃ k,
        entryKeyAt (save_lessons st ld).2 e = some k ∧
          cacheGet (save_lessons st ld).2.cache k = some (CVal.tsV st.current_timestamp) ∧
          cacheGet (save_lessons (save_lessons st ld).2 ld).2.cache k =
            some (CVal.tsV st.current_timestamp) ∧
          ∃ l ∈ created, make_lesson_cache_key l = k) := by
  have hinv0 : SaveInv st { st := st, to_create := [], affected := ∅ } :=
    ⟨rfl, rfl, hwf, fun k t h => absurd h (hm k t),
      fun l hl => absurd hl (List.not_mem_nil l), List.nodup_nil,
      fun l hl => absurd hl (List.not_mem_nil l)⟩
  obtain ⟨hinvF, ⟨new, hnew⟩, hmono, hproc⟩ :=
    save_fold_spec st hts ld { st := st, to_create := [], affected := ∅ } hinv0 hg
  set accF := ld.foldl save_step { st := st, to_create := [], affected := ∅ } with haccF
  set created := assignIds accF.st.next_id accF.to_create with hcreated
  have hkeys : created.map make_lesson_cache_key = accF.to_create.map make_lesson_cache_key := by
    rw [hcreated]; exact assignIds_map_key _ _
  have hsave1 : (save_lessons st ld).2 =
      if accF.to_create = [] then accF.st else bulk_create_lessons accF.st accF.to_create :=
    rfl
  have hst1c : (save_lessons st ld).2.cache = accF.st.cache := by
    rw [hsave1]
    by_cases hemp : accF.to_create = []
    · rw [if_pos hemp]
    · rw [if_neg hemp, bulk_create_lessons_spec]
  have hst1l : (save_lessons st ld).2.lessons = st.lessons ++ created := by
    rw [hsave1]
    by_cases hemp : accF.to_create = []
    · rw [if_pos hemp, hinvF.lessons_eq, hcreated, hemp]
      simp [assignIds]
    · rw [if_neg hemp, bulk_create_lessons_spec]
      show accF.st.lessons ++ assignIds accF.st.next_id accF.to_create = _
      rw [hinvF.lessons_eq, hcreated]
  have hst1t : (save_lessons st ld).2.current_timestamp = st.current_timestamp := by
    rw [hsave1]
    by_cases hemp : accF.to_create = []
    · rw [if_pos hemp]; exact hinvF.ts_eq
    · rw [if_neg hemp, bulk_create_lessons_spec]; exact hinvF.ts_eq
  have hsat : ∀ e ∈ ld, ∀ d : Date, e.date = some d → ∃ k,
      entryKeyAt (save_lessons st ld).2 e = some k ∧
        cacheGet (save_lessons st ld).2.cache k = some (CVal.tsV st.current_timestamp) := by
    intro e he d hd
    obtain ⟨k, hek, hmark, _⟩ := hproc e he d hd
    refine ⟨k, ?_, ?_⟩
    · rw [entryKeyAt_congr (save_lessons st ld).2 accF.st e hst1c]
      exact hek
    · rw [hst1c]
      exact hmark
  obtain ⟨q1, q2, q3, q4⟩ :=
    save_fold_saturated st.current_timestamp hts (save_lessons st ld).2 ld
      { st := (save_lessons st ld).2, to_create := [], affected := ∅ } hst1t
      (fun k => rfl) hsat
  set accS := ld.foldl save_step
    { st := (save_lessons st ld).2, to_create := [], affected := ∅ } with haccS
  have hsave2 : (save_lessons (save_lessons st ld).2 ld).2 =
      if accS.to_create = [] then accS.st
      else bulk_create_lessons accS.st accS.to_create :=
    rfl
  have hst2 : (save_lessons (save_lessons st ld).2 ld).2 = accS.st := by
    rw [hsave2, if_pos q1]
  have hmemkey : ∀ l ∈ created, ∃ l' ∈ accF.to_create,
      make_lesson_cache_key l' = make_lesson_cache_key l := by
    intro l hl
    have : make_lesson_cache_key l ∈ accF.to_create.map make_lesson_cache_key := by
      rw [← hkeys]
      exact List.mem_map_of_mem _ hl
    obtain ⟨l', hl', hkl'⟩ := List.mem_map.mp this
    exact ⟨l', hl', hkl'⟩
  refine ⟨created, hst1l, ?_, ?_, ?_, ?_⟩
  · rw [hst2, q2]
    exact hst1l
  · rw [hkeys]
    exact hinvF.keys_nodup
  · intro l hl
    obtain ⟨l', hl', hkl'⟩ := hmemkey l hl
    have hmark1 : cacheGet (save_lessons st ld).2.cache (make_lesson_cache_key l) =
        some (CVal.tsV st.current_timestamp) := by
      rw [hst1c, ← hkl']
      exact hinvF.queued_marked l' hl'
    refine ⟨hmark1, ?_⟩
    rw [hst2, q4]
    exact hmark1
  · intro e he d hd
    obtain ⟨k, hek, hmark, l', hl', hkl'⟩ := hproc e he d hd
    have hmark1 : cacheGet (save_lessons st ld).2.cache k =
        some (CVal.tsV st.current_timestamp) := by
      rw [hst1c]; exact hmark
    refine ⟨k, ?_, hmark1, ?_, ?_⟩
    · rw [entryKeyAt_congr (save_lessons st ld).2 accF.st e hst1c]
      exact hek
    · rw [hst2, q4]
      exact hmark1
    · have : make_lesson_cache_key l' ∈ created.map make_lesson_cache_key := by
        rw [hkeys]
        exact List.mem_map_of_mem _ hl'
      obtain ⟨l, hl, hkl⟩ := List.mem_map.mp this
      exact ⟨l, hl, hkl.trans hkl'⟩

theorem cacheGet_singleton (k0 : CKey) (v0 : CVal) (k : CKey) :
    cacheGet [(k0, v0)] k = if k = k0 then some v0 else none := by
  by_cases hk : k = k0
  · subst hk
    rw [if_pos rfl]
    unfold cacheGet
    rw [List.find?_cons_of_pos _ (by simp)]
    rfl
  · rw [if_neg hk]
    unfold cacheGet
    rw [List.find?_cons_of_neg _ (by simp only [decide_eq_true_eq]; exact fun h => hk h.symm)]
    rfl

theorem exStCached_wf : WFCache exStCached.cache := by
  intro k v h
  have hc : exStCached.cache = [(groupByIdKey 1, CVal.groupV exGroup)] := rfl
  rw [hc, cacheGet_singleton] at h
  by_cases hk : k = groupByIdKey 1
  · rw [if_pos hk] at h
    cases h
    rw [hk]
    exact wfVal_group 1 exGroup
  · rw [if_neg hk] at h
    cases h

theorem exStCached_no_marks : ∀ k t, cacheGet exStCached.cache k ≠ some (CVal.tsV t) := by
  intro k t h
  have hc : exStCached.cache = [(groupByIdKey 1, CVal.groupV exGroup)] := rfl
  rw [hc, cacheGet_singleton] at h
  by_cases hk : k = groupByIdKey 1
  · rw [if_pos hk] at h
    cases h
  · rw [if_neg hk] at h
    cases h

/-- Witness for C1 at a concrete state and entry list. -/
theorem create_phase_idempotent_witness :
    exStCached.current_timestamp ≠ 0 ∧
      (∀ e ∈ c1Ld, ∀ d : Date, e.date = some d → ∃ g,
        cacheGet exStCached.cache (groupByIdKey e.group_id) = some (CVal.groupV g)) ∧
      (∃ created : List Lesson,
        (save_lessons exStCached c1Ld).2.lessons = exStCached.lessons ++ created ∧
        (save_lessons (save_lessons exStCached c1Ld).2 c1Ld).2.lessons =
          exStCached.lessons ++ created ∧
        (created.map make_lesson_cache_key).Nodup ∧
        (∀ l ∈ created,
          cacheGet (save_lessons exStCached c1Ld).2.cache (make_lesson_cache_key l) =
              some (CVal.tsV exStCached.current_timestamp) ∧
            cacheGet (save_lessons (save_lessons exStCached c1Ld).2 c1Ld).2.cache
                (make_lesson_cache_key l) = some (CVal.tsV exStCached.current_timestamp)) ∧
        (∀ e ∈ c1Ld, ∀ d : Date, e.date = some d → ∃ k,
          entryKeyAt (save_lessons exStCached c1Ld).2 e = some k ∧
            cacheGet (save_lessons exStCached c1Ld).2.cache k =
              some (CVal.tsV exStCached.current_timestamp) ∧
            cacheGet (save_lessons (save_lessons exStCached c1Ld).2 c1Ld).2.cache k =
              some (CVal.tsV exStCached.current_timestamp) ∧
            ∃ l ∈ created, make_lesson_cache_key l = k)) :=
  ⟨by decide,
    fun e he d hd => ⟨exGroup, by rcases List.mem_singleton.mp he with rfl; decide⟩,
    create_phase_idempotent exStCached c1Ld (by decide) exStCached_wf exStCached_no_marks
      (fun e he d hd => ⟨exGroup, by rcases List.mem_singleton.mp he with rfl; decide⟩)⟩

/-- C5: a failed fetch and a successfully fetched document with zero
retained rows are handled identically downstream — both produce the same
one-field sentinel list (bs4's unconditionally-truthy soup makes the
empty-soup guard unreachable), and processing that sentinel runs the
sweep phase, which deactivates every active future lesson of the group
whose mark is absent or stale. -/
theorem fetch_failure_and_empty_identical (st : St) (gid : Nat) (g : Group)
    (soup : Soup) (today : Date)
    (hg : cacheGet st.cache (groupByIdKey gid) = some (CVal.groupV g))
    (hzero : parse_group_schedule_soup gid soup = [])
    (hts : st.current_timestamp ≠ 0)
    (hids : (st.lessons.map (fun l => l.id)).Nodup)
    (hstale : ∀ l ∈ st.lessons,
      markMissingOrDifferent st.cache st.current_timestamp (make_lesson_cache_key l) = true) :
    parse_group_lessons_data st gid (fun _ => Except.ok soup) =
        parse_group_lessons_data st gid (fun _ => Except.error ()) ∧
      (parse_group_lessons_data st gid (fun _ => Except.error ())).1 =
        [{ group_id := gid }] ∧
      (∀ l ∈ st.lessons, ∀ d : Date, lessonDate st l = some d →
        Date.le today d = true → l.group_id = gid → l.is_active = true →
        { l with is_active := false } ∈
          (process_group_lessons_data st [{ group_id := gid }] today).lessons) := by
  refine ⟨?_, ?_, ?_⟩
  · have h1 : parse_group_lessons_data st gid (fun _ => Except.ok soup) =
        ([{ group_id := gid }], st) := by
      simp only [parse_group_lessons_data, get_cached_by_id_group, hg]
      simp [get_soup_from_url, soup_truthy, hzero]
    have h2 : parse_group_lessons_data st gid (fun _ => Except.error ()) =
        ([{ group_id := gid }], st) := by
      simp only [parse_group_lessons_data, get_cached_by_id_group, hg]
      simp [get_soup_from_url, soup_truthy, parse_group_schedule_soup, parseRows]
    rw [h1, h2]
  · simp only [parse_group_lessons_data, get_cached_by_id_group, hg]
    simp [get_soup_from_url, soup_truthy, parse_group_schedule_soup, parseRows]
  · intro l hl d hd hle hgid hact
    have hpr : process_group_lessons_data st [{ group_id := gid }] today =
        (deactivate_canceled_lessons st gid today).2 := rfl
    rw [hpr]
    obtain ⟨hlessons, _, _, _, _⟩ := deactivate_spec_lemma st gid today hts hids
    rw [hlessons]
    have hsd : shouldDeactivate st gid today l = true := by
      unfold shouldDeactivate
      simp only [hd]
      simp [hgid, hact, hle, hstale l hl]
    have hmem := List.mem_map_of_mem
      (fun l => if shouldDeactivate st gid today l then { l with is_active := false } else l)
      hl
    simpa [hsd] using hmem

/-- Witness for C5 at a concrete state. -/
theorem fetch_failure_and_empty_identical_witness :
    cacheGet c5St.cache (groupByIdKey 1) = some (CVal.groupV exGroup) ∧
      parse_group_schedule_soup 1 ([] : Soup) = [] ∧
      c5St.current_timestamp ≠ 0 ∧
      (parse_group_lessons_data c5St 1 (fun _ => Except.ok []) =
          parse_group_lessons_data c5St 1 (fun _ => Except.error ()) ∧
        (parse_group_lessons_data c5St 1 (fun _ => Except.error ())).1 =
          [{ group_id := 1 }] ∧
        (∀ l ∈ c5St.lessons, ∀ d : Date, lessonDate c5St l = some d →
          Date.le ⟨2024, 9, 1⟩ d = true → l.group_id = 1 → l.is_active = true →
          { l with is_active := false } ∈
            (process_group_lessons_data c5St [{ group_id := 1 }] ⟨2024, 9, 1⟩).lessons)) :=
  ⟨by decide, by decide, by decide,
    fetch_failure_and_empty_identical c5St 1 exGroup [] ⟨2024, 9, 1⟩ (by decide) (by decide)
      (by decide) (by decide) (by decide)⟩

/-! ## C10: bulk get-or-create resolvers -/

theorem dictInsert_of_not_mem {α : Type} [DecidableEq α] (m : List (α × Nat))
    (kv : α × Nat) (h : ¬ kv.1 ∈ m.map Prod.fst) : dictInsert m kv = m ++ [kv] := by
  unfold dictInsert
  have hany : m.any (fun p => decide (p.1 = kv.1)) = false := by
    rw [List.any_eq_false]
    intro p hp
    simp only [decide_eq_true_eq]
    intro hpk
    exact h (hpk ▸ List.mem_map_of_mem Prod.fst hp)
  rw [hany]
  simp

theorem foldl_dictInsert_append {α : Type} [DecidableEq α] :
    ∀ (ps acc : List (α × Nat)), (((acc ++ ps).map Prod.fst)).Nodup →
      ps.foldl dictInsert acc = acc ++ ps := by
  intro ps
  induction ps with
  | nil => intro acc _; simp
  | cons p rest ih =>
    intro acc hnd
    rw [List.foldl_cons]
    have hnotin : ¬ p.1 ∈ acc.map Prod.fst := by
      intro hmem
      rw [List.map_append] at hnd
      obtain ⟨x, hx, hx1⟩ := List.mem_map.mp hmem
      have h1 : p.1 ∈ (rest.map Prod.fst) ∨ p.1 ∈ acc.map Prod.fst := Or.inr hmem
      have := List.disjoint_of_nodup_append hnd
      exact this hmem (by simp)
    rw [dictInsert_of_not_mem acc p hnotin]
    rw [ih (acc ++ [p]) (by simpa using hnd)]
    simp

theorem dictOf_eq_self {α : Type} [DecidableEq α] (ps : List (α × Nat))
    (hnd : (ps.map Prod.fst).Nodup) : dictOf ps = ps := by
  unfold dictOf
  rw [foldl_dictInsert_append ps [] (by simpa using hnd)]
  simp

theorem dictGet_eq_some_iff {α : Type} [DecidableEq α] (ps : List (α × Nat))
    (hnd : (ps.map Prod.fst).Nodup) (v : α) (i : Nat) :
    dictGet ps v = some i ↔ (v, i) ∈ ps := by
  constructor
  · intro h
    unfold dictGet at h
    cases hf : ps.find? (fun p => decide (p.1 = v)) with
    | none => rw [hf] at h; cases h
    | some q =>
      rw [hf] at h
      have hq1 : q.1 = v := by
        have := List.find?_some hf
        simpa using this
      have hqmem : q ∈ ps := List.mem_of_find?_eq_some hf
      cases h
      rw [← hq1]
      exact hqmem
  · intro h
    unfold dictGet
    cases hf : ps.find? (fun p => decide (p.1 = v)) with
    | none =>
      exfalso
      have := List.find?_eq_none.mp hf (v, i) h
      simp at this
    | some q =>
      have hq1 : q.1 = v := by
        have := List.find?_some hf
        simpa using this
      have hqmem : q ∈ ps := List.mem_of_find?_eq_some hf
      have : q = (v, i) :=
        List.inj_on_of_nodup_map hnd hqmem (hq1 ▸ h) (by rw [hq1])
      rw [this]
      rfl

theorem dictGet_none_iff {α : Type} [DecidableEq α] (ps : List (α × Nat)) (v : α) :
    dictGet ps v = none ↔ ∀ i, (v, i) ∉ ps := by
  unfold dictGet
  constructor
  · intro h i hmem
    cases hf : ps.find? (fun p => decide (p.1 = v)) with
    | none =>
      have := List.find?_eq_none.mp hf (v, i) hmem
      simp at this
    | some q => rw [hf] at h; cases h
  · intro h
    cases hf : ps.find? (fun p => decide (p.1 = v)) with
    | none => rfl
    | some q =>
      exfalso
      have hq1 : q.1 = v := by
        have := List.find?_some hf
        simpa using this
      have hqmem : q ∈ ps := List.mem_of_find?_eq_some hf
      exact h q.2 (by rw [← hq1]; exact hqmem)

/-- The pairs underlying `get_objects_map`. -/
theorem get_objects_map_eq {α : Type} [DecidableEq α] (db : KTable α) (values : List α)
    (hdb : (db.map Prod.snd).Nodup) :
    get_objects_map db values =
      (db.filter (fun r => decide (r.2 ∈ values))).map (fun r => (r.2, r.1)) := by
  unfold get_objects_map
  apply dictOf_eq_self
  have h1 : ((db.filter (fun r => decide (r.2 ∈ values))).map
      (fun r => (r.2, r.1))).map Prod.fst =
      (db.filter (fun r => decide (r.2 ∈ values))).map Prod.snd := by
    rw [List.map_map]
    rfl
  rw [h1]
  exact hdb.sublist ((db.filter_sublist).map Prod.snd)

theorem get_objects_map_get {α : Type} [DecidableEq α] (db : KTable α) (values : List α)
    (hdb : (db.map Prod.snd).Nodup) (v : α) (i : Nat) :
    dictGet (get_objects_map db values) v = some i ↔ ((i, v) ∈ db ∧ v ∈ values) := by
  rw [get_objects_map_eq db values hdb]
  rw [dictGet_eq_some_iff _ (by
    have h1 : ((db.filter (fun r => decide (r.2 ∈ values))).map
        (fun r => (r.2, r.1))).map Prod.fst =
        (db.filter (fun r => decide (r.2 ∈ values))).map Prod.snd := by
      rw [List.map_map]; rfl
    rw [h1]
    exact hdb.sublist ((db.filter_sublist).map Prod.snd))]
  constructor
  · intro h
    obtain ⟨r, hr, hre⟩ := List.mem_map.mp h
    obtain ⟨hrdb, hrv⟩ := List.mem_filter.mp hr
    have h2 : r.2 = v := congrArg Prod.fst hre
    have h1 : r.1 = i := congrArg Prod.snd hre
    refine ⟨?_, ?_⟩
    · rw [← h1, ← h2]
      exact hrdb
    · rw [← h2]
      simpa using hrv
  · rintro ⟨hmem, hv⟩
    exact List.mem_map.mpr ⟨(i, v), List.mem_filter.mpr ⟨hmem, by simpa using hv⟩, rfl⟩

theorem dictGet_cons {α : Type} [DecidableEq α] (p : α × Nat) (m : List (α × Nat)) (v : α) :
    dictGet (p :: m) v = if p.1 = v then some p.2 else dictGet m v := by
  unfold dictGet
  by_cases h : p.1 = v
  · rw [List.find?_cons_of_pos _ (by simpa using h)]
    simp [h]
  · rw [List.find?_cons_of_neg _ (by simpa using h)]
    simp [h]

theorem dictGet_append_some {α : Type} [DecidableEq α] (m m2 : List (α × Nat)) (v : α)
    (i : Nat) (h : dictGet m v = some i) : dictGet (m ++ m2) v = some i := by
  induction m with
  | nil => simp [dictGet] at h
  | cons p rest ih =>
    rw [List.cons_append, dictGet_cons]
    rw [dictGet_cons] at h
    by_cases hp : p.1 = v
    · rw [if_pos hp] at h ⊢; exact h
    · rw [if_neg hp] at h ⊢; exact ih h

theorem dictGet_append_none {α : Type} [DecidableEq α] (m m2 : List (α × Nat)) (v : α)
    (h : dictGet m v = none) : dictGet (m ++ m2) v = dictGet m2 v := by
  induction m with
  | nil => simp
  | cons p rest ih =>
    rw [List.cons_append, dictGet_cons]
    rw [dictGet_cons] at h
    by_cases hp : p.1 = v
    · rw [if_pos hp] at h; cases h
    · rw [if_neg hp] at h ⊢; exact ih h

theorem dictGet_ne_none_of_mem_keys {α : Type} [DecidableEq α] (m : List (α × Nat))
    (v : α) (h : v ∈ m.map Prod.fst) : dictGet m v ≠ none := by
  obtain ⟨p, hp, hp1⟩ := List.mem_map.mp h
  intro hn
  exact (dictGet_none_iff m v).mp hn p.2 (by rw [← hp1]; exact hp)

theorem get_objects_map_keys_nodup {α : Type} [DecidableEq α] (db : KTable α)
    (values : List α) (hdb : (db.map Prod.snd).Nodup) :
    ((get_objects_map db values).map Prod.fst).Nodup := by
  rw [get_objects_map_eq db values hdb]
  have h1 : ((db.filter (fun r => decide (r.2 ∈ values))).map
      (fun r => (r.2, r.1))).map Prod.fst =
      (db.filter (fun r => decide (r.2 ∈ values))).map Prod.snd := by
    rw [List.map_map]; rfl
  rw [h1]
  exact hdb.sublist ((db.filter_sublist).map Prod.snd)

theorem mem_values_of_mem_keys_get_objects_map {α : Type} [DecidableEq α] (db : KTable α)
    (values : List α) (hdb : (db.map Prod.snd).Nodup) (v : α)
    (h : v ∈ (get_objects_map db values).map Prod.fst) : v ∈ values := by
  rw [get_objects_map_eq db values hdb, List.map_map] at h
  obtain ⟨r, hr, hrv⟩ := List.mem_map.mp h
  have := (List.mem_filter.mp hr).2
  rw [← hrv]
  simpa using this

/-- Full behaviour of the generic bulk get-or-create: the returned mapping's
key set is exactly the input set, existing keys keep their row ids, missing
keys receive freshly created rows with ids at or above the id counter, and
all pre-existing rows persist. -/
theorem get_or_create_objects_map_g_spec {α : Type} [DecidableEq α]
    (db : KTable α) (next_id : Nat) (values : List α)
    (hvals : values.Nodup) (hdb : (db.map Prod.snd).Nodup) :
    (∀ v i, dictGet (get_or_create_objects_map_g db next_id values).1 v = some i →
        v ∈ values) ∧
    (∀ v, v ∈ values → ∃ i,
        dictGet (get_or_create_objects_map_g db next_id values).1 v = some i) ∧
    (∀ v i, v ∈ values → (i, v) ∈ db →
        dictGet (get_or_create_objects_map_g db next_id values).1 v = some i) ∧
    (∀ v, v ∈ values → (∀ i, (i, v) ∉ db) →
        ∃ j, dictGet (get_or_create_objects_map_g db next_id values).1 v = some j ∧
          next_id ≤ j ∧ (j, v) ∈ (get_or_create_objects_map_g db next_id values).2.1 ∧
          (j, v) ∉ db) ∧
    (∀ r ∈ db, r ∈ (get_or_create_objects_map_g db next_id values).2.1) := by
  have hmget : ∀ v i, dictGet (get_objects_map db values) v = some i ↔
      ((i, v) ∈ db ∧ v ∈ values) := get_objects_map_get db values hdb
  have hmnone : ∀ v, dictGet (get_objects_map db values) v = none →
      ∀ i, (i, v) ∉ db ∨ v ∉ values := by
    intro v hn i
    by_cases hrow : (i, v) ∈ db
    · by_cases hv : v ∈ values
      · exact absurd hn (by rw [(hmget v i).mpr ⟨hrow, hv⟩]; exact Option.noConfusion)
      · exact Or.inr hv
    · exact Or.inl hrow
  simp only [get_or_create_objects_map_g]
  cases hE : (values.filter
      (fun v => decide (dictGet (get_objects_map db values) v = none))).isEmpty with
  | true =>
    have hempty : values.filter
        (fun v => decide (dictGet (get_objects_map db values) v = none)) = [] :=
      List.isEmpty_iff.mp hE
    have hnomiss : ∀ v ∈ values, dictGet (get_objects_map db values) v ≠ none := by
      intro v hv hn
      have : v ∈ values.filter
          (fun v => decide (dictGet (get_objects_map db values) v = none)) :=
        List.mem_filter.mpr ⟨hv, by simpa using hn⟩
      rw [hempty] at this
      cases this
    simp only [eq_self_iff_true, if_true]
    refine ⟨?_, ?_, ?_, ?_, ?_⟩
    · intro v i h
      exact ((hmget v i).mp h).2
    · intro v hv
      cases hg : dictGet (get_objects_map db values) v with
      | none => exact absurd hg (hnomiss v hv)
      | some i => exact ⟨i, rfl⟩
    · intro v i hv hrow
      exact (hmget v i).mpr ⟨hrow, hv⟩
    · intro v hv hno
      exfalso
      cases hg : dictGet (get_objects_map db values) v with
      | none => exact hnomiss v hv hg
      | some i => exact hno i ((hmget v i).mp hg).1
    · intro r hr
      exact hr
  | false =>
    simp only [Bool.false_eq_true, if_false]
    have hmissmem : ∀ v, v ∈ values.filter
        (fun v => decide (dictGet (get_objects_map db values) v = none)) ↔
        (v ∈ values ∧ dictGet (get_objects_map db values) v = none) := by
      intro v
      rw [List.mem_filter]
      simp
    have hmissnodup : (values.filter
        (fun v => decide (dictGet (get_objects_map db values) v = none))).Nodup :=
      hvals.filter _
    have hnewkeys : ((values.filter
        (fun v => decide (dictGet (get_objects_map db values) v = none))).enum.map
        (fun p => (next_id + p.1, p.2))).map Prod.snd =
        values.filter (fun v => decide (dictGet (get_objects_map db values) v = none)) := by
      rw [List.map_map]
      exact List.enum_map_snd _
    have hdb1 : ((db ++ (values.filter
        (fun v => decide (dictGet (get_objects_map db values) v = none))).enum.map
        (fun p => (next_id + p.1, p.2))).map Prod.snd).Nodup := by
      rw [List.map_append, List.nodup_append]
      refine ⟨hdb, by rw [hnewkeys]; exact hmissnodup, ?_⟩
      intro v hvdb hvnew
      rw [hnewkeys] at hvnew
      obtain ⟨hv, hnone⟩ := (hmissmem v).mp hvnew
      obtain ⟨r, hr, hrv⟩ := List.mem_map.mp hvdb
      rcases hmnone v hnone r.1 with hn | hn
      · exact hn (by rw [← hrv]; exact hr)
      · exact hn hv
    have hQ : ∀ v i, dictGet (get_objects_map (db ++ (values.filter
        (fun v => decide (dictGet (get_objects_map db values) v = none))).enum.map
        (fun p => (next_id + p.1, p.2)))
        (values.filter (fun v => decide (dictGet (get_objects_map db values) v = none)))) v
        = some i ↔
        ((i, v) ∈ db ++ (values.filter
          (fun v => decide (dictGet (get_objects_map db values) v = none))).enum.map
          (fun p => (next_id + p.1, p.2)) ∧
         v ∈ values.filter (fun v => decide (dictGet (get_objects_map db values) v = none)))
      := get_objects_map_get _ _ hdb1
    have hrow_of_miss : ∀ v, v ∈ values.filter
        (fun v => decide (dictGet (get_objects_map db values) v = none)) →
        ∃ r ∈ (values.filter
          (fun v => decide (dictGet (get_objects_map db values) v = none))).enum.map
          (fun p => (next_id + p.1, p.2)), r.2 = v := by
      intro v hv
      have : v ∈ ((values.filter
          (fun v => decide (dictGet (get_objects_map db values) v = none))).enum.map
          (fun p => (next_id + p.1, p.2))).map Prod.snd := by
        rw [hnewkeys]; exact hv
      obtain ⟨r, hr, hrv⟩ := List.mem_map.mp this
      exact ⟨r, hr, hrv⟩
    have hnewlo : ∀ r ∈ (values.filter
        (fun v => decide (dictGet (get_objects_map db values) v = none))).enum.map
        (fun p => (next_id + p.1, p.2)), next_id ≤ r.1 := by
      intro r hr
      obtain ⟨p, _, hpe⟩ := List.mem_map.mp hr
      rw [← hpe]
      exact Nat.le_add_right next_id p.1
    have hmerge : dictUpdate (get_objects_map db values)
        (get_objects_map (db ++ (values.filter
          (fun v => decide (dictGet (get_objects_map db values) v = none))).enum.map
          (fun p => (next_id + p.1, p.2)))
          (values.filter (fun v => decide (dictGet (get_objects_map db values) v = none))))
        = get_objects_map db values ++
          get_objects_map (db ++ (values.filter
            (fun v => decide (dictGet (get_objects_map db values) v = none))).enum.map
            (fun p => (next_id + p.1, p.2)))
            (values.filter (fun v => decide (dictGet (get_objects_map db values) v = none)))
        := by
      apply foldl_dictInsert_append
      rw [List.map_append, List.nodup_append]
      refine ⟨get_objects_map_keys_nodup db values hdb,
        get_objects_map_keys_nodup _ _ hdb1, ?_⟩
      intro v hvm hvm2
      have hvmiss := mem_values_of_mem_keys_get_objects_map _ _ hdb1 v hvm2
      have hnone := ((hmissmem v).mp hvmiss).2
      exact dictGet_ne_none_of_mem_keys _ v hvm hnone
    rw [hmerge]
    refine ⟨?_, ?_, ?_, ?_, ?_⟩
    · intro v i h
      cases hmv : dictGet (get_objects_map db values) v with
      | some j =>
        exact ((hmget v j).mp hmv).2
      | none =>
        rw [dictGet_append_none _ _ v hmv] at h
        have := ((hQ v i).mp h).2
        exact ((hmissmem v).mp this).1
    · intro v hv
      cases hmv : dictGet (get_objects_map db values) v with
      | some j => exact ⟨j, dictGet_append_some _ _ v j hmv⟩
      | none =>
        have hvmiss := (hmissmem v).mpr ⟨hv, hmv⟩
        obtain ⟨r, hr, hrv⟩ := hrow_of_miss v hvmiss
        have hq := (hQ v r.1).mpr ⟨List.mem_append_right db (by rw [show (r.1, v) = r from by rw [← hrv]]; exact hr), hvmiss⟩
        exact ⟨r.1, by rw [dictGet_append_none _ _ v hmv]; exact hq⟩
    · intro v i hv hrow
      exact dictGet_append_some _ _ v i ((hmget v i).mpr ⟨hrow, hv⟩)
    · intro v hv hno
      have hmv : dictGet (get_objects_map db values) v = none := by
        cases hg : dictGet (get_objects_map db values) v with
        | none => rfl
        | some i => exact absurd ((hmget v i).mp hg).1 (hno i)
      have hvmiss := (hmissmem v).mpr ⟨hv, hmv⟩
      obtain ⟨r, hr, hrv⟩ := hrow_of_miss v hvmiss
      have hrvv : (r.1, v) = r := by rw [← hrv]
      have hq := (hQ v r.1).mpr ⟨List.mem_append_right db (by rw [hrvv]; exact hr), hvmiss⟩
      refine ⟨r.1, by rw [dictGet_append_none _ _ v hmv]; exact hq, hnewlo r hr, ?_, ?_⟩
      · apply List.mem_append_right
        rw [hrvv]
        exact hr
      · exact hno r.1
    · intro r hr
      exact List.mem_append_left _ hr

/-- On a non-empty input set the OR-accumulated `Q()` filter coincides
with a membership filter. -/
theorem get_lesson_times_map_eq_objects_map (db : KTable (Date × String))
    (values : List (Date × String)) (hne : values ≠ []) :
    get_lesson_times_map db values = get_objects_map db values := by
  have hE : values.isEmpty = false := by
    cases values with
    | nil => exact absurd rfl hne
    | cons a l => rfl
  unfold get_lesson_times_map get_objects_map
  simp only [hE, Bool.false_or]
  congr 1
  congr 1
  apply List.filter_congr
  intro a _
  exact decide_eq_decide.mpr Iff.rfl

/-- On a non-empty input set the lesson-times resolver behaves exactly
like the generic mixin resolver. -/
theorem get_or_create_lesson_times_map_eq (db : KTable (Date × String)) (next_id : Nat)
    (values : List (Date × String)) (hne : values ≠ []) :
    get_or_create_lesson_times_map db next_id values =
      get_or_create_objects_map_g db next_id values := by
  simp only [get_or_create_lesson_times_map, get_or_create_objects_map_g]
  rw [get_lesson_times_map_eq_objects_map db values hne]
  cases hE : (values.filter
      (fun v => decide (dictGet (get_objects_map db values) v = none))).isEmpty with
  | true => simp only [eq_self_iff_true, if_true]
  | false =>
    simp only [Bool.false_eq_true, if_false]
    have hmne : values.filter
        (fun v => decide (dictGet (get_objects_map db values) v = none)) ≠ [] := by
      intro h
      rw [h] at hE
      exact Bool.noConfusion hE
    rw [get_lesson_times_map_eq_objects_map _ _ hmne]

/-- On the EMPTY input set the lesson-times resolver creates nothing and
returns the mapping of the entire stored table: the empty `Q()` matches
every row. -/
theorem get_or_create_lesson_times_map_empty (db : KTable (Date × String)) (next_id : Nat)
    (hdb : (db.map Prod.snd).Nodup) :
    ∀ v i, dictGet (get_or_create_lesson_times_map db next_id []).1 v = some i ↔
      (i, v) ∈ db := by
  have hnodup : ((db.map (fun r => (r.2, r.1))).map Prod.fst).Nodup := by
    have h1 : (db.map (fun r => (r.2, r.1))).map Prod.fst = db.map Prod.snd := by
      rw [List.map_map]
      rfl
    rw [h1]
    exact hdb
  have h1 : get_lesson_times_map db [] = db.map (fun r => (r.2, r.1)) := by
    unfold get_lesson_times_map
    have hfilter : db.filter
        (fun r => ([] : List (Date × String)).isEmpty ||
          decide (r.2 ∈ ([] : List (Date × String)))) = db :=
      List.filter_eq_self.mpr (fun a _ => rfl)
    rw [hfilter]
    exact dictOf_eq_self _ hnodup
  have h2 : (get_or_create_lesson_times_map db next_id []).1 =
      get_lesson_times_map db [] := rfl
  intro v i
  rw [h2, h1, dictGet_eq_some_iff _ hnodup]
  constructor
  · intro h
    obtain ⟨r, hr, hre⟩ := List.mem_map.mp h
    have hv : r.2 = v := congrArg Prod.fst hre
    have hi : r.1 = i := congrArg Prod.snd hre
    rw [← hi, ← hv]
    exact hr
  · intro h
    exact List.mem_map.mpr ⟨(i, v), h, rfl⟩

/-- Refutes C10's universal "no other keys appear in the result" clause at
the empty input set: with one stored timeslot row, the lesson-times
resolver called on the empty set returns a mapping containing the stored
key — the OR-accumulated `models.Q()` filter stays empty and `filter(Q())`
matches every row — even though the input set has no keys at all. -/
theorem lesson_times_empty_input_counterexample :
    dictGet (get_or_create_lesson_times_map [(7, (⟨2024, 9, 2⟩, "1"))] 8 []).1
        (⟨2024, 9, 2⟩, "1") = some 7 ∧
      ((⟨2024, 9, 2⟩, "1") : Date × String) ∉ ([] : List (Date × String)) :=
  ⟨by decide, by decide⟩

/-- C10 (amended): the mixin resolver
(`SingleFieldManagerMixin.get_or_create_objects_map`, over a string-valued
unique field) satisfies the claim at every input set, and the lesson-times
resolver (`LessonTimeManager.get_or_create_lesson_times_map`) at every
NON-empty input set: the mapping's key set equals the input set, existing
keys map to their row's id, missing keys are created (fresh rows, ids at
or above the id counter, not previously stored) and map to their new ids,
and no other keys appear.  On the empty input set the lesson-times
resolver instead returns the mapping of the whole stored table, because
its filter is an OR-accumulated `models.Q()` and the empty `Q()` matches
every row.  Hypotheses: duplicate-free input key sets (Python `set`s) and
duplicate-free stored natural keys (database uniqueness constraint). -/
theorem bulk_get_or_create_maps_spec
    (dbS : KTable String) (nS : Nat) (valsS : List String)
    (hvS : valsS.Nodup) (hdbS : (dbS.map Prod.snd).Nodup)
    (dbT : KTable (Date × String)) (nT : Nat) (valsT : List (Date × String))
    (hvT : valsT.Nodup) (hdbT : (dbT.map Prod.snd).Nodup) (hneT : valsT ≠ []) :
    ((∀ v i, dictGet (get_or_create_objects_map dbS nS valsS).1 v = some i →
         v ∈ valsS) ∧
     (∀ v, v ∈ valsS → ∃ i,
         dictGet (get_or_create_objects_map dbS nS valsS).1 v = some i) ∧
     (∀ v i, v ∈ valsS → (i, v) ∈ dbS →
         dictGet (get_or_create_objects_map dbS nS valsS).1 v = some i) ∧
     (∀ v, v ∈ valsS → (∀ i, (i, v) ∉ dbS) →
         ∃ j, dictGet (get_or_create_objects_map dbS nS valsS).1 v = some j ∧
           nS ≤ j ∧ (j, v) ∈ (get_or_create_objects_map dbS nS valsS).2.1 ∧
           (j, v) ∉ dbS)) ∧
    ((∀ v i, dictGet (get_or_create_lesson_times_map dbT nT valsT).1 v = some i →
         v ∈ valsT) ∧
     (∀ v, v ∈ valsT → ∃ i,
         dictGet (get_or_create_lesson_times_map dbT nT valsT).1 v = some i) ∧
     (∀ v i, v ∈ valsT → (i, v) ∈ dbT →
         dictGet (get_or_create_lesson_times_map dbT nT valsT).1 v = some i) ∧
     (∀ v, v ∈ valsT → (∀ i, (i, v) ∉ dbT) →
         ∃ j, dictGet (get_or_create_lesson_times_map dbT nT valsT).1 v = some j ∧
           nT ≤ j ∧ (j, v) ∈ (get_or_create_lesson_times_map dbT nT valsT).2.1 ∧
           (j, v) ∉ dbT)) ∧
    (∀ v i, dictGet (get_or_create_lesson_times_map dbT nT []).1 v = some i ↔
      (i, v) ∈ dbT) := by
  rw [get_or_create_lesson_times_map_eq dbT nT valsT hneT]
  obtain ⟨s1, s2, s3, s4, _⟩ := get_or_create_objects_map_g_spec dbS nS valsS hvS hdbS
  obtain ⟨t1, t2, t3, t4, _⟩ := get_or_create_objects_map_g_spec dbT nT valsT hvT hdbT
  exact ⟨⟨s1, s2, s3, s4⟩, ⟨t1, t2, t3, t4⟩,
    get_or_create_lesson_times_map_empty dbT nT hdbT⟩

/-- Witness for C10 at a concrete store and key set: one existing string
key, one missing one; one existing time-slot key, one missing one; and a
non-empty time-slot input set. -/
theorem bulk_get_or_create_maps_spec_witness :
    (["Ivanov", "Petrov"] : List String).Nodup ∧
    (([(1, "Ivanov")] : KTable String).map Prod.snd).Nodup ∧
    ([(⟨2024, 9, 2⟩, "1"), (⟨2024, 9, 2⟩, "2")] : List (Date × String)).Nodup ∧
    (([(7, (⟨2024, 9, 2⟩, "1"))] : KTable (Date × String)).map Prod.snd).Nodup ∧
    ([(⟨2024, 9, 2⟩, "1"), (⟨2024, 9, 2⟩, "2")] : List (Date × String)) ≠ [] ∧
    (((∀ v i, dictGet (get_or_create_objects_map [(1, "Ivanov")] 2 ["Ivanov", "Petrov"]).1 v = some i →
         v ∈ ["Ivanov", "Petrov"]) ∧
     (∀ v, v ∈ ["Ivanov", "Petrov"] → ∃ i,
         dictGet (get_or_create_objects_map [(1, "Ivanov")] 2 ["Ivanov", "Petrov"]).1 v = some i) ∧
     (∀ v i, v ∈ ["Ivanov", "Petrov"] → (i, v) ∈ ([(1, "Ivanov")] : KTable String) →
         dictGet (get_or_create_objects_map [(1, "Ivanov")] 2 ["Ivanov", "Petrov"]).1 v = some i) ∧
     (∀ v, v ∈ ["Ivanov", "Petrov"] → (∀ i, (i, v) ∉ ([(1, "Ivanov")] : KTable String)) →
         ∃ j, dictGet (get_or_create_objects_map [(1, "Ivanov")] 2 ["Ivanov", "Petrov"]).1 v = some j ∧
           2 ≤ j ∧ (j, v) ∈ (get_or_create_objects_map [(1, "Ivanov")] 2 ["Ivanov", "Petrov"]).2.1 ∧
           (j, v) ∉ ([(1, "Ivanov")] : KTable String))) ∧
    ((∀ v i, dictGet (get_or_create_lesson_times_map [(7, (⟨2024, 9, 2⟩, "1"))] 8
         [(⟨2024, 9, 2⟩, "1"), (⟨2024, 9, 2⟩, "2")]).1 v = some i →
         v ∈ [((⟨2024, 9, 2⟩ : Date), "1"), (⟨2024, 9, 2⟩, "2")]) ∧
     (∀ v, v ∈ [((⟨2024, 9, 2⟩ : Date), "1"), (⟨2024, 9, 2⟩, "2")] → ∃ i,
         dictGet (get_or_create_lesson_times_map [(7, (⟨2024, 9, 2⟩, "1"))] 8
           [(⟨2024, 9, 2⟩, "1"), (⟨2024, 9, 2⟩, "2")]).1 v = some i) ∧
     (∀ v i, v ∈ [((⟨2024, 9, 2⟩ : Date), "1"), (⟨2024, 9, 2⟩, "2")] →
         (i, v) ∈ ([(7, (⟨2024, 9, 2⟩, "1"))] : KTable (Date × String)) →
         dictGet (get_or_create_lesson_times_map [(7, (⟨2024, 9, 2⟩, "1"))] 8
           [(⟨2024, 9, 2⟩, "1"), (⟨2024, 9, 2⟩, "2")]).1 v = some i) ∧
     (∀ v, v ∈ [((⟨2024, 9, 2⟩ : Date), "1"), (⟨2024, 9, 2⟩, "2")] →
         (∀ i, (i, v) ∉ ([(7, (⟨2024, 9, 2⟩, "1"))] : KTable (Date × String))) →
         ∃ j, dictGet (get_or_create_lesson_times_map [(7, (⟨2024, 9, 2⟩, "1"))] 8
           [(⟨2024, 9, 2⟩, "1"), (⟨2024, 9, 2⟩, "2")]).1 v = some j ∧
           8 ≤ j ∧ (j, v) ∈ (get_or_create_lesson_times_map [(7, (⟨2024, 9, 2⟩, "1"))] 8
             [(⟨2024, 9, 2⟩, "1"), (⟨2024, 9, 2⟩, "2")]).2.1 ∧
           (j, v) ∉ ([(7, (⟨2024, 9, 2⟩, "1"))] : KTable (Date × String)))) ∧
    (∀ v i, dictGet (get_or_create_lesson_times_map [(7, (⟨2024, 9, 2⟩, "1"))] 8 []).1
        v = some i ↔ (i, v) ∈ ([(7, (⟨2024, 9, 2⟩, "1"))] : KTable (Date × String)))) :=
  ⟨by decide, by decide, by decide, by decide, by decide,
   bulk_get_or_create_maps_spec [(1, "Ivanov")] 2 ["Ivanov", "Petrov"]
     (by decide) (by decide)
     [(7, (⟨2024, 9, 2⟩, "1"))] 8 [(⟨2024, 9, 2⟩, "1"), (⟨2024, 9, 2⟩, "2")]
     (by decide) (by decide) (by decide)⟩

/-! ## Two consecutive cycles (C3): support lemmas -/

theorem get_or_create_teacher_next_id (st : St) (n : String) :
    st.next_id ≤ (get_or_create_teacher st n).2.next_id := by
  simp only [get_or_create_teacher]
  cases h : cacheGet st.cache (teacherKey n) with
  | none =>
    cases hf : st.teachers.find? (fun t => decide (t.full_name = n)) with
    | some t => exact Nat.le_refl _
    | none => exact Nat.le_succ _
  | some v =>
    cases v with
    | teacherV t => exact Nat.le_refl _
    | classroomV x =>
      cases hf : st.teachers.find? (fun t => decide (t.full_name = n)) with
      | some t => exact Nat.le_refl _
      | none => exact Nat.le_succ _
    | subjectV x =>
      cases hf : st.teachers.find? (fun t => decide (t.full_name = n)) with
      | some t => exact Nat.le_refl _
      | none => exact Nat.le_succ _
    | lessonTimeV x =>
      cases hf : st.teachers.find? (fun t => decide (t.full_name = n)) with
      | some t => exact Nat.le_refl _
      | none => exact Nat.le_succ _
    | groupV x =>
      cases hf : st.teachers.find? (fun t => decide (t.full_name = n)) with
      | some t => exact Nat.le_refl _
      | none => exact Nat.le_succ _
    | tsV x =>
      cases hf : st.teachers.find? (fun t => decide (t.full_name = n)) with
      | some t => exact Nat.le_refl _
      | none => exact Nat.le_succ _

theorem get_or_create_classroom_next_id (st : St) (n : String) :
    st.next_id ≤ (get_or_create_classroom st n).2.next_id := by
  simp only [get_or_create_classroom]
  cases h : cacheGet st.cache (classroomKey n) with
  | none =>
    cases hf : st.classrooms.find? (fun c => decide (c.title = n)) with
    | some c => exact Nat.le_refl _
    | none => exact Nat.le_succ _
  | some v =>
    cases v with
    | classroomV c => exact Nat.le_refl _
    | teacherV x =>
      cases hf : st.classrooms.find? (fun c => decide (c.title = n)) with
      | some c => exact Nat.le_refl _
      | none => exact Nat.le_succ _
    | subjectV x =>
      cases hf : st.classrooms.find? (fun c => decide (c.title = n)) with
      | some c => exact Nat.le_refl _
      | none => exact Nat.le_succ _
    | lessonTimeV x =>
      cases hf : st.classrooms.find? (fun c => decide (c.title = n)) with
      | some c => exact Nat.le_refl _
      | none => exact Nat.le_succ _
    | groupV x =>
      cases hf : st.classrooms.find? (fun c => decide (c.title = n)) with
      | some c => exact Nat.le_refl _
      | none => exact Nat.le_succ _
    | tsV x =>
      cases hf : st.classrooms.find? (fun c => decide (c.title = n)) with
      | some c => exact Nat.le_refl _
      | none => exact Nat.le_succ _

theorem get_or_create_subject_next_id (st : St) (n : String) :
    st.next_id ≤ (get_or_create_subject st n).2.next_id := by
  simp only [get_or_create_subject]
  cases h : cacheGet st.cache (subjectKey n) with
  | none =>
    cases hf : st.subjects.find? (fun s => decide (s.title = n)) with
    | some s => exact Nat.le_refl _
    | none => exact Nat.le_succ _
  | some v =>
    cases v with
    | subjectV s => exact Nat.le_refl _
    | teacherV x =>
      cases hf : st.subjects.find? (fun s => decide (s.title = n)) with
      | some s => exact Nat.le_refl _
      | none => exact Nat.le_succ _
    | classroomV x =>
      cases hf : st.subjects.find? (fun s => decide (s.title = n)) with
      | some s => exact Nat.le_refl _
      | none => exact Nat.le_succ _
    | lessonTimeV x =>
      cases hf : st.subjects.find? (fun s => decide (s.title = n)) with
      | some s => exact Nat.le_refl _
      | none => exact Nat.le_succ _
    | groupV x =>
      cases hf : st.subjects.find? (fun s => decide (s.title = n)) with
      | some s => exact Nat.le_refl _
      | none => exact Nat.le_succ _
    | tsV x =>
      cases hf : st.subjects.find? (fun s => decide (s.title = n)) with
      | some s => exact Nat.le_refl _
      | none => exact Nat.le_succ _

theorem get_or_create_lesson_time_next_id (st : St) (d : Date) (n : String) :
    st.next_id ≤ (get_or_create_lesson_time st d n).2.next_id := by
  simp only [get_or_create_lesson_time]
  cases h : cacheGet st.cache (lessonTimeKey d n) with
  | none =>
    cases hf : st.lesson_times.find?
        (fun lt => decide (lt.date = d ∧ lt.lesson_number = n)) with
    | some lt => exact Nat.le_refl _
    | none => exact Nat.le_succ _
  | some v =>
    cases v with
    | lessonTimeV lt => exact Nat.le_refl _
    | teacherV x =>
      cases hf : st.lesson_times.find?
          (fun lt => decide (lt.date = d ∧ lt.lesson_number = n)) with
      | some lt => exact Nat.le_refl _
      | none => exact Nat.le_succ _
    | classroomV x =>
      cases hf : st.lesson_times.find?
          (fun lt => decide (lt.date = d ∧ lt.lesson_number = n)) with
      | some lt => exact Nat.le_refl _
      | none => exact Nat.le_succ _
    | subjectV x =>
      cases hf : st.lesson_times.find?
          (fun lt => decide (lt.date = d ∧ lt.lesson_number = n)) with
      | some lt => exact Nat.le_refl _
      | none => exact Nat.le_succ _
    | groupV x =>
      cases hf : st.lesson_times.find?
          (fun lt => decide (lt.date = d ∧ lt.lesson_number = n)) with
      | some lt => exact Nat.le_refl _
      | none => exact Nat.le_succ _
    | tsV x =>
      cases hf : st.lesson_times.find?
          (fun lt => decide (lt.date = d ∧ lt.lesson_number = n)) with
      | some lt => exact Nat.le_refl _
      | none => exact Nat.le_succ _

/-- Behaviour of the group lookup without assuming a cache hit: only the
group's own by-id key can change, all existing bindings persist (under the
key discipline), and database tables, id sequence and epoch are untouched. -/
theorem get_cached_by_id_group_spec (st : St) (gid : Nat) (hwf : WFCache st.cache) :
    (∀ k, k ≠ groupByIdKey gid →
      cacheGet (get_cached_by_id_group st gid).2.cache k = cacheGet st.cache k) ∧
    (∀ k v, cacheGet st.cache k = some v →
      cacheGet (get_cached_by_id_group st gid).2.cache k = some v) ∧
    (get_cached_by_id_group st gid).2.lessons = st.lessons ∧
    (get_cached_by_id_group st gid).2.current_timestamp = st.current_timestamp ∧
    (get_cached_by_id_group st gid).2.next_id = st.next_id ∧
    WFCache (get_cached_by_id_group st gid).2.cache := by
  simp only [get_cached_by_id_group]
  cases hv : cacheGet st.cache (groupByIdKey gid) with
  | some v =>
    cases v with
    | groupV g => exact ⟨fun k _ => rfl, fun k v h => h, rfl, rfl, rfl, hwf⟩
    | teacherV x => exact absurd ((hwf _ _ hv).2.2.2.2.1 rfl) (by rintro ⟨g, hg⟩; cases hg)
    | classroomV x => exact absurd ((hwf _ _ hv).2.2.2.2.1 rfl) (by rintro ⟨g, hg⟩; cases hg)
    | subjectV x => exact absurd ((hwf _ _ hv).2.2.2.2.1 rfl) (by rintro ⟨g, hg⟩; cases hg)
    | lessonTimeV x => exact absurd ((hwf _ _ hv).2.2.2.2.1 rfl) (by rintro ⟨g, hg⟩; cases hg)
    | tsV x => exact absurd ((hwf _ _ hv).2.2.2.2.1 rfl) (by rintro ⟨g, hg⟩; cases hg)
  | none =>
    cases hf : st.groups.find? (fun g => decide (g.id = gid)) with
    | some g =>
      refine ⟨fun k hk => cacheGet_set_ne _ _ _ _ hk, ?_, rfl, rfl, rfl,
        WFCache_set st.cache (groupByIdKey gid) (CVal.groupV g) hwf (wfVal_group gid g)⟩
      intro k v h
      by_cases hk : k = groupByIdKey gid
      · subst hk; rw [hv] at h; cases h
      · rw [cacheGet_set_ne _ _ _ _ hk]; exact h
    | none => exact ⟨fun k _ => rfl, fun k v h => h, rfl, rfl, rfl, hwf⟩

/-- The ids `bulk_create` assigns are the consecutive range from the
sequence value. -/
theorem assignIds_ids : ∀ (n : Nat) (ls : List Lesson),
    (assignIds n ls).map (fun l => l.id) = List.range' n ls.length := by
  intro n ls
  induction ls generalizing n with
  | nil => rfl
  | cons l rest ih => simp [assignIds, ih, List.range']

theorem mem_assignIds_id_bounds : ∀ (n : Nat) (ls : List Lesson) (l : Lesson),
    l ∈ assignIds n ls → n ≤ l.id ∧ l.id < n + ls.length := by
  intro n ls l hl
  have : l.id ∈ (assignIds n ls).map (fun l => l.id) := List.mem_map_of_mem _ hl
  rw [assignIds_ids] at this
  exact List.mem_range'_1.mp this

theorem mem_assignIds_active : ∀ (n : Nat) (ls : List Lesson),
    (∀ l ∈ ls, l.is_active = true) →
    ∀ l ∈ assignIds n ls, l.is_active = true := by
  intro n ls
  induction ls generalizing n with
  | nil => intro _ l hl; cases hl
  | cons l0 rest ih =>
    intro h l hl
    rcases List.mem_cons.mp hl with rfl | hl'
    · exact h l0 (List.mem_cons_self l0 rest)
    · exact ih (n + 1) (fun x hx => h x (List.mem_cons_of_mem l0 hx)) l hl'

theorem mem_assignIds_key (n : Nat) (ls : List Lesson) (l : Lesson)
    (hl : l ∈ assignIds n ls) :
    make_lesson_cache_key l ∈ ls.map make_lesson_cache_key := by
  have : make_lesson_cache_key l ∈ (assignIds n ls).map make_lesson_cache_key :=
    List.mem_map_of_mem _ hl
  rw [assignIds_map_key] at this
  exact this

/-- Deactivation does not change a lesson's fingerprint. -/
theorem key_flip (l : Lesson) :
    make_lesson_cache_key { l with is_active := false } = make_lesson_cache_key l := rfl

/-- The sweep's per-lesson rewrite preserves ids. -/
theorem sweepMap_ids (st : St) (gid : Nat) (today : Date) (ls : List Lesson) :
    (ls.map (fun l =>
      if shouldDeactivate st gid today l then { l with is_active := false } else l)).map
        (fun l => l.id) = ls.map (fun l => l.id) := by
  rw [List.map_map]
  apply List.map_congr_left
  intro l _
  show (if shouldDeactivate st gid today l then { l with is_active := false } else l).id = l.id
  by_cases h : shouldDeactivate st gid today l
  · rw [if_pos h]
  · rw [if_neg h]

/-- A cache change confined to fingerprint keys does not affect the entry
key: all five dimension keys carry other model-name tags. -/
theorem entryKeyAt_congr_nonLesson (st st' : St) (e : Entry)
    (h : ∀ k : CKey, k.1 ≠ "Lesson" → cacheGet st'.cache k = cacheGet st.cache k) :
    entryKeyAt st' e = entryKeyAt st e := by
  have h1 : cacheGet st'.cache (teacherKey e.teacher_name) =
      cacheGet st.cache (teacherKey e.teacher_name) :=
    h _ (show ("Teacher" : String) ≠ "Lesson" from by decide)
  have h2 : cacheGet st'.cache (classroomKey e.classroom_title) =
      cacheGet st.cache (classroomKey e.classroom_title) :=
    h _ (show ("Classroom" : String) ≠ "Lesson" from by decide)
  have h3 : cacheGet st'.cache (subjectKey e.subject_title) =
      cacheGet st.cache (subjectKey e.subject_title) :=
    h _ (show ("Subject" : String) ≠ "Lesson" from by decide)
  have h4 : cacheGet st'.cache (groupByIdKey e.group_id) =
      cacheGet st.cache (groupByIdKey e.group_id) :=
    h _ (show ("Group" : String) ≠ "Lesson" from by decide)
  have h5 : ∀ d : Date, cacheGet st'.cache (lessonTimeKey d e.lesson_number) =
      cacheGet st.cache (lessonTimeKey d e.lesson_number) :=
    fun d => h _ (show ("LessonTime" : String) ≠ "Lesson" from by decide)
  unfold entryKeyAt cachedTeacher cachedClassroom cachedSubject cachedGroupRow
    cachedLessonTime
  simp only [h1, h2, h3, h4, h5]

/-- One save step from an arbitrary well-formed state at a nonzero epoch:
well-formedness, the epoch, the lesson table are preserved and the id
sequence only grows; cached model rows and current-epoch marks persist; any
truthy mark stays a truthy mark; a lesson is queued only if its fingerprint
carried no truthy mark, and queued lessons are active; and an entry whose
fingerprint is resolvable before the step ends the step with its mark
(re)written to the current epoch — the overwrite at source line 276. -/
theorem save_step_weak (acc : SaveAcc) (e : Entry)
    (hwf : WFCache acc.st.cache) (hts : acc.st.current_timestamp ≠ 0) :
    WFCache (save_step acc e).st.cache ∧
    (save_step acc e).st.current_timestamp = acc.st.current_timestamp ∧
    (save_step acc e).st.lessons = acc.st.lessons ∧
    acc.st.next_id ≤ (save_step acc e).st.next_id ∧
    CacheMono acc.st.current_timestamp acc.st.cache (save_step acc e).st.cache ∧
    (∀ k t, t ≠ 0 → cacheGet acc.st.cache k = some (CVal.tsV t) →
      ∃ t', t' ≠ 0 ∧ cacheGet (save_step acc e).st.cache k = some (CVal.tsV t')) ∧
    (∃ new, (save_step acc e).to_create = acc.to_create ++ new ∧
      (∀ l ∈ new, ∀ t, t ≠ 0 →
        cacheGet acc.st.cache (make_lesson_cache_key l) ≠ some (CVal.tsV t)) ∧
      (∀ l ∈ new, l.is_active = true)) ∧
    (∀ k : CKey, entryKeyAt acc.st e = some k →
      cacheGet (save_step acc e).st.cache k =
        some (CVal.tsV acc.st.current_timestamp)) := by
  cases he : e.date with
  | none =>
    have hstep : save_step acc e = acc := by simp only [save_step, he]
    rw [hstep]
    refine ⟨hwf, rfl, rfl, Nat.le_refl _, ⟨fun k v h _ => h, fun k h => h⟩,
      fun k t ht h => ⟨t, ht, h⟩,
      ⟨[], (List.append_nil _).symm, fun l hl => absurd hl (List.not_mem_nil l),
        fun l hl => absurd hl (List.not_mem_nil l)⟩, ?_⟩
    intro k hek
    unfold entryKeyAt at hek
    simp only [he] at hek
    exact Option.noConfusion hek
  | some d =>
    obtain ⟨h1k, h1o, h1p, h1l, h1t, h1g, h1w⟩ :=
      get_or_create_teacher_spec acc.st e.teacher_name hwf
    obtain ⟨h2k, h2o, h2p, h2l, h2t, h2g, h2w⟩ :=
      get_or_create_classroom_spec (get_or_create_teacher acc.st e.teacher_name).2
        e.classroom_title h1w
    obtain ⟨h3k, h3o, h3p, h3l, h3t, h3g, h3w⟩ :=
      get_or_create_subject_spec
        (get_or_create_classroom (get_or_create_teacher acc.st e.teacher_name).2
          e.classroom_title).2 e.subject_title h2w
    obtain ⟨hGo, hGp, hGl, hGt, hGn, hGw⟩ :=
      get_cached_by_id_group_spec
        (get_or_create_subject
          (get_or_create_classroom (get_or_create_teacher acc.st e.teacher_name).2
            e.classroom_title).2 e.subject_title).2 e.group_id h3w
    simp only [save_step, he]
    set T := get_or_create_teacher acc.st e.teacher_name with hT
    set C := get_or_create_classroom T.2 e.classroom_title with hC
    set S := get_or_create_subject C.2 e.subject_title with hS
    set G := get_cached_by_id_group S.2 e.group_id with hG
    have hn1 := get_or_create_teacher_next_id acc.st e.teacher_name
    have hn2 := get_or_create_classroom_next_id T.2 e.classroom_title
    have hn3 := get_or_create_subject_next_id C.2 e.subject_title
    have hpersG : ∀ k v, cacheGet acc.st.cache k = some v →
        cacheGet G.2.cache k = some v :=
      fun k v h => hGp _ _ (h3p _ _ (h2p _ _ (h1p _ _ h)))
    cases hgr : G.1 with
    | none =>
      refine ⟨hGw, hGt.trans (h3t.trans (h2t.trans h1t)),
        hGl.trans (h3l.trans (h2l.trans h1l)),
        by rw [hGn]; exact Nat.le_trans hn1 (Nat.le_trans hn2 hn3),
        ⟨fun k v h _ => hpersG k v h, fun k h => hpersG k _ h⟩,
        fun k t ht h => ⟨t, ht, hpersG k _ h⟩,
        ⟨[], (List.append_nil _).symm, fun l hl => absurd hl (List.not_mem_nil l),
          fun l hl => absurd hl (List.not_mem_nil l)⟩, ?_⟩
      intro k hek
      exfalso
      unfold entryKeyAt at hek
      simp only [he] at hek
      cases h1x : cachedTeacher acc.st e.teacher_name with
      | none => simp only [h1x] at hek; exact Option.noConfusion hek
      | some t0 =>
        simp only [h1x] at hek
        cases h2x : cachedClassroom acc.st e.classroom_title with
        | none => simp only [h2x] at hek; exact Option.noConfusion hek
        | some c0 =>
          simp only [h2x] at hek
          cases h3x : cachedSubject acc.st e.subject_title with
          | none => simp only [h3x] at hek; exact Option.noConfusion hek
          | some sj0 =>
            simp only [h3x] at hek
            cases h4x : cachedGroupRow acc.st e.group_id with
            | none => simp only [h4x] at hek; exact Option.noConfusion hek
            | some g0 =>
              have hgS : cacheGet S.2.cache (groupByIdKey e.group_id) =
                  some (CVal.groupV g0) :=
                h3p _ _ (h2p _ _ (h1p _ _ (cachedGroupRow_eq_some h4x)))
              have hG1 : G.1 = some g0 := by
                rw [hG, get_cached_by_id_group_hit S.2 e.group_id g0 hgS]
              rw [hgr] at hG1
              exact Option.noConfusion hG1
    | some g =>
      obtain ⟨h5k, h5o, h5p, h5l, h5t, h5g, h5w⟩ :=
        get_or_create_lesson_time_spec G.2 d e.lesson_number hGw
      have hn5 := get_or_create_lesson_time_next_id G.2 d e.lesson_number
      set LT := get_or_create_lesson_time G.2 d e.lesson_number with hLT
      set L : Lesson :=
        { id := 0, group_id := g.id, subgroup := e.subgroup, lesson_time_id := LT.1.id,
          teacher_id := T.1.id, classroom_id := C.1.id, subject_id := S.1.id,
          is_active := true } with hL
      set K := make_lesson_cache_key L with hK
      have hKfst : K.1 = "Lesson" := by rw [hK]; rfl
      have hts5 : LT.2.current_timestamp = acc.st.current_timestamp := by
        rw [h5t, hGt, h3t, h2t, h1t]
      have hles5 : LT.2.lessons = acc.st.lessons := by
        rw [h5l, hGl, h3l, h2l, h1l]
      have hnle : acc.st.next_id ≤ LT.2.next_id := by
        refine Nat.le_trans hn1 (Nat.le_trans hn2 (Nat.le_trans hn3 ?_))
        rw [← hGn]
        exact hn5
      have hLmark : ∀ k : CKey, k.1 = "Lesson" →
          cacheGet LT.2.cache k = cacheGet acc.st.cache k := by
        intro k hk
        rw [h5o k (lessonFst_ne_lessonTimeKey hk d e.lesson_number),
          hGo k (lessonFst_ne_groupByIdKey hk e.group_id),
          h3o k (lessonFst_ne_subjectKey hk e.subject_title),
          h2o k (lessonFst_ne_classroomKey hk e.classroom_title),
          h1o k (lessonFst_ne_teacherKey hk e.teacher_name)]
      have hpersAll : ∀ k v, cacheGet acc.st.cache k = some v →
          cacheGet LT.2.cache k = some v :=
        fun k v h => h5p _ _ (hpersG k v h)
      have hW8 : ∀ k : CKey, entryKeyAt acc.st e = some k →
          cacheGet (cacheSet LT.2.cache K (CVal.tsV LT.2.current_timestamp)) k =
            some (CVal.tsV acc.st.current_timestamp) := by
        intro k hek
        unfold entryKeyAt at hek
        simp only [he] at hek
        cases h1x : cachedTeacher acc.st e.teacher_name with
        | none => simp only [h1x] at hek; exact Option.noConfusion hek
        | some t0 =>
          simp only [h1x] at hek
          cases h2x : cachedClassroom acc.st e.classroom_title with
          | none => simp only [h2x] at hek; exact Option.noConfusion hek
          | some c0 =>
            simp only [h2x] at hek
            cases h3x : cachedSubject acc.st e.subject_title with
            | none => simp only [h3x] at hek; exact Option.noConfusion hek
            | some sj0 =>
              simp only [h3x] at hek
              cases h4x : cachedGroupRow acc.st e.group_id with
              | none => simp only [h4x] at hek; exact Option.noConfusion hek
              | some g0 =>
                simp only [h4x] at hek
                cases h5x : cachedLessonTime acc.st d e.lesson_number with
                | none => simp only [h5x] at hek; exact Option.noConfusion hek
                | some lt0 =>
                  simp only [h5x] at hek
                  have hk := Option.some.inj hek
                  have hTt : T.1 = t0 := by
                    have h1b : cacheGet T.2.cache (teacherKey e.teacher_name) =
                        some (CVal.teacherV t0) :=
                      h1p _ _ (cachedTeacher_eq_some h1x)
                    have := Option.some.inj (h1k.symm.trans h1b)
                    exact CVal.teacherV.inj this
                  have hCc : C.1 = c0 := by
                    have h2b : cacheGet C.2.cache (classroomKey e.classroom_title) =
                        some (CVal.classroomV c0) :=
                      h2p _ _ (h1p _ _ (cachedClassroom_eq_some h2x))
                    have := Option.some.inj (h2k.symm.trans h2b)
                    exact CVal.classroomV.inj this
                  have hSs : S.1 = sj0 := by
                    have h3b : cacheGet S.2.cache (subjectKey e.subject_title) =
                        some (CVal.subjectV sj0) :=
                      h3p _ _ (h2p _ _ (h1p _ _ (cachedSubject_eq_some h3x)))
                    have := Option.some.inj (h3k.symm.trans h3b)
                    exact CVal.subjectV.inj this
                  have hGg : g = g0 := by
                    have hgS : cacheGet S.2.cache (groupByIdKey e.group_id) =
                        some (CVal.groupV g0) :=
                      h3p _ _ (h2p _ _ (h1p _ _ (cachedGroupRow_eq_some h4x)))
                    have hG1 : G.1 = some g0 := by
                      rw [hG, get_cached_by_id_group_hit S.2 e.group_id g0 hgS]
                    rw [hgr] at hG1
                    exact Option.some.inj hG1
                  have hLTlt : LT.1 = lt0 := by
                    have h5b : cacheGet LT.2.cache (lessonTimeKey d e.lesson_number) =
                        some (CVal.lessonTimeV lt0) :=
                      h5p _ _ (hpersG _ _ (cachedLessonTime_eq_some h5x))
                    have := Option.some.inj (h5k.symm.trans h5b)
                    exact CVal.lessonTimeV.inj this
                  have hkK : k = K := by
                    rw [← hk, hK, hL, hTt, hCc, hSs, hGg, hLTlt]
                  rw [hkK, cacheGet_set_eq, hts5]
      have hq5 : cacheGet LT.2.cache K = cacheGet acc.st.cache K := hLmark K hKfst
      cases hq : cacheGet acc.st.cache K with
      | none =>
        have hq5n : cacheGet LT.2.cache K = none := hq5.trans hq
        simp only [hq5n, eq_self_iff_true, if_true]
        refine ⟨WFCache_set LT.2.cache K (CVal.tsV LT.2.current_timestamp) h5w
            (by rw [hK]; exact wfVal_mark L LT.2.current_timestamp),
          hts5, hles5, hnle, ⟨?_, ?_⟩, ?_, ⟨[L], rfl, ?_, ?_⟩, fun k hek => hW8 k hek⟩
        · intro k v h hnts
          by_cases hkK : k = K
          · subst hkK; rw [hq] at h; cases h
          · rw [cacheGet_set_ne _ _ _ _ hkK]
            exact hpersAll k v h
        · intro k h
          by_cases hkK : k = K
          · subst hkK; rw [hq] at h; cases h
          · rw [cacheGet_set_ne _ _ _ _ hkK]
            exact hpersAll k _ h
        · intro k t ht h
          by_cases hkK : k = K
          · subst hkK; rw [hq] at h; cases h
          · exact ⟨t, ht, by rw [cacheGet_set_ne _ _ _ _ hkK]; exact hpersAll k _ h⟩
        · intro l hl t ht hmark
          rw [List.mem_singleton.mp hl, ← hK, hq] at hmark
          cases hmark
        · intro l hl
          rw [List.mem_singleton.mp hl]
      | some v =>
        obtain ⟨t, rfl⟩ := (hwf K v hq).2.2.2.2.2 hKfst
        have hq5n : cacheGet LT.2.cache K = some (CVal.tsV t) := hq5.trans hq
        by_cases ht0 : t = 0
        · subst ht0
          have htr : (!(CVal.truthy (CVal.tsV 0))) = true := by
            simp [CVal.truthy]
          simp only [hq5n, htr, eq_self_iff_true, if_true]
          refine ⟨WFCache_set LT.2.cache K (CVal.tsV LT.2.current_timestamp) h5w
              (by rw [hK]; exact wfVal_mark L LT.2.current_timestamp),
            hts5, hles5, hnle, ⟨?_, ?_⟩, ?_, ⟨[L], rfl, ?_, ?_⟩, fun k hek => hW8 k hek⟩
          · intro k v h hnts
            by_cases hkK : k = K
            · subst hkK
              rw [hq] at h
              cases h
              exact absurd rfl (hnts 0)
            · rw [cacheGet_set_ne _ _ _ _ hkK]
              exact hpersAll k v h
          · intro k h
            by_cases hkK : k = K
            · subst hkK
              rw [hq] at h
              have := CVal.tsV.inj (Option.some.inj h)
              exact absurd this.symm hts
            · rw [cacheGet_set_ne _ _ _ _ hkK]
              exact hpersAll k _ h
          · intro k t' ht' h
            by_cases hkK : k = K
            · subst hkK
              rw [hq] at h
              have := CVal.tsV.inj (Option.some.inj h)
              exact absurd this.symm ht'
            · exact ⟨t', ht', by rw [cacheGet_set_ne _ _ _ _ hkK]; exact hpersAll k _ h⟩
          · intro l hl t' ht' hmark
            rw [List.mem_singleton.mp hl, ← hK, hq] at hmark
            have := CVal.tsV.inj (Option.some.inj hmark)
            exact absurd this.symm ht'
          · intro l hl
            rw [List.mem_singleton.mp hl]
        · have htr : (!(CVal.truthy (CVal.tsV t))) = false := by
            simp [CVal.truthy, ht0]
          simp only [hq5n, htr, Bool.false_eq_true, if_false]
          refine ⟨WFCache_set LT.2.cache K (CVal.tsV LT.2.current_timestamp) h5w
              (by rw [hK]; exact wfVal_mark L LT.2.current_timestamp),
            hts5, hles5, hnle, ⟨?_, ?_⟩, ?_,
            ⟨[], (List.append_nil _).symm, fun l hl => absurd hl (List.not_mem_nil l),
              fun l hl => absurd hl (List.not_mem_nil l)⟩, fun k hek => hW8 k hek⟩
          · intro k v h hnts
            by_cases hkK : k = K
            · subst hkK
              rw [hq] at h
              cases h
              exact absurd rfl (hnts t)
            · rw [cacheGet_set_ne _ _ _ _ hkK]
              exact hpersAll k v h
          · intro k h
            by_cases hkK : k = K
            · subst hkK
              rw [cacheGet_set_eq, hts5]
            · rw [cacheGet_set_ne _ _ _ _ hkK]
              exact hpersAll k _ h
          · intro k t' ht' h
            by_cases hkK : k = K
            · subst hkK
              refine ⟨acc.st.current_timestamp, hts, ?_⟩
              rw [cacheGet_set_eq, hts5]
            · exact ⟨t', ht', by rw [cacheGet_set_ne _ _ _ _ hkK]; exact hpersAll k _ h⟩

/-- The entry loop from an arbitrary well-formed state at a nonzero epoch:
the per-step guarantees of `save_step_weak`, folded, plus: every entry
whose fingerprint was resolvable at loop entry ends the loop with its mark
carrying the current epoch. -/
theorem save_fold_weak :
    ∀ (es : List Entry) (acc : SaveAcc),
      WFCache acc.st.cache → acc.st.current_timestamp ≠ 0 →
      WFCache (es.foldl save_step acc).st.cache ∧
      (es.foldl save_step acc).st.current_timestamp = acc.st.current_timestamp ∧
      (es.foldl save_step acc).st.lessons = acc.st.lessons ∧
      acc.st.next_id ≤ (es.foldl save_step acc).st.next_id ∧
      CacheMono acc.st.current_timestamp acc.st.cache
        (es.foldl save_step acc).st.cache ∧
      (∀ k t, t ≠ 0 → cacheGet acc.st.cache k = some (CVal.tsV t) →
        ∃ t', t' ≠ 0 ∧
          cacheGet (es.foldl save_step acc).st.cache k = some (CVal.tsV t')) ∧
      (∃ new, (es.foldl save_step acc).to_create = acc.to_create ++ new ∧
        (∀ l ∈ new, ∀ t, t ≠ 0 →
          cacheGet acc.st.cache (make_lesson_cache_key l) ≠ some (CVal.tsV t)) ∧
        (∀ l ∈ new, l.is_active = true)) ∧
      (∀ e ∈ es, ∀ k : CKey, entryKeyAt acc.st e = some k →
        cacheGet (es.foldl save_step acc).st.cache k =
          some (CVal.tsV acc.st.current_timestamp)) := by
  intro es
  induction es with
  | nil =>
    intro acc hwf hts
    exact ⟨hwf, rfl, rfl, Nat.le_refl _, ⟨fun k v h _ => h, fun k h => h⟩,
      fun k t ht h => ⟨t, ht, h⟩,
      ⟨[], (List.append_nil _).symm, fun l hl => absurd hl (List.not_mem_nil l),
        fun l hl => absurd hl (List.not_mem_nil l)⟩,
      fun e he => absurd he (List.not_mem_nil e)⟩
  | cons e rest ih =>
    intro acc hwf hts
    obtain ⟨w1, w2, w3, w4, w5, w6, ⟨n1, we, wp, wa⟩, w8⟩ :=
      save_step_weak acc e hwf hts
    have hts1 : (save_step acc e).st.current_timestamp ≠ 0 := by
      rw [w2]; exact hts
    obtain ⟨r1, r2, r3, r4, r5, r6, ⟨n2, re, rp, ra⟩, r8⟩ :=
      ih (save_step acc e) w1 hts1
    rw [w2] at r2 r5 r8
    rw [List.foldl_cons]
    refine ⟨r1, r2, r3.trans w3, Nat.le_trans w4 r4, CacheMono_trans w5 r5, ?_,
      ⟨n1 ++ n2, by rw [re, we, List.append_assoc], ?_, ?_⟩, ?_⟩
    · intro k t ht h
      obtain ⟨t1, ht1, h1⟩ := w6 k t ht h
      exact r6 k t1 ht1 h1
    · intro l hl t ht hmark
      rcases List.mem_append.mp hl with hl | hl
      · exact wp l hl t ht hmark
      · obtain ⟨t1, ht1, h1⟩ := w6 _ t ht hmark
        exact rp l hl t1 ht1 h1
    · intro l hl
      rcases List.mem_append.mp hl with hl | hl
      · exact wa l hl
      · exact ra l hl
    · intro e' he' k hek
      rcases List.mem_cons.mp he' with rfl | he'
      · exact r5.2 k (w8 k hek)
      · exact r8 e' he' k (entryKeyAt_mono e' w5 k hek)

/-- A lesson whose fingerprint mark carries the state's current epoch is
never selected for deactivation. -/
theorem shouldDeactivate_false_of_fresh (st : St) (gid : Nat) (today : Date) (l : Lesson)
    (h : cacheGet st.cache (make_lesson_cache_key l) =
      some (CVal.tsV st.current_timestamp)) :
    shouldDeactivate st gid today l = false := by
  unfold shouldDeactivate markMissingOrDifferent
  simp only [h]
  simp

/-- The sweep's per-lesson rewrite preserves fingerprints. -/
theorem key_sweepMap (st : St) (gid : Nat) (today : Date) (l : Lesson) :
    make_lesson_cache_key
      (if shouldDeactivate st gid today l then { l with is_active := false } else l) =
      make_lesson_cache_key l := by
  by_cases h : shouldDeactivate st gid today l
  · rw [if_pos h]
    rfl
  · rw [if_neg h]

/-- A key holding a current-epoch mark is not stale. -/
theorem staleMark_false_of_fresh (c : Cache) (cur : Nat) (k : CKey) (hcur : cur ≠ 0)
    (h : cacheGet c k = some (CVal.tsV cur)) : staleMark c cur k = false := by
  unfold staleMark
  simp only [h]
  simp [CVal.truthy, hcur]

/-- C3: a fingerprint appearing in the input entries of two consecutive
cycles with epochs `E` and `E+1` — create phase then sweep phase in each
cycle, in `process_group_lessons_data` order — names, after the first
cycle, exactly one Lesson, which is active; and after the second cycle the
very same row is still present, still active, and still the only Lesson
with that fingerprint: the sweep of a cycle never deactivates a Lesson
whose mark was just (re)written with that cycle's epoch by the preceding
create phase.  Hypotheses: nonzero first epoch, a clean initial lesson
table, a well-formed cache with no pre-existing fingerprint marks, and the
first cycle's groups cached. -/
theorem two_cycle_invariant (st : St) (ld1 ld2 : List Entry) (e : Entry)
    (today1 today2 : Date) (d0 : Date)
    (hts : st.current_timestamp ≠ 0)
    (hlessons : st.lessons = [])
    (hwf : WFCache st.cache)
    (hm : ∀ k t, cacheGet st.cache k ≠ some (CVal.tsV t))
    (hg1 : ∀ e' ∈ ld1, ∀ d : Date, e'.date = some d → ∃ g,
      cacheGet st.cache (groupByIdKey e'.group_id) = some (CVal.groupV g))
    (he1 : e ∈ ld1) (he2 : e ∈ ld2) (hed : e.date = some d0) :
    ∃ (k : CKey) (l1 : Lesson),
      entryKeyAt (process_group_lessons_data st ld1 today1) e = some k ∧
      l1 ∈ (process_group_lessons_data st ld1 today1).lessons ∧
      make_lesson_cache_key l1 = k ∧
      l1.is_active = true ∧
      (∀ l' ∈ (process_group_lessons_data st ld1 today1).lessons,
        make_lesson_cache_key l' = k → l' = l1) ∧
      l1 ∈ (process_group_lessons_data
        { process_group_lessons_data st ld1 today1 with
            current_timestamp := st.current_timestamp + 1 } ld2 today2).lessons ∧
      (∀ l' ∈ (process_group_lessons_data
        { process_group_lessons_data st ld1 today1 with
            current_timestamp := st.current_timestamp + 1 } ld2 today2).lessons,
        make_lesson_cache_key l' = k → l' = l1) := by
  obtain ⟨eh1, tl1, rfl⟩ : ∃ eh tl, ld1 = eh :: tl := by
    cases ld1 with
    | nil => cases he1
    | cons a b => exact ⟨a, b, rfl⟩
  obtain ⟨eh2, tl2, rfl⟩ : ∃ eh tl, ld2 = eh :: tl := by
    cases ld2 with
    | nil => cases he2
    | cons a b => exact ⟨a, b, rfl⟩
  have hst1eq : process_group_lessons_data st (eh1 :: tl1) today1 =
      (deactivate_canceled_lessons (save_lessons st (eh1 :: tl1)).2
        eh1.group_id today1).2 := rfl
  rw [hst1eq]
  -- cycle 1, create phase
  have hinv0 : SaveInv st { st := st, to_create := [], affected := ∅ } :=
    ⟨rfl, rfl, hwf, fun k t h => absurd h (hm k t),
      fun l hl => absurd hl (List.not_mem_nil l), List.nodup_nil,
      fun l hl => absurd hl (List.not_mem_nil l)⟩
  obtain ⟨hinvF, ⟨new1, hnew1⟩, hmono1, hproc1⟩ :=
    save_fold_spec st hts (eh1 :: tl1) { st := st, to_create := [], affected := ∅ }
      hinv0 hg1
  set accF := (eh1 :: tl1).foldl save_step
    { st := st, to_create := [], affected := ∅ } with haccF
  set created1 := assignIds accF.st.next_id accF.to_create with hcreated1
  set A := (save_lessons st (eh1 :: tl1)).2 with hAdef
  have hkeys1 : created1.map make_lesson_cache_key =
      accF.to_create.map make_lesson_cache_key := assignIds_map_key _ _
  have hsave1 : A = if accF.to_create = [] then accF.st
      else bulk_create_lessons accF.st accF.to_create := rfl
  have hAc : A.cache = accF.st.cache := by
    rw [hsave1]
    by_cases hemp : accF.to_create = []
    · rw [if_pos hemp]
    · rw [if_neg hemp, bulk_create_lessons_spec]
  have hAl : A.lessons = created1 := by
    rw [hsave1]
    by_cases hemp : accF.to_create = []
    · rw [if_pos hemp, hinvF.lessons_eq, hlessons, hcreated1, hemp]
      simp [assignIds]
    · rw [if_neg hemp, bulk_create_lessons_spec]
      show accF.st.lessons ++ assignIds accF.st.next_id accF.to_create = created1
      rw [hinvF.lessons_eq, hlessons, List.nil_append]
  have hAts : A.current_timestamp = st.current_timestamp := by
    rw [hsave1]
    by_cases hemp : accF.to_create = []
    · rw [if_pos hemp]; exact hinvF.ts_eq
    · rw [if_neg hemp, bulk_create_lessons_spec]; exact hinvF.ts_eq
  have hAnext : A.next_id = accF.st.next_id + accF.to_create.length := by
    rw [hsave1]
    by_cases hemp : accF.to_create = []
    · rw [if_pos hemp, hemp]
      rfl
    · rw [if_neg hemp, bulk_create_lessons_spec]
  have hAwf : WFCache A.cache := by rw [hAc]; exact hinvF.wf
  -- the distinguished fingerprint
  obtain ⟨k, hekF, hmarkF, lq, hlq, hklq⟩ := hproc1 e he1 d0 hed
  have hlqm : make_lesson_cache_key lq ∈ created1.map make_lesson_cache_key := by
    rw [hkeys1]
    exact List.mem_map_of_mem _ hlq
  obtain ⟨l1, hl1c, hkl1⟩ := List.mem_map.mp hlqm
  have hkl1k : make_lesson_cache_key l1 = k := hkl1.trans hklq
  have hmarks1 : ∀ l ∈ created1, cacheGet A.cache (make_lesson_cache_key l) =
      some (CVal.tsV st.current_timestamp) := by
    intro l hl
    have hmem : make_lesson_cache_key l ∈ accF.to_create.map make_lesson_cache_key := by
      rw [← hkeys1]
      exact List.mem_map_of_mem _ hl
    obtain ⟨l', hl', hkl'⟩ := List.mem_map.mp hmem
    rw [hAc, ← hkl']
    exact hinvF.queued_marked l' hl'
  have hnodup1 : (created1.map make_lesson_cache_key).Nodup := by
    rw [hkeys1]
    exact hinvF.keys_nodup
  have hact1 : ∀ l ∈ created1, l.is_active = true :=
    mem_assignIds_active _ _ hinvF.queued_active
  have hsd1 : ∀ l ∈ created1, shouldDeactivate A eh1.group_id today1 l = false := by
    intro l hl
    apply shouldDeactivate_false_of_fresh
    rw [hAts]
    exact hmarks1 l hl
  have hids1 : (A.lessons.map (fun l => l.id)).Nodup := by
    rw [hAl, hcreated1, assignIds_ids]
    exact List.nodup_range' _ _
  -- cycle 1, sweep phase
  obtain ⟨d1, d2, d3, d4, d5, d6, ⟨d7a, d7b, d7c, d7d⟩, d8⟩ :=
    deactivate_spec_lemma A eh1.group_id today1 (by rw [hAts]; exact hts) hids1
  set st1 := (deactivate_canceled_lessons A eh1.group_id today1).2 with hst1def
  have hst1less : st1.lessons = created1.map (fun l =>
      if shouldDeactivate A eh1.group_id today1 l then { l with is_active := false }
      else l) := by
    rw [hst1def, d1, hAl]
  have hf1l1 : (if shouldDeactivate A eh1.group_id today1 l1
      then { l1 with is_active := false } else l1) = l1 := by
    simp [hsd1 l1 hl1c]
  have hl1st1 : l1 ∈ st1.lessons := by
    rw [hst1less]
    exact List.mem_map.mpr ⟨l1, hl1c, hf1l1⟩
  have huniq1 : ∀ l' ∈ st1.lessons, make_lesson_cache_key l' = k → l' = l1 := by
    intro l' hl' hk'
    rw [hst1less] at hl'
    obtain ⟨lb, hlb, rfl⟩ := List.mem_map.mp hl'
    have hkb : make_lesson_cache_key lb = k := by
      rw [← key_sweepMap A eh1.group_id today1 lb]
      exact hk'
    have hlbl1 : lb = l1 :=
      List.inj_on_of_nodup_map hnodup1 hlb hl1c (by rw [hkb, hkl1k])
    rw [hlbl1, hf1l1]
  have hst1k : cacheGet st1.cache k = some (CVal.tsV st.current_timestamp) := by
    have hfresh : staleMark A.cache A.current_timestamp k = false :=
      staleMark_false_of_fresh A.cache A.current_timestamp k
        (by rw [hAts]; exact hts)
        (by rw [hAts, ← hkl1k]; exact hmarks1 l1 hl1c)
    rw [hst1def, d6 k hfresh, ← hkl1k]
    exact hmarks1 l1 hl1c
  have hekA : entryKeyAt A e = some k := by
    rw [entryKeyAt_congr A accF.st e hAc]
    exact hekF
  have hekst1 : entryKeyAt st1 e = some k := by
    rw [hst1def]
    exact (entryKeyAt_congr_nonLesson A
      (deactivate_canceled_lessons A eh1.group_id today1).2 e d5).trans hekA
  have hst1ts : st1.current_timestamp = st.current_timestamp := by
    rw [hst1def, d7a, hAts]
  have hst1wf : WFCache st1.cache := by
    rw [hst1def]
    exact d8 hAwf
  have hst1ids : st1.lessons.map (fun l => l.id) = created1.map (fun l => l.id) := by
    rw [hst1less]
    exact sweepMap_ids A eh1.group_id today1 created1
  have hst1next : st1.next_id = accF.st.next_id + accF.to_create.length := by
    rw [hst1def, d7b, hAnext]
  -- the epoch advances
  set st1b : St := { st1 with current_timestamp := st.current_timestamp + 1 } with hst1bdef
  have hwf1b : WFCache st1b.cache := hst1wf
  have hts1b : st1b.current_timestamp ≠ 0 := Nat.succ_ne_zero _
  -- cycle 2, create phase
  obtain ⟨v1, v2, v3, v4, v5, v6, ⟨new2, ve, vp, va⟩, v8⟩ :=
    save_fold_weak (eh2 :: tl2) { st := st1b, to_create := [], affected := ∅ }
      hwf1b hts1b
  set accW := (eh2 :: tl2).foldl save_step
    { st := st1b, to_create := [], affected := ∅ } with haccW
  set created2 := assignIds accW.st.next_id accW.to_create with hcreated2
  set B := (save_lessons st1b (eh2 :: tl2)).2 with hBdef
  have hsave2 : B = if accW.to_create = [] then accW.st
      else bulk_create_lessons accW.st accW.to_create := rfl
  have hBc : B.cache = accW.st.cache := by
    rw [hsave2]
    by_cases hemp : accW.to_create = []
    · rw [if_pos hemp]
    · rw [if_neg hemp, bulk_create_lessons_spec]
  have hBl : B.lessons = st1.lessons ++ created2 := by
    rw [hsave2]
    by_cases hemp : accW.to_create = []
    · rw [if_pos hemp]
      rw [show accW.st.lessons = st1.lessons from v3, hcreated2, hemp]
      simp [assignIds]
    · rw [if_neg hemp, bulk_create_lessons_spec]
      show accW.st.lessons ++ assignIds accW.st.next_id accW.to_create =
        st1.lessons ++ created2
      rw [show accW.st.lessons = st1.lessons from v3]
  have hBts2 : B.current_timestamp = st.current_timestamp + 1 := by
    rw [hsave2]
    by_cases hemp : accW.to_create = []
    · rw [if_pos hemp]
      exact v2
    · rw [if_neg hemp, bulk_create_lessons_spec]
      exact v2
  have hBwf : WFCache B.cache := by
    rw [hBc]
    exact v1
  have hek1b : entryKeyAt st1b e = some k := by
    rw [entryKeyAt_congr st1b st1 e rfl]
    exact hekst1
  have hBmark : cacheGet B.cache k = some (CVal.tsV (st.current_timestamp + 1)) := by
    rw [hBc]
    exact v8 e he2 k hek1b
  have hc2k : ∀ l ∈ created2, make_lesson_cache_key l ≠ k := by
    intro l hl hkeq
    have hkm : make_lesson_cache_key l ∈ accW.to_create.map make_lesson_cache_key :=
      mem_assignIds_key _ _ l hl
    obtain ⟨l0, hl0, hkl0⟩ := List.mem_map.mp hkm
    have hl0n : l0 ∈ new2 := by
      rw [ve] at hl0
      simpa using hl0
    apply vp l0 hl0n st.current_timestamp hts
    rw [hkl0, hkeq]
    exact hst1k
  have hBids : (B.lessons.map (fun l => l.id)).Nodup := by
    rw [hBl, List.map_append, hst1ids, hcreated1, assignIds_ids, hcreated2, assignIds_ids]
    rw [List.nodup_append]
    refine ⟨List.nodup_range' _ _, List.nodup_range' _ _, ?_⟩
    intro x hx hx2
    rw [List.mem_range'_1] at hx hx2
    have h0 : st1.next_id ≤ accW.st.next_id := v4
    rw [hst1next] at h0
    exact absurd (Nat.lt_of_lt_of_le hx.2 (Nat.le_trans h0 hx2.1)) (Nat.lt_irrefl x)
  -- cycle 2, sweep phase
  obtain ⟨s1, s2, s3, s4, s5, s6, ⟨s7a, s7b, s7c, s7d⟩, s8⟩ :=
    deactivate_spec_lemma B eh2.group_id today2
      (by rw [hBts2]; exact Nat.succ_ne_zero _) hBids
  have hst2eq : process_group_lessons_data st1b (eh2 :: tl2) today2 =
      (deactivate_canceled_lessons B eh2.group_id today2).2 := rfl
  rw [hst2eq]
  set st2 := (deactivate_canceled_lessons B eh2.group_id today2).2 with hst2def
  have hsd2l1 : shouldDeactivate B eh2.group_id today2 l1 = false := by
    apply shouldDeactivate_false_of_fresh
    rw [hkl1k, hBts2]
    exact hBmark
  have hf2l1 : (if shouldDeactivate B eh2.group_id today2 l1
      then { l1 with is_active := false } else l1) = l1 := by
    simp [hsd2l1]
  have hst2less : st2.lessons = (st1.lessons ++ created2).map (fun l =>
      if shouldDeactivate B eh2.group_id today2 l then { l with is_active := false }
      else l) := by
    rw [hst2def, s1, hBl]
  have hl1st2 : l1 ∈ st2.lessons := by
    rw [hst2less]
    exact List.mem_map.mpr ⟨l1, List.mem_append_left created2 hl1st1, hf2l1⟩
  have huniq2 : ∀ l' ∈ st2.lessons, make_lesson_cache_key l' = k → l' = l1 := by
    intro l' hl' hk'
    rw [hst2less] at hl'
    obtain ⟨lb, hlb, rfl⟩ := List.mem_map.mp hl'
    have hkb : make_lesson_cache_key lb = k := by
      rw [← key_sweepMap B eh2.group_id today2 lb]
      exact hk'
    rcases List.mem_append.mp hlb with hlb1 | hlb2
    · have hlbl1 : lb = l1 := huniq1 lb hlb1 hkb
      rw [hlbl1, hf2l1]
    · exact absurd hkb (hc2k lb hlb2)
  exact ⟨k, l1, hekst1, hl1st1, hkl1k, hact1 l1 hl1c, huniq1, hl1st2, huniq2⟩

/-- Witness for C3 at a concrete state — one cached group, one dated entry,
the same entry list in both cycles, epochs 5 and 6. -/
theorem two_cycle_invariant_witness :
    exStCached.current_timestamp ≠ 0 ∧
    exStCached.lessons = [] ∧
    (∀ e' ∈ c1Ld, ∀ d : Date, e'.date = some d → ∃ g,
      cacheGet exStCached.cache (groupByIdKey e'.group_id) = some (CVal.groupV g)) ∧
    ({ group_id := 1, date := some ⟨2024, 9, 2⟩, lesson_number := "1",
       subject_title := "Математика", classroom_title := "101",
       teacher_name := "Иванов И.И.", subgroup := "0" } : Entry) ∈ c1Ld ∧
    (∃ (k : CKey) (l1 : Lesson),
      entryKeyAt (process_group_lessons_data exStCached c1Ld ⟨2024, 9, 1⟩)
        { group_id := 1, date := some ⟨2024, 9, 2⟩, lesson_number := "1",
          subject_title := "Математика", classroom_title := "101",
          teacher_name := "Иванов И.И.", subgroup := "0" } = some k ∧
      l1 ∈ (process_group_lessons_data exStCached c1Ld ⟨2024, 9, 1⟩).lessons ∧
      make_lesson_cache_key l1 = k ∧
      l1.is_active = true ∧
      (∀ l' ∈ (process_group_lessons_data exStCached c1Ld ⟨2024, 9, 1⟩).lessons,
        make_lesson_cache_key l' = k → l' = l1) ∧
      l1 ∈ (process_group_lessons_data
        { process_group_lessons_data exStCached c1Ld ⟨2024, 9, 1⟩ with
            current_timestamp := exStCached.current_timestamp + 1 }
        c1Ld ⟨2024, 9, 1⟩).lessons ∧
      (∀ l' ∈ (process_group_lessons_data
        { process_group_lessons_data exStCached c1Ld ⟨2024, 9, 1⟩ with
            current_timestamp := exStCached.current_timestamp + 1 }
        c1Ld ⟨2024, 9, 1⟩).lessons,
        make_lesson_cache_key l' = k → l' = l1)) :=
  ⟨by decide, rfl,
   fun e' he' d hd => ⟨exGroup, by rcases List.mem_singleton.mp he' with rfl; decide⟩,
   by decide,
   two_cycle_invariant exStCached c1Ld c1Ld
     { group_id := 1, date := some ⟨2024, 9, 2⟩, lesson_number := "1",
       subject_title := "Математика", classroom_title := "101",
       teacher_name := "Иванов И.И.", subgroup := "0" }
     ⟨2024, 9, 1⟩ ⟨2024, 9, 1⟩ ⟨2024, 9, 2⟩
     (by decide) rfl exStCached_wf exStCached_no_marks
     (fun e' he' d hd => ⟨exGroup, by rcases List.mem_singleton.mp he' with rfl; decide⟩)
     (by decide) (by decide) rfl⟩

end Eazy
